import Mathlib

/-!
# resumake.io, LaTeX template 2 (`generator/templates/template2/index.js`)

A shallow embedding of the template renderer `template2` and of its seven
section builders, together with the parts of the `common-tags` package
(`stripIndent`, `source`) and of the ECMAScript string library the renderer
calls.

Conventions of the embedding.

* `common-tags` is a dependency of the repository, not part of it.  Its tags
  are embedded from the package's sources (`TemplateTag`, `stripIndentTransformer`,
  `trimResultTransformer`, `splitStringTransformer`, `inlineArrayTransformer`);
  each regular expression they use is embedded as the function on strings that
  ECMAScript defines for it, and is quoted in the comment of that function.
* A JavaScript string is the list of its UTF-16 code units (`Str`).  The
  text of a template literal is written with `lit`, which is exact for the
  texts of this file (they contain no character outside the Basic
  Multilingual Plane).
* An optional field (`?string` in the Flow types) is an `Option`; `none` is
  the JavaScript value `undefined`.
* Reading a property of `undefined` raises a `TypeError`; the builders are
  therefore functions into `Except JSError`, and every property read of a value
  that may be `undefined` goes through `deref`.
-/

namespace Template2

/-! ## JavaScript strings -/

/-- A JavaScript string: the list of its UTF-16 code units. -/
abbrev Str := List Nat

/-- The code units of a literal text. -/
def lit (s : String) : Str := s.toList.map Char.toNat

/-- ECMAScript `LineTerminator`: LF, CR, U+2028, U+2029.  These are the
characters after which `^` matches in a multiline regular expression, and the
characters `.` does not match. -/
def isLineTerminator (c : Nat) : Bool :=
  c == 10 || c == 13 || c == 8232 || c == 8233

/-- ECMAScript white space as matched by `\s` and removed by
`String.prototype.trim`: `WhiteSpace` together with `LineTerminator`. -/
def isWhiteSpace (c : Nat) : Bool :=
  c == 9 || c == 10 || c == 11 || c == 12 || c == 13 || c == 32 || c == 160 ||
  c == 5760 || (8192 ≤ c && c ≤ 8202) || c == 8232 || c == 8233 || c == 8239 ||
  c == 8287 || c == 12288 || c == 65279

/-- The method `String.prototype.trim`. -/
def jsTrim (s : Str) : Str :=
  ((s.dropWhile isWhiteSpace).reverse.dropWhile isWhiteSpace).reverse

/-- The method `Array.prototype.join(sep)` on an array of strings. -/
def jsJoin (sep : Str) : List Str → Str
  | [] => []
  | [x] => x
  | x :: y :: rest => x ++ sep ++ jsJoin sep (y :: rest)

/-- The method `String.prototype.split(sep)` for a separator of one code unit. -/
def jsSplit (sep : Nat) : Str → List Str
  | [] => [[]]
  | c :: cs =>
    if c = sep then [] :: jsSplit sep cs
    else
      match jsSplit sep cs with
      | [] => [[c]]
      | t :: ts => (c :: t) :: ts

/-- The method `String.prototype.includes(c)` for a text of one code unit. -/
def jsIncludes (c : Nat) (s : Str) : Bool := s.any (· == c)

/-! ## JavaScript values -/

/-- The values that reach a template substitution in this module. -/
inductive JSVal where
  | undefined : JSVal
  | str : Str → JSVal
  | arr : List Str → JSVal
  deriving DecidableEq, Repr

/-- The conversion `String(v)`: the text a value contributes when it is
concatenated. -/
def JSVal.toStr : JSVal → Str
  | .undefined => lit "undefined"
  | .str s => s
  | .arr xs => jsJoin (lit ",") xs

/-- An optional string as a JavaScript value. -/
def ofOpt : Option Str → JSVal
  | none => .undefined
  | some s => .str s

/-- The error raised by a property read on `undefined`. -/
inductive JSError where
  | typeError : JSError
  deriving DecidableEq, Repr

/-- Property access `v.p` / method call `v.m()` on a value that may be
`undefined`. -/
def deref {α : Type} : Option α → Except JSError α
  | none => .error .typeError
  | some a => .ok a

/-- Truthiness of an optional string: `undefined` and `''` are falsy. -/
def truthy : Option Str → Bool
  | none => false
  | some s => !s.isEmpty

/-- Truthiness of an optional object or array: only `undefined` is falsy. -/
def truthyObj {α : Type} : Option α → Bool
  | none => false
  | some _ => true

/-- The expression `x || ''` for an optional string `x`. -/
def orEmpty (x : Option Str) : Str :=
  if truthy x then (ofOpt x).toStr else []

/-! ## The `common-tags` package -/

/-- Lengths of all matches of `/^[^\S\n]*(?=\S)/gm` (`String.prototype.match`
with a global multiline expression), in order.

The state is `none` while the scan is inside a line, and `some (k, lt)` while
it is `k` characters into a run of `[^\S\n]` that began at a line start, `lt`
telling whether the last character of the run is a line terminator.  A run
that ends at a non-white-space character is a match of length `k`; the next
match attempt starts at that character, where `^` holds again when `lt` is set,
giving an empty match.  A run that ends at LF or at the end of input is no
match. -/
def indentMatchesAux : Option (Nat × Bool) → Str → List Nat
  | _, [] => []
  | none, c :: cs =>
    indentMatchesAux (if isLineTerminator c then some (0, false) else none) cs
  | some (k, lt), c :: cs =>
    if c = 10 then indentMatchesAux (some (0, false)) cs
    else if isWhiteSpace c then indentMatchesAux (some (k + 1, isLineTerminator c)) cs
    else if 0 < k ∧ lt = true then k :: 0 :: indentMatchesAux none cs
    else k :: indentMatchesAux none cs

/-- The lengths `endResult.match(/^[^\S\n]*(?=\S)/gm).map(el => el.length)`;
`[]` stands for the `null` of a failed match. -/
def indentMatches (s : Str) : List Nat := indentMatchesAux (some (0, false)) s

/-- The value `match && Math.min(...lengths)`, with `0` for the falsy `null`. -/
def minIndent : List Nat → Nat
  | [] => 0
  | x :: xs => xs.foldl min x

/-- Whether `.{n}` matches at the head of `s`: the next `n` characters exist
and none is a line terminator. -/
def canStrip : Nat → Str → Bool
  | 0, _ => true
  | _ + 1, [] => false
  | n + 1, c :: cs => !isLineTerminator c && canStrip n cs

/-- The replacement `endResult.replace(new RegExp('^.{n}', 'gm'), '')` for
`n ≥ 1`.  `drop` counts the characters of the current match still to be
removed, `atStart` tells whether the current position is the start of the
input or follows a line terminator. -/
def stripAux (n : Nat) : Nat → Bool → Str → Str
  | _, _, [] => []
  | 0, atStart, c :: cs =>
    if atStart && canStrip n (c :: cs) then stripAux n (n - 1) false cs
    else c :: stripAux n 0 (isLineTerminator c) cs
  | k + 1, _, _ :: cs => stripAux n k false cs

/-- The `onEndResult` of `stripIndentTransformer()`: remove the shortest
leading indentation from each line. -/
def stripIndentTransformer (endResult : Str) : Str :=
  let indent := minIndent (indentMatches endResult)
  if indent ≠ 0 then stripAux indent 0 true endResult else endResult

/-- The `onEndResult` of `trimResultTransformer()`. -/
def trimResultTransformer (endResult : Str) : Str := jsTrim endResult

/-- The `onSubstitution` of `splitStringTransformer('\n')`: a string that
contains a line feed becomes the array of its lines. -/
def splitStringTransformer (substitution : JSVal) : JSVal :=
  match substitution with
  | .str s => if jsIncludes 10 s then .arr (jsSplit 10 s) else .str s
  | v => v

/-- The first capture of `resultSoFar.match(/(\n?[^\S\n]+)$/)`: the trailing
run of `[^\S\n]`, with the line feed before it when there is one; `none` when
the text does not end in such a character.  `rev` is the text reversed. -/
def trailingIndentRev : Str → Str → Option Str
  | acc, [] => if acc.isEmpty then none else some acc
  | acc, c :: cs =>
    if isWhiteSpace c && c != 10 then trailingIndentRev (c :: acc) cs
    else if acc.isEmpty then none
    else if c = 10 then some (c :: acc)
    else some acc

/-- The match `resultSoFar.match(/(\n?[^\S\n]+)$/)`. -/
def trailingIndent (resultSoFar : Str) : Option Str :=
  trailingIndentRev [] resultSoFar.reverse

/-- The `onSubstitution` of `inlineArrayTransformer()` with its default options
(`separator: ''`, no conjunction): an array is joined with the indentation
that ends `resultSoFar`, or with one space when there is none. -/
def inlineArrayTransformer (substitution : JSVal) (resultSoFar : Str) : JSVal :=
  match substitution with
  | .arr xs =>
    match trailingIndent resultSoFar with
    | some indent => .str (jsJoin indent xs)
    | none => .str (jsJoin [32] xs)
  | v => v

/-- The method `TemplateTag.processSubstitutions` folded over the strings of the template
(`strings.reduce`): each expression is transformed, converted to a string and
placed between the text so far and the next string. -/
def processSubstitutions (onSubstitution : JSVal → Str → JSVal) :
    Str → List Str → List JSVal → Str
  | resultSoFar, [], _ => resultSoFar
  | resultSoFar, s :: ss, [] =>
    processSubstitutions onSubstitution
      (resultSoFar ++ (onSubstitution .undefined resultSoFar).toStr ++ s) ss []
  | resultSoFar, s :: ss, e :: es =>
    processSubstitutions onSubstitution
      (resultSoFar ++ (onSubstitution e resultSoFar).toStr ++ s) ss es

/-- The text of a tagged template before the end-result transformers. -/
def templateText (onSubstitution : JSVal → Str → JSVal)
    (strings : List Str) (expressions : List JSVal) : Str :=
  match strings with
  | [] => []
  | s :: ss => processSubstitutions onSubstitution s ss expressions

/-- The tag `stripIndent`:
`new TemplateTag(stripIndentTransformer, trimResultTransformer)`. -/
def stripIndent (strings : List Str) (expressions : List JSVal) : Str :=
  trimResultTransformer
    (stripIndentTransformer (templateText (fun e _ => e) strings expressions))

/-- The tag `source` (an alias of `html`): `new TemplateTag(
splitStringTransformer('\n'), inlineArrayTransformer, stripIndentTransformer,
trimResultTransformer)`.  Later releases of the package put
`removeNonPrintingValuesTransformer` after the first transformer; it leaves
strings and arrays of strings, the only substitutions of this module, as they
are. -/
def source (strings : List Str) (expressions : List JSVal) : Str :=
  trimResultTransformer
    (stripIndentTransformer
      (templateText (fun e r => inlineArrayTransformer (splitStringTransformer e) r)
        strings expressions))

/-! ## The data model (`SanitizedValues`) -/

/-- Modelled from the spec: the Flow type of `basics.location` (declared in
`../../../types`, a file that is not among the sources): an object with an
optional `address`, the one property the template reads. -/
structure Location where
  address : Option Str := none
  deriving DecidableEq, Repr

/-- Modelled from the spec: the Flow type of `basics` (declared in
`../../../types`): the five optional properties the template destructures. -/
structure Basics where
  name : Option Str := none
  email : Option Str := none
  phone : Option Str := none
  location : Option Location := none
  website : Option Str := none
  deriving DecidableEq, Repr

/-- Modelled from the spec: the Flow type of an entry of `education`
(declared in `../../../types`): the seven optional strings the template
destructures. -/
structure School where
  institution : Option Str := none
  location : Option Str := none
  area : Option Str := none
  studyType : Option Str := none
  gpa : Option Str := none
  startDate : Option Str := none
  endDate : Option Str := none
  deriving DecidableEq, Repr

/-- Modelled from the spec: the Flow type of an entry of `work` (declared in
`../../../types`): five optional strings and the optional array of highlight
strings. -/
structure Job where
  company : Option Str := none
  position : Option Str := none
  location : Option Str := none
  startDate : Option Str := none
  endDate : Option Str := none
  highlights : Option (List Str) := none
  deriving DecidableEq, Repr

/-- Modelled from the spec: the Flow type of an entry of `skills` (declared
in `../../../types`). -/
structure Skill where
  name : Option Str := none
  details : Option Str := none
  deriving DecidableEq, Repr

/-- Modelled from the spec: the Flow type of an entry of `projects` (declared
in `../../../types`). -/
structure Project where
  name : Option Str := none
  description : Option Str := none
  technologies : Option Str := none
  link : Option Str := none
  deriving DecidableEq, Repr

/-- Modelled from the spec: the Flow type of an entry of `awards` (declared
in `../../../types`). -/
structure Award where
  name : Option Str := none
  details : Option Str := none
  date : Option Str := none
  location : Option Str := none
  deriving DecidableEq, Repr

/-- Modelled from the spec: the Flow type `SanitizedValues` of the argument of
`template2` (declared in `../../../types`): six optional top-level keys. -/
structure SanitizedValues where
  basics : Option Basics := none
  education : Option (List School) := none
  work : Option (List Job) := none
  projects : Option (List Project) := none
  skills : Option (List Skill) := none
  awards : Option (List Award) := none
  deriving DecidableEq, Repr

/-- What the skills builder reads from a project object handed to it: the
properties `name` and `details`, of which a project has only `name`. -/
def Project.asSkill (p : Project) : Skill :=
  { name := p.name, details := none }

/-- What the projects builder reads from a skill object handed to it: the
properties `description`, `name`, `technologies` and `link`, of which a skill
has only `name`. -/
def Skill.asProject (s : Skill) : Project :=
  { name := s.name, description := none, technologies := none, link := none }

/-! ## The section builders -/

/-- The static text of the template literal in `generateHeader`. -/
def headerTemplate : Str :=
  lit (String.join [
    "\n",
    "    %!TEX TS-program = xelatex\n",
    "    %!TEX encoding = UTF-8 Unicode\n",
    "    % Awesome CV LaTeX Template\n",
    "    %\n",
    "    % This template has been downloaded from:\n",
    "    % https://github.com/posquit0/Awesome-CV\n",
    "    %\n",
    "    % Author:\n",
    "    % Claud D. Park <posquit0.bj@gmail.com>\n",
    "    % http://www.posquit0.com\n",
    "    %\n",
    "    % Template license:\n",
    "    % CC BY-SA 4.0 (https://creativecommons.org/licenses/by-sa/4.0/)\n",
    "    %\n",
    "\n",
    "\n",
    "    %%%%%%%%%%%%%%%%%%%%%%%%%%%%%%%%%%%%%%\n",
    "    %     Configuration\n",
    "    %%%%%%%%%%%%%%%%%%%%%%%%%%%%%%%%%%%%%%\n",
    "    %%% Themes: Awesome-CV\n",
    "    \\documentclass[]\x7bawesome-cv\x7d\n",
    "    \\usepackage\x7btextcomp\x7d\n",
    "    %%% Override a directory location for fonts(default: \x27fonts/\x27)\n",
    "    \\fontdir[fonts/]\n",
    "\n",
    "    %%% Configure a directory location for sections\n",
    "    \\newcommand*\x7b\\sectiondir\x7d\x7bresume/\x7d\n",
    "\n",
    "    %%% Override color\n",
    "    % Awesome Colors: awesome-emerald, awesome-skyblue, awesome-red, awesome-pink, awesome-orange\n",
    "    %                 awesome-nephritis, awesome-concrete, awesome-darknight\n",
    "    %% Color for highlight\n",
    "    % Define your custom color if you don\x27t like awesome colors\n",
    "    \\colorlet\x7bawesome\x7d\x7bawesome-red\x7d\n",
    "    %\\definecolor\x7bawesome\x7d\x7bHTML\x7d\x7bCA63A8\x7d\n",
    "    %% Colors for text\n",
    "    %\\definecolor\x7bdarktext\x7d\x7bHTML\x7d\x7b414141\x7d\n",
    "    %\\definecolor\x7btext\x7d\x7bHTML\x7d\x7b414141\x7d\n",
    "    %\\definecolor\x7bgraytext\x7d\x7bHTML\x7d\x7b414141\x7d\n",
    "    %\\definecolor\x7blighttext\x7d\x7bHTML\x7d\x7b414141\x7d\n",
    "\n",
    "    %%% Override a separator for social informations in header(default: \x27 | \x27)\n",
    "    %\\headersocialsep[\\quad\\textbar\\quad]\n",
    "  "])
/-- The function `generateHeader()`. -/
def generateHeader : Str := stripIndent [headerTemplate] []

/-- The method `Array.prototype.slice(b, e)` for `0 ≤ b`, `0 ≤ e`. -/
def jsSlice {α : Type} (b e : Nat) (xs : List α) : List α := (xs.take e).drop b

/-- The variable `nameLine` of `generateProfileSection`. -/
def nameLine (name : Option Str) : Except JSError Str :=
  if truthy name then do
    let nm ← deref name
    let names := jsSplit 32 nm
    let nameStart := ofOpt names.head?
    let nameEnd : Str :=
      if names.length = 1 then [] else jsJoin [32] (jsSlice 1 names.length names)
    pure (lit "\\headerfirstnamestyle\x7b" ++ nameStart.toStr ++
      lit "\x7d \\headerlastnamestyle\x7b" ++ nameEnd ++ lit "\x7d \\\\")
  else pure []

/-- The variable `emailLine`. -/
def emailLine (email : Option Str) : Str :=
  if truthy email then lit "\x7b\\faEnvelope\\ " ++ (ofOpt email).toStr ++ lit "\x7d" else []

/-- The variable `phoneLine`. -/
def phoneLine (phone : Option Str) : Str :=
  if truthy phone then lit "\x7b\\faMobile\\ " ++ (ofOpt phone).toStr ++ lit "\x7d" else []

/-- The variable `addressLine`. -/
def addressLine (location : Location) : Str :=
  if truthy location.address then
    lit "\x7b\\faMapMarker\\ " ++ (ofOpt location.address).toStr ++ lit "\x7d"
  else []

/-- The variable `websiteLine`. -/
def websiteLine (website : Option Str) : Str :=
  if truthy website then lit "\x7b\\faLink\\ " ++ (ofOpt website).toStr ++ lit "\x7d" else []

/-- The variable `info`: the four contact tokens, the empty ones filtered
out (`filter(Boolean)`), joined with `' | '`. -/
def info (b : Basics) : Str :=
  let location := b.location.getD {}
  jsJoin (lit " | ")
    ([emailLine b.email, phoneLine b.phone, addressLine location, websiteLine b.website].filter
      (fun t => !t.isEmpty))

/-- The function `generateProfileSection(basics)`. -/
def generateProfileSection (basics : Option Basics) : Except JSError Str :=
  if !truthyObj basics then pure []
  else do
    let b ← deref basics
    let nameLine ← nameLine b.name
    let info := info b
    pure (stripIndent
      [lit "\n    %%%%%%%%%%%%%%%%%%%%%%%%%%%%%%%%%%%%%%\n    %     Profile\n    %%%%%%%%%%%%%%%%%%%%%%%%%%%%%%%%%%%%%%\n    \\begin\x7bcenter\x7d\n    ",
       lit "\n    \\vspace\x7b2mm\x7d\n    ",
       lit "\n    \\end\x7bcenter\x7d\n  "]
      [.str nameLine, .str info])

/-- The variable `degreeLine` of the education entry. -/
def degreeLine (school : School) : JSVal :=
  if truthy school.studyType && truthy school.area then
    .str ((ofOpt school.studyType).toStr ++ lit " in " ++ (ofOpt school.area).toStr)
  else if truthy school.studyType || truthy school.area then
    (if truthy school.studyType then ofOpt school.studyType else ofOpt school.area)
  else .str []

/-- The variable `dateRange` of the education entry. -/
def educationDateRange (school : School) : JSVal :=
  if truthy school.startDate && truthy school.endDate then
    .str ((ofOpt school.startDate).toStr ++ lit " – " ++ (ofOpt school.endDate).toStr)
  else if truthy school.startDate then
    .str ((ofOpt school.startDate).toStr ++ lit " – Present")
  else ofOpt school.endDate

/-- The strings of the five-argument `\cventry` template of the education
and experience entries. -/
def cventryStrings : List Str :=
  [lit "\n      \\cventry\n        \x7b",
   lit "\x7d\n        \x7b",
   lit "\x7d\n        \x7b",
   lit "\x7d\n        \x7b",
   lit "\x7d\n        \x7b",
   lit "\x7d\n    "]

/-- The five substitutions of the education entry. -/
def educationArgs (school : School) : List JSVal :=
  [degreeLine school,
   .str (orEmpty school.institution),
   .str (orEmpty school.location),
   educationDateRange school,
   .str (if truthy school.gpa then lit "GPA: " ++ (ofOpt school.gpa).toStr else [])]

/-- The callback of `education.map`. -/
def educationEntry (school : School) : Str :=
  stripIndent cventryStrings (educationArgs school)

/-- The function `generateEducationSection(education)`. -/
def generateEducationSection (education : Option (List School)) : Except JSError Str :=
  if !truthyObj education then pure []
  else do
    let schools ← deref education
    pure (source
      [lit "\n  %%%%%%%%%%%%%%%%%%%%%%%%%%%%%%%%%%%%%%\n  %     Education\n  %%%%%%%%%%%%%%%%%%%%%%%%%%%%%%%%%%%%%%\n  \\cvsection\x7bEducation\x7d\n  \\begin\x7bcventries\x7d\n  ",
       lit "\n  \\end\x7bcventries\x7d\n\n  \\vspace\x7b-2mm\x7d\n  "]
      [.arr (schools.map educationEntry)])

/-- The variable `dateRange` of the experience entry. -/
def experienceDateRange (job : Job) : JSVal :=
  if truthy job.startDate && truthy job.endDate then
    .str ((ofOpt job.startDate).toStr ++ lit " – " ++ (ofOpt job.endDate).toStr)
  else if truthy job.startDate then
    .str ((ofOpt job.startDate).toStr ++ lit " – Present")
  else ofOpt job.endDate

/-- The expression `dateRange || ''` of the experience entry. -/
def jsValOrEmpty : JSVal → JSVal
  | .undefined => .str []
  | .str s => .str s
  | .arr xs => .arr xs

/-- The variable `dutyLines` of the experience entry. -/
def dutyLines (highlights : Option (List Str)) : Except JSError Str :=
  if truthyObj highlights then do
    let hs ← deref highlights
    pure (source
      [lit "\n        \\begin\x7bcvitems\x7d\n          ",
       lit "\n        \\end\x7bcvitems\x7d\n        "]
      [.arr (hs.map (fun duty => lit "\\item \x7b" ++ duty ++ lit "\x7d"))])
  else pure []

/-- The callback of `work.map`. -/
def experienceEntry (job : Job) : Except JSError Str := do
  let dateRange := experienceDateRange job
  let dutyLines ← dutyLines job.highlights
  pure (stripIndent cventryStrings
    [.str (orEmpty job.position),
     .str (orEmpty job.company),
     .str (orEmpty job.location),
     jsValOrEmpty dateRange,
     .str dutyLines])

/-- The function `generateExperienceSection(work)`. -/
def generateExperienceSection (work : Option (List Job)) : Except JSError Str :=
  if !truthyObj work then pure []
  else do
    let jobs ← deref work
    let entries ← jobs.mapM experienceEntry
    pure (source
      [lit "\n  %%%%%%%%%%%%%%%%%%%%%%%%%%%%%%%%%%%%%%\n  %     Experience\n  %%%%%%%%%%%%%%%%%%%%%%%%%%%%%%%%%%%%%%\n  \\cvsection\x7bExperience\x7d\n  \\begin\x7bcventries\x7d\n  ",
       lit "\n  \\end\x7bcventries\x7d\n  "]
      [.arr entries])

/-- The callback of `skills.map`: one row of the table. -/
def skillRow (skill : Skill) : Str :=
  let nameLine : Str :=
    if truthy skill.name then (ofOpt skill.name).toStr ++ lit ": " else []
  let detailsLine : Str := lit "\x7b\\skill\x7b " ++ orEmpty skill.details ++ lit "\x7d\x7d"
  nameLine ++ lit " & " ++ detailsLine ++ lit " \\\\"

/-- The function `generateSkillsSection(skills)`. -/
def generateSkillsSection (skills : Option (List Skill)) : Except JSError Str :=
  if !truthyObj skills then pure []
  else do
    let sk ← deref skills
    pure (source
      [lit "\n  \\cvsection\x7bSkills\x7d\n  \\begin\x7bcventries\x7d\n  \\cventry\n  \x7b\x7d\n  \x7b\\def\\arraystretch\x7b1.15\x7d\x7b\\begin\x7btabular\x7d\x7b l l \x7d\n  ",
       lit "\n  \\end\x7btabular\x7d\x7d\x7d\n  \x7b\x7d\n  \x7b\x7d\n  \x7b\x7d\n  \\end\x7bcventries\x7d\n\n  \\vspace\x7b-7mm\x7d\n  "]
      [.arr (sk.map skillRow)])

/-- The callback of `projects.map`. -/
def projectEntry (project : Project) : Str :=
  stripIndent
    [lit "\n      \\cventry\n        \x7b",
     lit "\x7d\n        \x7b",
     lit "\x7d\n        \x7b",
     lit "\x7d\n        \x7b",
     lit "\x7d\n        \x7b\x7d\n\n      \\vspace\x7b-5mm\x7d\n\n      "]
    [.str (orEmpty project.description),
     .str (orEmpty project.name),
     .str (orEmpty project.technologies),
     .str (orEmpty project.link)]

/-- The function `generateProjectsSection(projects)`. -/
def generateProjectsSection (projects : Option (List Project)) : Except JSError Str :=
  if !truthyObj projects then pure []
  else do
    let ps ← deref projects
    pure (source
      [lit "\n  \\cvsection\x7bProjects\x7d\n  \\begin\x7bcventries\x7d\n  ",
       lit "\n  \\end\x7bcventries\x7d\n  "]
      [.arr (ps.map projectEntry)])

/-- The callback of `awards.map`. -/
def awardEntry (award : Award) : Str :=
  stripIndent
    [lit "\n      \\cvhonor\n        \x7b",
     lit "\x7d\n        \x7b",
     lit "\x7d\n        \x7b",
     lit "\x7d\n        \x7b",
     lit "\x7d\n    "]
    [.str (orEmpty award.name),
     .str (orEmpty award.details),
     .str (orEmpty award.location),
     .str (orEmpty award.date)]

/-- The function `generateAwardsSection(awards)`. -/
def generateAwardsSection (awards : Option (List Award)) : Except JSError Str :=
  if !truthyObj awards then pure []
  else do
    let aw ← deref awards
    pure (source
      [lit "\n  \\cvsection\x7bHonors \\& Awards\x7d\n  \\begin\x7bcvhonors\x7d\n  ",
       lit "\n  \\end\x7bcvhonors\x7d\n  "]
      [.arr (aw.map awardEntry)])

/-- The strings of the template literal of `template2`. -/
def template2Strings : List Str :=
  [lit "\n    ",
   lit "\n    \\begin\x7bdocument\x7d\n    ",
   lit "\n    ",
   lit "\n    ",
   lit "\n    ",
   lit "\n    ",
   lit "\n    ",
   lit "\n    ",
   lit "\n    \\end\x7bdocument\x7d\n  "]

/-- The function `template2(values)`.  `WHITESPACE` is the constant imported from
`../constants`, a file that is not part of the sources at hand; it is a
parameter.  The skills builder receives `projects` and the projects builder
receives `skills`, as in the source. -/
def template2 (WHITESPACE : Str) (values : SanitizedValues) : Except JSError Str := do
  let header := generateHeader
  let profile ← generateProfileSection values.basics
  let education ← generateEducationSection values.education
  let experience ← generateExperienceSection values.work
  let skills ← generateSkillsSection (values.projects.map (List.map Project.asSkill))
  let projects ← generateProjectsSection (values.skills.map (List.map Skill.asProject))
  let awards ← generateAwardsSection values.awards
  pure (stripIndent template2Strings
    [.str header, .str profile, .str education, .str experience, .str skills,
     .str projects, .str awards, .str WHITESPACE])

/-! ## Definitions used in the statements and proofs -/

/-- No character of the text is a line terminator. -/
def noLineTerminator (s : Str) : Bool := s.all (fun c => !isLineTerminator c)

/-- Every character of the text is white space. -/
def allWhiteSpace (s : Str) : Bool := s.all isWhiteSpace

/-- The state of the indentation scan `indentMatchesAux` after a text. -/
def indentState : Option (Nat × Bool) → Str → Option (Nat × Bool)
  | st, [] => st
  | none, c :: cs => indentState (if isLineTerminator c then some (0, false) else none) cs
  | some (k, _), c :: cs =>
    if c = 10 then indentState (some (0, false)) cs
    else if isWhiteSpace c then indentState (some (k + 1, isLineTerminator c)) cs
    else indentState none cs

/-- The lookahead of `stripAux` on the text `a` never reaches past the end
of `a`: its result on `a` does not depend on what follows. -/
def stripSafe (n : Nat) : Nat → Bool → Str → Bool
  | _, _, [] => true
  | 0, atStart, c :: cs =>
    if atStart then
      if canStrip n (c :: cs) then stripSafe n (n - 1) false cs
      else !canStrip n (c :: cs ++ List.replicate n 0) && stripSafe n 0 (isLineTerminator c) cs
    else stripSafe n 0 (isLineTerminator c) cs
  | k + 1, _, _ :: cs => stripSafe n k false cs

/-- The state of `stripAux` after the text `a`. -/
def stripEnd (n : Nat) : Nat → Bool → Str → Nat × Bool
  | k, atStart, [] => (k, atStart)
  | 0, atStart, c :: cs =>
    if atStart && canStrip n (c :: cs) then stripEnd n (n - 1) false cs
    else stripEnd n 0 (isLineTerminator c) cs
  | k + 1, _, _ :: cs => stripEnd n k false cs

/-- The text has a character that is not white space. -/
def hasInk (s : Str) : Bool := s.any (fun c => !isWhiteSpace c)

/-- The number of leading white-space characters of a text. -/
def leadingSpace (s : Str) : Nat := (s.takeWhile isWhiteSpace).length

/-- The separator `inlineArrayTransformer` finds after a line feed and `k`
spaces. -/
def indentSep (k : Nat) : Str := 10 :: List.replicate k 32

/-- The callback of `highlights.map`. -/
def dutyItem (duty : Str) : Str := lit "\\item \x7b" ++ duty ++ lit "\x7d"

/-- The two name tokens `nameStart` and `nameEnd` of a non-empty name. -/
def nameTokens (nm : Str) : Str × Str :=
  let names := jsSplit 32 nm
  ((ofOpt names.head?).toStr,
    if names.length = 1 then [] else jsJoin [32] (jsSlice 1 names.length names))

/-- The text of `nameLine`. -/
def nameLineText (name : Option Str) : Str :=
  match name with
  | none => []
  | some nm =>
    if nm.isEmpty then []
    else lit "\\headerfirstnamestyle\x7b" ++ (nameTokens nm).1 ++
      lit "\x7d \\headerlastnamestyle\x7b" ++ (nameTokens nm).2 ++ lit "\x7d \\\\"

/-- The text of the profile section of a present `basics`. -/
def profileText (b : Basics) : Str :=
  stripIndent
    [lit "\n    %%%%%%%%%%%%%%%%%%%%%%%%%%%%%%%%%%%%%%\n    %     Profile\n    %%%%%%%%%%%%%%%%%%%%%%%%%%%%%%%%%%%%%%\n    \\begin\x7bcenter\x7d\n    ",
     lit "\n    \\vspace\x7b2mm\x7d\n    ",
     lit "\n    \\end\x7bcenter\x7d\n  "]
    [.str (nameLineText b.name), .str (info b)]

/-- The text of the education section of a present `education`. -/
def educationText (schools : List School) : Str :=
  source
    [lit "\n  %%%%%%%%%%%%%%%%%%%%%%%%%%%%%%%%%%%%%%\n  %     Education\n  %%%%%%%%%%%%%%%%%%%%%%%%%%%%%%%%%%%%%%\n  \\cvsection\x7bEducation\x7d\n  \\begin\x7bcventries\x7d\n  ",
     lit "\n  \\end\x7bcventries\x7d\n\n  \\vspace\x7b-2mm\x7d\n  "]
    [.arr (schools.map educationEntry)]

/-- The text of `dutyLines`. -/
def dutyLinesText (highlights : Option (List Str)) : Str :=
  match highlights with
  | none => []
  | some hs =>
    source
      [lit "\n        \\begin\x7bcvitems\x7d\n          ",
       lit "\n        \\end\x7bcvitems\x7d\n        "]
      [.arr (hs.map dutyItem)]

/-- The text of one experience entry. -/
def experienceEntryText (job : Job) : Str :=
  stripIndent cventryStrings
    [.str (orEmpty job.position),
     .str (orEmpty job.company),
     .str (orEmpty job.location),
     jsValOrEmpty (experienceDateRange job),
     .str (dutyLinesText job.highlights)]

/-- The text of the experience section of a present `work`. -/
def experienceText (jobs : List Job) : Str :=
  source
    [lit "\n  %%%%%%%%%%%%%%%%%%%%%%%%%%%%%%%%%%%%%%\n  %     Experience\n  %%%%%%%%%%%%%%%%%%%%%%%%%%%%%%%%%%%%%%\n  \\cvsection\x7bExperience\x7d\n  \\begin\x7bcventries\x7d\n  ",
     lit "\n  \\end\x7bcventries\x7d\n  "]
    [.arr (jobs.map experienceEntryText)]

/-- The text of the skills section of a present `skills`. -/
def skillsText (sk : List Skill) : Str :=
  source
    [lit "\n  \\cvsection\x7bSkills\x7d\n  \\begin\x7bcventries\x7d\n  \\cventry\n  \x7b\x7d\n  \x7b\\def\\arraystretch\x7b1.15\x7d\x7b\\begin\x7btabular\x7d\x7b l l \x7d\n  ",
     lit "\n  \\end\x7btabular\x7d\x7d\x7d\n  \x7b\x7d\n  \x7b\x7d\n  \x7b\x7d\n  \\end\x7bcventries\x7d\n\n  \\vspace\x7b-7mm\x7d\n  "]
    [.arr (sk.map skillRow)]

/-- The text of the projects section of a present `projects`. -/
def projectsText (ps : List Project) : Str :=
  source
    [lit "\n  \\cvsection\x7bProjects\x7d\n  \\begin\x7bcventries\x7d\n  ",
     lit "\n  \\end\x7bcventries\x7d\n  "]
    [.arr (ps.map projectEntry)]

/-- The text of the awards section of a present `awards`. -/
def awardsText (aw : List Award) : Str :=
  source
    [lit "\n  \\cvsection\x7bHonors \\& Awards\x7d\n  \\begin\x7bcvhonors\x7d\n  ",
     lit "\n  \\end\x7bcvhonors\x7d\n  "]
    [.arr (aw.map awardEntry)]

/-- The fragment a builder returns for an optional input: the empty string
when the input is absent. -/
def fragment {α : Type} (text : α → Str) : Option α → Str
  | none => []
  | some a => text a

/-- The document: header, opening marker, the six fragments, the placeholder
and the closing marker, each on a line of its own after four spaces. -/
def documentText (p e x s pr a w : Str) : Str :=
  generateHeader ++ (lit "\n    \\begin\x7bdocument\x7d\n    " ++ (p ++ (lit "\n    " ++
    (e ++ (lit "\n    " ++ (x ++ (lit "\n    " ++ (s ++ (lit "\n    " ++ (pr ++ (lit "\n    " ++
      (a ++ (lit "\n    " ++ (w ++ lit "\n    \\end\x7bdocument\x7d"))))))))))))))

/-- The text `template2` returns. -/
def template2Text (w : Str) (values : SanitizedValues) : Str :=
  documentText (fragment profileText values.basics) (fragment educationText values.education)
    (fragment experienceText values.work)
    (fragment skillsText (values.projects.map (List.map Project.asSkill)))
    (fragment projectsText (values.skills.map (List.map Skill.asProject)))
    (fragment awardsText values.awards) w

/-- The text `s` begins with the text `p`. -/
def startsWith : Str → Str → Bool
  | [], _ => true
  | _ :: _, [] => false
  | a :: p, b :: s => a == b && startsWith p s

/-- The text `p` occurs in the text `s`. -/
def occursIn (p : Str) : Str → Bool
  | [] => p.isEmpty
  | c :: s => startsWith p (c :: s) || occursIn p s

/-- The record of the failing input of the skills and projects sections:
`skills` is absent and `projects` holds one project named `P`. -/
def oneProject : SanitizedValues :=
  { projects := some [{ name := some (lit "P") }] }

instance instDecidableEqExcept : DecidableEq (Except JSError Str) := fun a b =>
  match a, b with
  | .ok x, .ok y =>
    if h : x = y then isTrue (by rw [h]) else isFalse (fun e => h (by cases e; rfl))
  | .error x, .error y =>
    if h : x = y then isTrue (by rw [h]) else isFalse (fun e => h (by cases e; rfl))
  | .ok _, .error _ => isFalse (fun e => by cases e)
  | .error _, .ok _ => isFalse (fun e => by cases e)

/-- The contact tokens as the specification words them: for email, phone,
address and website, in that order, the token of every field that is present
and non-empty, wrapped in its icon marker. -/
def contactTokens (b : Basics) : List Str :=
  [(lit "\x7b\\faEnvelope\\ ", b.email),
   (lit "\x7b\\faMobile\\ ", b.phone),
   (lit "\x7b\\faMapMarker\\ ", b.location.bind (fun l => l.address)),
   (lit "\x7b\\faLink\\ ", b.website)].filterMap
    (fun t =>
      match t.2 with
      | some v => if v ≠ [] then some (t.1 ++ v ++ lit "\x7d") else none
      | none => none)

/-- The markers of section bodies: `\cvsection`, `\cventry`, `\cvhonor` and
`\begin{center}`. -/
def bodyMarkers : List Str :=
  [lit "\\cvsection", lit "\\cventry", lit "\\cvhonor", lit "\\begin\x7bcenter\x7d"]

/-- The number of brace-delimited arguments at the head of a text: groups
`{...}` with balanced inner braces, separated by white space only.  The count
ends at the first other character or at the end of the text; `none` when a
brace has no partner.  The first argument is the current brace depth, the
second the number of groups closed so far. -/
def argCount : Nat → Nat → Str → Option Nat
  | 0, n, [] => some n
  | _ + 1, _, [] => none
  | 0, n, c :: cs =>
    if c = 123 then argCount 1 n cs
    else if c = 125 then none
    else if isWhiteSpace c then argCount 0 n cs
    else some n
  | d + 1, n, c :: cs =>
    if c = 123 then argCount (d + 2) n cs
    else if c = 125 then (if d = 0 then argCount 0 (n + 1) cs else argCount d n cs)
    else argCount (d + 1) n cs

/-- The number of brace-delimited arguments that follow the macro name at
the head of a rendered entry; `none` when the entry does not begin with the
name. -/
def macroArgs (name text : Str) : Option Nat :=
  if startsWith name text then argCount 0 0 (text.drop name.length) else none

/-- The text contains no brace and none of the line terminators CR, U+2028,
U+2029; it may contain line feeds. -/
def tameText (s : Str) : Bool :=
  s.all (fun c => c != 123 && c != 125 && c != 13 && c != 8232 && c != 8233)

/-- An optional field is absent or holds a text without braces and without
CR, U+2028, U+2029. -/
def tameField (o : Option Str) : Bool :=
  match o with
  | none => true
  | some s => tameText s

/-- No field of the education entry contains a brace, CR, U+2028 or U+2029. -/
def School.tame (s : School) : Bool :=
  tameField s.institution && tameField s.location && tameField s.area &&
  tameField s.studyType && tameField s.gpa && tameField s.startDate && tameField s.endDate

/-- No field and no highlight of the work entry contains a brace, CR, U+2028
or U+2029. -/
def Job.tame (j : Job) : Bool :=
  tameField j.company && tameField j.position && tameField j.location &&
  tameField j.startDate && tameField j.endDate &&
  (match j.highlights with
   | none => true
   | some hs => hs.all tameText)

/-- No field of the project contains a brace, CR, U+2028 or U+2029. -/
def Project.tame (p : Project) : Bool :=
  tameField p.name && tameField p.description && tameField p.technologies &&
  tameField p.link

/-- No field of the award contains a brace, CR, U+2028 or U+2029. -/
def Award.tame (a : Award) : Bool :=
  tameField a.name && tameField a.details && tameField a.date && tameField a.location

/-- A text that leaves the brace depth of `argCount` unchanged when it is
read inside a group. -/
def Inert (x : Str) : Prop :=
  ∀ d n r, argCount (d + 1) n (x ++ r) = argCount (d + 1) n r

/-- The text of brace-delimited arguments: before each argument the white
space `ws` and an opening brace, after it a closing brace; `tail` follows the
last argument. -/
def groups (ws : Str) (args : List Str) (tail : Str) : Str :=
  args.foldr (fun a acc => ws ++ 123 :: (a ++ 125 :: acc)) tail

/-- An optional field is absent or holds a text without brace characters. -/
def braceFree (o : Option Str) : Bool :=
  match o with
  | none => true
  | some s => s.all (fun c => c != 123 && c != 125)

/-- No field of the education entry contains a brace character. -/
def School.braceFree (s : School) : Bool :=
  Template2.braceFree s.institution && Template2.braceFree s.location &&
  Template2.braceFree s.area && Template2.braceFree s.studyType &&
  Template2.braceFree s.gpa && Template2.braceFree s.startDate &&
  Template2.braceFree s.endDate

/-- An education entry whose institution holds carriage returns. -/
def carriageReturnSchool : School :=
  { institution := some (lit "x\r\r\r\r ab") }

/-- The only line terminator the text may contain is the line feed: it holds
no carriage return, U+2028 or U+2029. -/
def lfOnly (s : Str) : Bool := s.all (fun c => c != 13 && c != 8232 && c != 8233)

/-- The characters of a text that are not white space, in order. -/
def ink (s : Str) : Str := s.filter (fun c => !isWhiteSpace c)

/-- An optional field is absent or holds a text without line terminators. -/
def oneLineField (o : Option Str) : Bool :=
  match o with
  | none => true
  | some s => noLineTerminator s

/-- No field of the education entry contains a line terminator. -/
def School.oneLine (s : School) : Bool :=
  oneLineField s.institution && oneLineField s.location && oneLineField s.area &&
  oneLineField s.studyType && oneLineField s.gpa && oneLineField s.startDate &&
  oneLineField s.endDate

/-- No field of the project contains a line terminator. -/
def Project.oneLine (p : Project) : Bool :=
  oneLineField p.name && oneLineField p.description && oneLineField p.technologies &&
  oneLineField p.link

/-- No field of the award contains a line terminator. -/
def Award.oneLine (a : Award) : Bool :=
  oneLineField a.name && oneLineField a.details && oneLineField a.date &&
  oneLineField a.location

/-- No field of the skill contains a line terminator. -/
def Skill.oneLine (s : Skill) : Bool :=
  oneLineField s.name && oneLineField s.details

/-- The lines of a macro call: the macro name, then each argument between
braces. -/
def argLines (name : Str) (args : List Str) : List Str :=
  name :: args.map (fun v => 123 :: (v ++ [125]))

/-- The text of a macro call: the macro name, then each argument between
braces on a line of its own after `k` spaces. -/
def macroCall (k : Nat) (name : Str) (args : List Str) : Str :=
  jsJoin (indentSep k) (argLines name args)

/-- The number of places of the text `s` at which the text `m` begins. -/
def countOcc (m : Str) : Str → Nat
  | [] => 0
  | c :: s => (if startsWith m (c :: s) then 1 else 0) + countOcc m s

/-- The body of `stripIndentTransformer` for an indentation of `n`: when `n`
is not zero, every line that begins with `n` characters other than line
terminators loses them (`endResult.replace(new RegExp('^.{n}', 'gm'), '')`). -/
def unindent (n : Nat) (s : Str) : Str :=
  if n ≠ 0 then stripAux n 0 true s else s

/-- An optional field is absent or holds a text in which `m` does not occur. -/
def freeField (m : Str) (o : Option Str) : Bool :=
  match o with
  | none => true
  | some s => !occursIn m s

/-- The text `m` occurs in no field of the education entry. -/
def School.freeOf (m : Str) (s : School) : Bool :=
  freeField m s.institution && freeField m s.location && freeField m s.area &&
  freeField m s.studyType && freeField m s.gpa && freeField m s.startDate &&
  freeField m s.endDate

/-- The text `m` occurs in no field and in no highlight of the work entry. -/
def Job.freeOf (m : Str) (j : Job) : Bool :=
  freeField m j.company && freeField m j.position && freeField m j.location &&
  freeField m j.startDate && freeField m j.endDate &&
  (match j.highlights with
   | none => true
   | some hs => hs.all (fun h => !occursIn m h))

/-! ## Lemmas -/

/-! ## Properties of the string library -/

theorem noLineTerminator_append (a b : Str) :
    noLineTerminator (a ++ b) = (noLineTerminator a && noLineTerminator b) := by
  simp [noLineTerminator]

theorem noLineTerminator_cons (c : Nat) (a : Str) :
    noLineTerminator (c :: a) = (!isLineTerminator c && noLineTerminator a) := by
  simp [noLineTerminator]

theorem dropWhile_ws_append (a m : Str) (ha : allWhiteSpace a = true)
    (hm : ∀ c ∈ m.head?, isWhiteSpace c = false) :
    (a ++ m).dropWhile isWhiteSpace = m := by
  induction a with
  | nil =>
    cases m with
    | nil => rfl
    | cons c m => simp [List.dropWhile, hm c (by simp)]
  | cons x a ih =>
    simp only [allWhiteSpace, List.all_cons, Bool.and_eq_true] at ha
    simp only [List.cons_append, List.dropWhile, ha.1]
    exact ih (by simpa [allWhiteSpace] using ha.2)

theorem dropWhile_allWhiteSpace (a : Str) (ha : allWhiteSpace a = true) :
    a.dropWhile isWhiteSpace = [] := by
  have := dropWhile_ws_append a [] ha (by simp)
  simpa using this

theorem jsTrim_core (a m b : Str) (ha : allWhiteSpace a = true) (hb : allWhiteSpace b = true)
    (h1 : ∀ c ∈ m.head?, isWhiteSpace c = false)
    (h2 : ∀ c ∈ m.getLast?, isWhiteSpace c = false) :
    jsTrim (a ++ m ++ b) = m := by
  unfold jsTrim
  cases m with
  | nil =>
    have hab : allWhiteSpace (a ++ b) = true := by
      simp only [allWhiteSpace, List.all_append, Bool.and_eq_true] at *
      exact ⟨ha, hb⟩
    simp [dropWhile_allWhiteSpace _ hab]
  | cons x m =>
    rw [List.append_assoc, dropWhile_ws_append a (x :: m ++ b) ha]
    · rw [List.reverse_append, dropWhile_ws_append b.reverse (x :: m).reverse]
      · simp
      · simpa [allWhiteSpace] using hb
      · intro c hc
        apply h2 c
        rw [List.head?_reverse] at hc
        exact hc
    · intro c hc
      exact h1 c (by simpa using hc)

/-! ## The indentation scan and the indentation removal -/

theorem indentMatchesAux_append (st : Option (Nat × Bool)) (a b : Str) :
    indentMatchesAux st (a ++ b) =
      indentMatchesAux st a ++ indentMatchesAux (indentState st a) b := by
  induction a generalizing st with
  | nil => cases st <;> simp [indentMatchesAux, indentState]
  | cons c a ih =>
    cases st with
    | none => simp [indentMatchesAux, indentState, ih]
    | some p =>
      obtain ⟨k, lt⟩ := p
      simp only [List.cons_append, indentMatchesAux, indentState]
      split_ifs <;> simp [ih]

theorem indentState_append (st : Option (Nat × Bool)) (a b : Str) :
    indentState st (a ++ b) = indentState (indentState st a) b := by
  induction a generalizing st with
  | nil => cases st <;> simp [indentState]
  | cons c a ih =>
    cases st with
    | none => simp [indentState, ih]
    | some p =>
      obtain ⟨k, _⟩ := p
      simp only [List.cons_append, indentState]
      split_ifs <;> simp [ih]

theorem indentMatchesAux_none_noLT (v : Str) (h : noLineTerminator v = true) :
    indentMatchesAux none v = [] := by
  induction v with
  | nil => simp [indentMatchesAux]
  | cons c v ih =>
    rw [noLineTerminator_cons] at h
    simp only [Bool.and_eq_true, Bool.not_eq_true'] at h
    simp [indentMatchesAux, h.1, ih h.2]

theorem indentState_none_noLT (v : Str) (h : noLineTerminator v = true) :
    indentState none v = none := by
  induction v with
  | nil => simp [indentState]
  | cons c v ih =>
    rw [noLineTerminator_cons] at h
    simp only [Bool.and_eq_true, Bool.not_eq_true'] at h
    simp [indentState, h.1, ih h.2]

theorem foldl_min_le (xs : List Nat) (x : Nat) : xs.foldl min x ≤ x := by
  induction xs generalizing x with
  | nil => simp
  | cons y xs ih => exact le_trans (ih (min x y)) (Nat.min_le_left x y)

theorem foldl_min_le_of_mem (xs : List Nat) (x y : Nat) (h : y ∈ xs) : xs.foldl min x ≤ y := by
  induction xs generalizing x with
  | nil => simp at h
  | cons z xs ih =>
    simp only [List.mem_cons] at h
    rcases h with h | h
    · subst h
      exact le_trans (foldl_min_le xs (min x y)) (Nat.min_le_right x y)
    · exact ih (min x z) h

theorem minIndent_le_of_mem (l : List Nat) (y : Nat) (h : y ∈ l) : minIndent l ≤ y := by
  cases l with
  | nil => simp at h
  | cons x xs =>
    simp only [List.mem_cons] at h
    rcases h with h | h
    · subst h
      exact foldl_min_le xs y
    · exact foldl_min_le_of_mem xs x y h

theorem minIndent_eq_zero_of_mem (l : List Nat) (h : 0 ∈ l) : minIndent l = 0 :=
  Nat.le_zero.mp (minIndent_le_of_mem l 0 h)

theorem canStrip_append_of_true (n : Nat) (a r : Str) (h : canStrip n a = true) :
    canStrip n (a ++ r) = true := by
  induction n generalizing a with
  | zero => simp [canStrip]
  | succ n ih =>
    cases a with
    | nil => simp [canStrip] at h
    | cons c a =>
      simp only [canStrip, Bool.and_eq_true] at h
      simp [canStrip, h.1, ih a h.2]

theorem canStrip_append_of_false (n : Nat) (a r : Str)
    (h : canStrip n (a ++ List.replicate n 0) = false) :
    canStrip n (a ++ r) = false := by
  induction n generalizing a with
  | zero => simp [canStrip] at h
  | succ n ih =>
    cases a with
    | nil =>
      exfalso
      have : ∀ m, canStrip m (List.replicate m 0) = true := by
        intro m
        induction m with
        | zero => simp [canStrip]
        | succ m ihm => simp [List.replicate, canStrip, isLineTerminator, ihm]
      rw [List.nil_append, this] at h
      exact Bool.noConfusion h
    | cons c a =>
      simp only [List.cons_append, canStrip, Bool.and_eq_false_iff] at h ⊢
      rcases h with h | h
      · exact Or.inl h
      · right
        apply ih a
        have hrep : List.replicate (n + 1) 0 = List.replicate n 0 ++ [0] := by
          rw [List.replicate_succ']
        rw [hrep] at h
        change canStrip n (a ++ (List.replicate n 0 ++ [0])) = false at h
        rw [← List.append_assoc] at h
        by_contra hc
        have hc' : canStrip n (a ++ List.replicate n 0) = true := by simpa using hc
        rw [canStrip_append_of_true n _ [0] hc'] at h
        exact Bool.noConfusion h

theorem stripAux_append (n k : Nat) (atStart : Bool) (a r : Str)
    (h : stripSafe n k atStart a = true) :
    stripAux n k atStart (a ++ r) =
      stripAux n k atStart a ++
        stripAux n (stripEnd n k atStart a).1 (stripEnd n k atStart a).2 r := by
  induction a generalizing k atStart with
  | nil => cases k <;> simp [stripAux, stripEnd]
  | cons c a ih =>
    cases k with
    | zero =>
      cases atStart with
      | false =>
        simp only [stripSafe, Bool.false_eq_true, if_false] at h
        simp [stripAux, stripEnd, ih _ _ h]
      | true =>
        simp only [stripSafe, if_true] at h
        by_cases hc : canStrip n (c :: a) = true
        · rw [if_pos hc] at h
          have hc' : canStrip n (c :: (a ++ r)) = true := by
            have := canStrip_append_of_true n (c :: a) r hc
            simpa using this
          simp [stripAux, stripEnd, hc, hc', ih _ _ h]
        · rw [if_neg hc] at h
          simp only [Bool.and_eq_true, Bool.not_eq_true'] at h
          have hc' : canStrip n (c :: (a ++ r)) = false := by
            have := canStrip_append_of_false n (c :: a) r (by simpa using h.1)
            simpa using this
          have hc0 : canStrip n (c :: a) = false := by simpa using hc
          simp [stripAux, stripEnd, hc0, hc', ih _ _ h.2]
    | succ k =>
      simp only [stripSafe] at h
      simp [stripAux, stripEnd, ih _ _ h]

theorem stripAux_noLT (n : Nat) (v r : Str) (h : noLineTerminator v = true) :
    stripAux n 0 false (v ++ r) = v ++ stripAux n 0 false r := by
  induction v with
  | nil => simp
  | cons c v ih =>
    rw [noLineTerminator_cons] at h
    simp only [Bool.and_eq_true, Bool.not_eq_true'] at h
    simp [stripAux, h.1, ih h.2]

/-! ## Closed forms of the entry templates -/

theorem templateText_id_five (s0 s1 s2 s3 s4 s5 : Str) (v1 v2 v3 v4 v5 : JSVal) :
    templateText (fun e _ => e) [s0, s1, s2, s3, s4, s5] [v1, v2, v3, v4, v5] =
      s0 ++ (v1.toStr ++ (s1 ++ (v2.toStr ++ (s2 ++ (v3.toStr ++ (s3 ++ (v4.toStr ++
        (s4 ++ (v5.toStr ++ s5))))))))) := by
  simp [templateText, processSubstitutions]

theorem templateText_id_four (s0 s1 s2 s3 s4 : Str) (v1 v2 v3 v4 : JSVal) :
    templateText (fun e _ => e) [s0, s1, s2, s3, s4] [v1, v2, v3, v4] =
      s0 ++ (v1.toStr ++ (s1 ++ (v2.toStr ++ (s2 ++ (v3.toStr ++ (s3 ++ (v4.toStr ++
        s4))))))) := by
  simp [templateText, processSubstitutions]

/-- The five-argument `\cventry` template applied to five values whose texts
hold no line terminator: six characters of indentation are removed from every
line. -/
theorem cventry_closed (v1 v2 v3 v4 v5 : JSVal)
    (h1 : noLineTerminator v1.toStr = true) (h2 : noLineTerminator v2.toStr = true)
    (h3 : noLineTerminator v3.toStr = true) (h4 : noLineTerminator v4.toStr = true)
    (h5 : noLineTerminator v5.toStr = true) :
    stripIndent cventryStrings [v1, v2, v3, v4, v5] =
      lit "\\cventry\n  \x7b" ++ (v1.toStr ++ (lit "\x7d\n  \x7b" ++ (v2.toStr ++
        (lit "\x7d\n  \x7b" ++ (v3.toStr ++ (lit "\x7d\n  \x7b" ++ (v4.toStr ++
          (lit "\x7d\n  \x7b" ++ (v5.toStr ++ lit "\x7d"))))))))) := by
  have m0 : indentMatchesAux (some (0, false)) (lit "\n      \\cventry\n        \x7b") = [6, 8] := by
    decide
  have t0 : indentState (some (0, false)) (lit "\n      \\cventry\n        \x7b") = none := by
    decide
  have m1 : indentMatchesAux none (lit "\x7d\n        \x7b") = [8] := by decide
  have t1 : indentState none (lit "\x7d\n        \x7b") = none := by decide
  have m5 : indentMatchesAux none (lit "\x7d\n    ") = [] := by decide
  have hm : indentMatches (templateText (fun e _ => e) cventryStrings [v1, v2, v3, v4, v5]) =
      [6, 8, 8, 8, 8, 8] := by
    rw [cventryStrings, templateText_id_five, indentMatches]
    simp only [indentMatchesAux_append, indentState_append, m0, t0, m1, t1, m5,
      indentMatchesAux_none_noLT, indentState_none_noLT, h1, h2, h3, h4, h5]
    rfl
  have c0 : stripSafe 6 0 true (lit "\n      \\cventry\n        \x7b") = true := by decide
  have e0 : stripEnd 6 0 true (lit "\n      \\cventry\n        \x7b") = (0, false) := by decide
  have o0 : stripAux 6 0 true (lit "\n      \\cventry\n        \x7b") =
      [10] ++ lit "\\cventry\n  \x7b" := by decide
  have c1 : stripSafe 6 0 false (lit "\x7d\n        \x7b") = true := by decide
  have e1 : stripEnd 6 0 false (lit "\x7d\n        \x7b") = (0, false) := by decide
  have o1 : stripAux 6 0 false (lit "\x7d\n        \x7b") = lit "\x7d\n  \x7b" := by decide
  have o5 : stripAux 6 0 false (lit "\x7d\n    ") = lit "\x7d" ++ lit "\n    " := by decide
  unfold stripIndent stripIndentTransformer
  rw [hm]
  simp only [minIndent, List.foldl]
  rw [cventryStrings, templateText_id_five]
  simp only [show min (min (min (min (min 6 8) 8) 8) 8) 8 = 6 from rfl, ne_eq,
    show ¬ (6 = 0) from by decide, not_false_eq_true, if_true]
  rw [stripAux_append _ _ _ _ _ c0, e0, o0, stripAux_noLT _ _ _ h1,
    stripAux_append _ _ _ _ _ c1, e1, o1, stripAux_noLT _ _ _ h2,
    stripAux_append _ _ _ _ _ c1, e1, o1, stripAux_noLT _ _ _ h3,
    stripAux_append _ _ _ _ _ c1, e1, o1, stripAux_noLT _ _ _ h4,
    stripAux_append _ _ _ _ _ c1, e1, o1, stripAux_noLT _ _ _ h5, o5]
  unfold trimResultTransformer
  have := jsTrim_core [10]
    (lit "\\cventry\n  \x7b" ++ (v1.toStr ++ (lit "\x7d\n  \x7b" ++ (v2.toStr ++
      (lit "\x7d\n  \x7b" ++ (v3.toStr ++ (lit "\x7d\n  \x7b" ++ (v4.toStr ++
        (lit "\x7d\n  \x7b" ++ (v5.toStr ++ lit "\x7d"))))))))))
    (lit "\n    ") (by decide) (by decide)
    (by
      have : lit "\\cventry\n  \x7b" = 92 :: lit "cventry\n  \x7b" := by decide
      rw [this]; intro c hc; simp at hc; subst hc; decide)
    (by
      have : lit "\x7d" = [125] := by decide
      rw [this]; intro c hc
      simp only [← List.append_assoc, List.getLast?_append, List.getLast?_singleton] at hc
      simp at hc; subst hc; decide)
  simpa [List.append_assoc] using this

/-- The `\cvhonor` template applied to four texts without line terminators. -/
theorem cvhonor_closed (a : Award)
    (h1 : noLineTerminator (orEmpty a.name) = true)
    (h2 : noLineTerminator (orEmpty a.details) = true)
    (h3 : noLineTerminator (orEmpty a.location) = true)
    (h4 : noLineTerminator (orEmpty a.date) = true) :
    awardEntry a =
      lit "\\cvhonor\n  \x7b" ++ (orEmpty a.name ++ (lit "\x7d\n  \x7b" ++ (orEmpty a.details ++
        (lit "\x7d\n  \x7b" ++ (orEmpty a.location ++ (lit "\x7d\n  \x7b" ++ (orEmpty a.date ++
          lit "\x7d"))))))) := by
  have m0 : indentMatchesAux (some (0, false)) (lit "\n      \\cvhonor\n        \x7b") = [6, 8] := by
    decide
  have t0 : indentState (some (0, false)) (lit "\n      \\cvhonor\n        \x7b") = none := by
    decide
  have m1 : indentMatchesAux none (lit "\x7d\n        \x7b") = [8] := by decide
  have t1 : indentState none (lit "\x7d\n        \x7b") = none := by decide
  have m5 : indentMatchesAux none (lit "\x7d\n    ") = [] := by decide
  have hm : indentMatches (templateText (fun e _ => e)
      [lit "\n      \\cvhonor\n        \x7b", lit "\x7d\n        \x7b", lit "\x7d\n        \x7b",
        lit "\x7d\n        \x7b", lit "\x7d\n    "]
      [.str (orEmpty a.name), .str (orEmpty a.details), .str (orEmpty a.location),
        .str (orEmpty a.date)]) = [6, 8, 8, 8, 8] := by
    rw [templateText_id_four, indentMatches]
    simp only [indentMatchesAux_append, indentState_append, m0, t0, m1, t1, m5, JSVal.toStr,
      indentMatchesAux_none_noLT, indentState_none_noLT, h1, h2, h3, h4]
    rfl
  have c0 : stripSafe 6 0 true (lit "\n      \\cvhonor\n        \x7b") = true := by decide
  have e0 : stripEnd 6 0 true (lit "\n      \\cvhonor\n        \x7b") = (0, false) := by decide
  have o0 : stripAux 6 0 true (lit "\n      \\cvhonor\n        \x7b") =
      [10] ++ lit "\\cvhonor\n  \x7b" := by decide
  have c1 : stripSafe 6 0 false (lit "\x7d\n        \x7b") = true := by decide
  have e1 : stripEnd 6 0 false (lit "\x7d\n        \x7b") = (0, false) := by decide
  have o1 : stripAux 6 0 false (lit "\x7d\n        \x7b") = lit "\x7d\n  \x7b" := by decide
  have o5 : stripAux 6 0 false (lit "\x7d\n    ") = lit "\x7d" ++ lit "\n    " := by decide
  unfold awardEntry stripIndent stripIndentTransformer
  rw [hm]
  simp only [minIndent, List.foldl]
  rw [templateText_id_four]
  simp only [show min (min (min (min 6 8) 8) 8) 8 = 6 from rfl, ne_eq,
    show ¬ (6 = 0) from by decide, not_false_eq_true, if_true, JSVal.toStr]
  rw [stripAux_append _ _ _ _ _ c0, e0, o0, stripAux_noLT _ _ _ h1,
    stripAux_append _ _ _ _ _ c1, e1, o1, stripAux_noLT _ _ _ h2,
    stripAux_append _ _ _ _ _ c1, e1, o1, stripAux_noLT _ _ _ h3,
    stripAux_append _ _ _ _ _ c1, e1, o1, stripAux_noLT _ _ _ h4, o5]
  unfold trimResultTransformer
  have := jsTrim_core [10]
    (lit "\\cvhonor\n  \x7b" ++ (orEmpty a.name ++ (lit "\x7d\n  \x7b" ++ (orEmpty a.details ++
      (lit "\x7d\n  \x7b" ++ (orEmpty a.location ++ (lit "\x7d\n  \x7b" ++ (orEmpty a.date ++
        lit "\x7d"))))))))
    (lit "\n    ") (by decide) (by decide)
    (by
      have : lit "\\cvhonor\n  \x7b" = 92 :: lit "cvhonor\n  \x7b" := by decide
      rw [this]; intro c hc; simp at hc; subst hc; decide)
    (by
      have : lit "\x7d" = [125] := by decide
      rw [this]; intro c hc
      simp only [← List.append_assoc, List.getLast?_append, List.getLast?_singleton] at hc
      simp at hc; subst hc; decide)
  simpa [List.append_assoc] using this

/-- The project template applied to four texts without line terminators. -/
theorem projectEntry_closed (p : Project)
    (h1 : noLineTerminator (orEmpty p.description) = true)
    (h2 : noLineTerminator (orEmpty p.name) = true)
    (h3 : noLineTerminator (orEmpty p.technologies) = true)
    (h4 : noLineTerminator (orEmpty p.link) = true) :
    projectEntry p =
      lit "\\cventry\n  \x7b" ++ (orEmpty p.description ++ (lit "\x7d\n  \x7b" ++
        (orEmpty p.name ++ (lit "\x7d\n  \x7b" ++ (orEmpty p.technologies ++
          (lit "\x7d\n  \x7b" ++ (orEmpty p.link ++
            lit "\x7d\n  \x7b\x7d\n\n\\vspace\x7b-5mm\x7d"))))))) := by
  have m0 : indentMatchesAux (some (0, false)) (lit "\n      \\cventry\n        \x7b") = [6, 8] := by
    decide
  have t0 : indentState (some (0, false)) (lit "\n      \\cventry\n        \x7b") = none := by
    decide
  have m1 : indentMatchesAux none (lit "\x7d\n        \x7b") = [8] := by decide
  have t1 : indentState none (lit "\x7d\n        \x7b") = none := by decide
  have m5 : indentMatchesAux none
      (lit "\x7d\n        \x7b\x7d\n\n      \\vspace\x7b-5mm\x7d\n\n      ") = [8, 6] := by decide
  have hm : indentMatches (templateText (fun e _ => e)
      [lit "\n      \\cventry\n        \x7b", lit "\x7d\n        \x7b", lit "\x7d\n        \x7b",
        lit "\x7d\n        \x7b",
        lit "\x7d\n        \x7b\x7d\n\n      \\vspace\x7b-5mm\x7d\n\n      "]
      [.str (orEmpty p.description), .str (orEmpty p.name), .str (orEmpty p.technologies),
        .str (orEmpty p.link)]) = [6, 8, 8, 8, 8, 8, 6] := by
    rw [templateText_id_four, indentMatches]
    simp only [indentMatchesAux_append, indentState_append, m0, t0, m1, t1, m5, JSVal.toStr,
      indentMatchesAux_none_noLT, indentState_none_noLT, h1, h2, h3, h4]
    rfl
  have c0 : stripSafe 6 0 true (lit "\n      \\cventry\n        \x7b") = true := by decide
  have e0 : stripEnd 6 0 true (lit "\n      \\cventry\n        \x7b") = (0, false) := by decide
  have o0 : stripAux 6 0 true (lit "\n      \\cventry\n        \x7b") =
      [10] ++ lit "\\cventry\n  \x7b" := by decide
  have c1 : stripSafe 6 0 false (lit "\x7d\n        \x7b") = true := by decide
  have e1 : stripEnd 6 0 false (lit "\x7d\n        \x7b") = (0, false) := by decide
  have o1 : stripAux 6 0 false (lit "\x7d\n        \x7b") = lit "\x7d\n  \x7b" := by decide
  have o5 : stripAux 6 0 false
      (lit "\x7d\n        \x7b\x7d\n\n      \\vspace\x7b-5mm\x7d\n\n      ") =
      lit "\x7d\n  \x7b\x7d\n\n\\vspace\x7b-5mm\x7d" ++ lit "\n\n" := by decide
  unfold projectEntry stripIndent stripIndentTransformer
  rw [hm]
  simp only [minIndent, List.foldl]
  rw [templateText_id_four]
  simp only [show min (min (min (min (min (min 6 8) 8) 8) 8) 8) 6 = 6 from rfl, ne_eq,
    show ¬ (6 = 0) from by decide, not_false_eq_true, if_true, JSVal.toStr]
  rw [stripAux_append _ _ _ _ _ c0, e0, o0, stripAux_noLT _ _ _ h1,
    stripAux_append _ _ _ _ _ c1, e1, o1, stripAux_noLT _ _ _ h2,
    stripAux_append _ _ _ _ _ c1, e1, o1, stripAux_noLT _ _ _ h3,
    stripAux_append _ _ _ _ _ c1, e1, o1, stripAux_noLT _ _ _ h4, o5]
  unfold trimResultTransformer
  have := jsTrim_core [10]
    (lit "\\cventry\n  \x7b" ++ (orEmpty p.description ++ (lit "\x7d\n  \x7b" ++
      (orEmpty p.name ++ (lit "\x7d\n  \x7b" ++ (orEmpty p.technologies ++
        (lit "\x7d\n  \x7b" ++ (orEmpty p.link ++
          lit "\x7d\n  \x7b\x7d\n\n\\vspace\x7b-5mm\x7d"))))))))
    (lit "\n\n") (by decide) (by decide)
    (by
      have : lit "\\cventry\n  \x7b" = 92 :: lit "cventry\n  \x7b" := by decide
      rw [this]; intro c hc; simp at hc; subst hc; decide)
    (by
      have : lit "\x7d\n  \x7b\x7d\n\n\\vspace\x7b-5mm\x7d" =
          lit "\x7d\n  \x7b\x7d\n\n\\vspace\x7b-5mm" ++ [125] := by decide
      rw [this]; intro c hc
      simp only [← List.append_assoc, List.getLast?_append, List.getLast?_singleton] at hc
      simp at hc; subst hc; decide)
  simpa [List.append_assoc] using this

/-! ## Arrays joined by `inlineArrayTransformer` -/

theorem minIndent_eq (l : List Nat) (n : Nat) (hmem : n ∈ l) (hle : ∀ m ∈ l, n ≤ m) :
    minIndent l = n :=
  le_antisymm (minIndent_le_of_mem l n hmem) (by
    cases l with
    | nil => simp at hmem
    | cons x xs =>
      simp only [minIndent]
      have : ∀ (ys : List Nat) (y : Nat), n ≤ y → (∀ m ∈ ys, n ≤ m) → n ≤ ys.foldl min y := by
        intro ys
        induction ys with
        | nil => intro y hy _; simpa using hy
        | cons z ys ih =>
          intro y hy hz
          simp only [List.foldl]
          exact ih (min y z) (le_min hy (hz z (by simp))) (fun m hm => hz m (by simp [hm]))
      exact this xs x (hle x (by simp)) (fun m hm => hle m (by simp [hm])))

theorem isLineTerminator_isWhiteSpace (c : Nat) (h : isLineTerminator c = true) :
    isWhiteSpace c = true := by
  simp only [isLineTerminator, Bool.or_eq_true, beq_iff_eq] at h
  rcases h with ((h | h) | h) | h <;> subst h <;> decide

/-- A line that carries a non-white-space character, scanned from an
indentation of `k`: one match, of length `k` plus its own leading space. -/
theorem indentMatchesAux_line (k : Nat) (x r : Str) (hx : noLineTerminator x = true)
    (hi : hasInk x = true) :
    indentMatchesAux (some (k, false)) (x ++ r) =
      (k + leadingSpace x) :: indentMatchesAux none r := by
  induction x generalizing k with
  | nil => simp [hasInk] at hi
  | cons c x ih =>
    rw [noLineTerminator_cons] at hx
    simp only [Bool.and_eq_true, Bool.not_eq_true'] at hx
    have hc10 : c ≠ 10 := by
      intro h; subst h; simp [isLineTerminator] at hx
    by_cases hw : isWhiteSpace c = true
    · have hi' : hasInk x = true := by
        simpa [hasInk, hw] using hi
      simp only [List.cons_append, indentMatchesAux, hc10, if_false, hw, if_true, hx.1, List.append_eq]
      rw [ih (k + 1) hx.2 hi']
      simp [leadingSpace, List.takeWhile, hw]
      omega
    · have hw' : isWhiteSpace c = false := by simpa using hw
      simp only [List.cons_append, indentMatchesAux, hc10, if_false, hw', List.append_eq]
      simp only [Bool.false_eq_true, and_false, if_false, leadingSpace, List.takeWhile, hw',
        List.length_nil, Nat.add_zero]
      rw [indentMatchesAux_append, indentMatchesAux_none_noLT x hx.2,
        indentState_none_noLT x hx.2]
      rfl

theorem indentMatchesAux_indentSep (k : Nat) (r : Str) :
    indentMatchesAux none (indentSep k ++ r) = indentMatchesAux (some (k, false)) r := by
  have h : ∀ (j i : Nat), indentMatchesAux (some (i, false)) (List.replicate j 32 ++ r) =
      indentMatchesAux (some (i + j, false)) r := by
    intro j
    induction j with
    | zero => intro i; simp
    | succ j ih =>
      intro i
      simp only [List.replicate, List.cons_append, indentMatchesAux, List.append_eq]
      rw [if_neg (by decide), if_pos (by decide), show isLineTerminator 32 = false from by decide,
        ih (i + 1)]
      congr 3
      omega
  simp only [indentSep, List.cons_append, indentMatchesAux, List.append_eq]
  rw [if_pos (by decide), h k 0]
  simp

/-- The indentation matches of single-line items joined at an indentation
of `k`. -/
theorem indentMatchesAux_join (k : Nat) (xs : List Str) (r : Str)
    (hx : ∀ x ∈ xs, noLineTerminator x = true ∧ hasInk x = true) :
    indentMatchesAux (some (k, false)) (jsJoin (indentSep k) xs ++ r) =
      xs.map (fun x => k + leadingSpace x) ++
        indentMatchesAux (if xs.isEmpty then some (k, false) else none) r := by
  induction xs with
  | nil => simp [jsJoin]
  | cons x xs ih =>
    have h1 := hx x (by simp)
    cases xs with
    | nil => simp [jsJoin, indentMatchesAux_line k x r h1.1 h1.2]
    | cons y ys =>
      have ih' := ih (fun z hz => hx z (by simp [hz]))
      simp only [jsJoin, List.append_assoc] at ih' ⊢
      rw [indentMatchesAux_line k x _ h1.1 h1.2, indentMatchesAux_indentSep]
      rw [ih']
      simp

theorem canStrip_replicate (n k : Nat) (r : Str) (h : n ≤ k) :
    canStrip n (List.replicate k 32 ++ r) = true := by
  induction n generalizing k with
  | zero => simp [canStrip]
  | succ n ih =>
    cases k with
    | zero => omega
    | succ k =>
      simp only [List.replicate, List.cons_append, canStrip, List.append_eq]
      rw [ih k (by omega)]
      decide

theorem stripAux_drop_replicate (n j k : Nat) (b : Bool) (r : Str) (h : j + 1 ≤ k) :
    stripAux n (j + 1) b (List.replicate k 32 ++ r) =
      stripAux n 0 false (List.replicate (k - (j + 1)) 32 ++ r) := by
  induction j generalizing k b with
  | zero =>
    cases k with
    | zero => omega
    | succ k => simp [List.replicate, stripAux]
  | succ j ih =>
    cases k with
    | zero => omega
    | succ k =>
      simp only [List.replicate, List.cons_append, stripAux, List.append_eq]
      rw [ih k false (by omega), show k + 1 - (j + 1 + 1) = k - (j + 1) from by omega]

theorem stripAux_noLT_replicate (n k : Nat) (r : Str) :
    stripAux n 0 false (List.replicate k 32 ++ r) =
      List.replicate k 32 ++ stripAux n 0 false r := by
  apply stripAux_noLT
  simp [noLineTerminator, isLineTerminator]

/-- The separator between joined items loses `n` of its `k` spaces. -/
theorem stripAux_indentSep (n k : Nat) (r : Str) (h1 : 1 ≤ n) (h2 : n ≤ k) :
    stripAux n 0 false (indentSep k ++ r) = indentSep (k - n) ++ stripAux n 0 false r := by
  obtain ⟨m, rfl⟩ : ∃ m, n = m + 1 := ⟨n - 1, by omega⟩
  cases k with
  | zero => omega
  | succ k =>
    simp only [indentSep, List.cons_append, stripAux, Bool.false_and, Bool.false_eq_true,
      if_false, List.replicate, List.append_eq]
    have hc : canStrip (m + 1) (32 :: (List.replicate k 32 ++ r)) = true := by
      have := canStrip_replicate (m + 1) (k + 1) r h2
      simpa [List.replicate] using this
    rw [show isLineTerminator 10 = true from by decide]
    simp only [Bool.true_and, hc, if_true, Nat.add_sub_cancel]
    cases m with
    | zero => simp [stripAux_noLT_replicate]
    | succ m =>
      rw [stripAux_drop_replicate _ _ _ _ _ (by omega), stripAux_noLT_replicate]
      simp

/-- Single-line items joined at an indentation of `k` keep `k - n` spaces of
it when `n` characters are removed from every line. -/
theorem stripAux_join (n k : Nat) (xs : List Str) (r : Str) (h1 : 1 ≤ n) (h2 : n ≤ k)
    (hx : ∀ x ∈ xs, noLineTerminator x = true) :
    stripAux n 0 false (jsJoin (indentSep k) xs ++ r) =
      jsJoin (indentSep (k - n)) xs ++ stripAux n 0 false r := by
  induction xs with
  | nil => simp [jsJoin]
  | cons x xs ih =>
    cases xs with
    | nil => simp [jsJoin, stripAux_noLT n x r (hx x (by simp))]
    | cons y ys =>
      have ih' := ih (fun z hz => hx z (by simp [hz]))
      simp only [jsJoin, List.append_assoc] at ih' ⊢
      rw [stripAux_noLT n x _ (hx x (by simp)), stripAux_indentSep n k _ h1 h2, ih']

/-! ## Closed form of the highlights block -/

theorem dutyItem_props (hs : List Str) (h : ∀ x ∈ hs, noLineTerminator x = true) :
    ∀ x ∈ hs.map dutyItem, noLineTerminator x = true ∧ hasInk x = true := by
  intro x hx
  simp only [List.mem_map] at hx
  obtain ⟨d, hd, rfl⟩ := hx
  constructor
  · simp only [dutyItem, noLineTerminator_append, h d hd, Bool.and_true, Bool.true_and]
    decide
  · have : lit "\\item \x7b" = 92 :: lit "item \x7b" := by decide
    simp [dutyItem, this, hasInk, isWhiteSpace]

theorem leadingSpace_dutyItem (d : Str) : leadingSpace (dutyItem d) = 0 := by
  have : lit "\\item \x7b" = 92 :: lit "item \x7b" := by decide
  simp [dutyItem, this, leadingSpace, List.takeWhile, isWhiteSpace]

/-- The highlights block of a work entry whose highlights hold no line
terminator. -/
theorem dutyLines_closed (hs : List Str) (h : ∀ x ∈ hs, noLineTerminator x = true) :
    dutyLines (some hs) = .ok (lit "\\begin\x7bcvitems\x7d\n  " ++
      (jsJoin (indentSep 2) (hs.map dutyItem) ++ lit "\n\\end\x7bcvitems\x7d")) := by
  have hti : trailingIndent (lit "\n        \\begin\x7bcvitems\x7d\n          ") =
      some (indentSep 10) := by decide
  have hraw : templateText (fun e r => inlineArrayTransformer (splitStringTransformer e) r)
      [lit "\n        \\begin\x7bcvitems\x7d\n          ",
       lit "\n        \\end\x7bcvitems\x7d\n        "] [.arr (hs.map dutyItem)] =
      lit "\n        \\begin\x7bcvitems\x7d\n          " ++
        (jsJoin (indentSep 10) (hs.map dutyItem) ++
          lit "\n        \\end\x7bcvitems\x7d\n        ") := by
    simp [templateText, processSubstitutions, inlineArrayTransformer, splitStringTransformer,
      hti, JSVal.toStr]
  have m0 : indentMatchesAux (some (0, false))
      (lit "\n        \\begin\x7bcvitems\x7d\n          ") = [8] := by decide
  have t0 : indentState (some (0, false))
      (lit "\n        \\begin\x7bcvitems\x7d\n          ") = some (10, false) := by decide
  have m1 : ∀ st, indentMatchesAux st (lit "\n        \\end\x7bcvitems\x7d\n        ") = [8] := by
    intro st
    have e : lit "\n        \\end\x7bcvitems\x7d\n        " =
        10 :: lit "        \\end\x7bcvitems\x7d\n        " := by decide
    rw [e]
    rcases st with _ | ⟨k, lt⟩
    · simp only [indentMatchesAux]
      decide
    · simp only [indentMatchesAux, if_true]
      decide
  have hm : indentMatches (lit "\n        \\begin\x7bcvitems\x7d\n          " ++
        (jsJoin (indentSep 10) (hs.map dutyItem) ++
          lit "\n        \\end\x7bcvitems\x7d\n        ")) =
      8 :: ((hs.map dutyItem).map (fun x => 10 + leadingSpace x) ++ [8]) := by
    rw [indentMatches, indentMatchesAux_append, m0, t0,
      indentMatchesAux_join 10 _ _ (dutyItem_props hs h), m1]
    rfl
  have hmin : minIndent (indentMatches (lit "\n        \\begin\x7bcvitems\x7d\n          " ++
        (jsJoin (indentSep 10) (hs.map dutyItem) ++
          lit "\n        \\end\x7bcvitems\x7d\n        "))) = 8 := by
    rw [hm]
    apply minIndent_eq
    · simp
    · intro m hmem
      simp only [List.mem_cons, List.mem_append, List.mem_map, List.mem_singleton] at hmem
      rcases hmem with h | ⟨x, -, rfl⟩ | h | h
      · omega
      · omega
      · omega
      · simp at h
  have c0 : stripSafe 8 0 true (lit "\n        \\begin\x7bcvitems\x7d\n          ") = true := by
    decide
  have e0 : stripEnd 8 0 true (lit "\n        \\begin\x7bcvitems\x7d\n          ") = (0, false) := by
    decide
  have o0 : stripAux 8 0 true (lit "\n        \\begin\x7bcvitems\x7d\n          ") =
      [10] ++ lit "\\begin\x7bcvitems\x7d\n  " := by decide
  have o1 : stripAux 8 0 false (lit "\n        \\end\x7bcvitems\x7d\n        ") =
      lit "\n\\end\x7bcvitems\x7d" ++ [10] := by decide
  have hdef : dutyLines (some hs) = .ok (source
      [lit "\n        \\begin\x7bcvitems\x7d\n          ",
       lit "\n        \\end\x7bcvitems\x7d\n        "] [.arr (hs.map dutyItem)]) := rfl
  rw [hdef]
  refine congrArg Except.ok ?_
  unfold source stripIndentTransformer
  rw [hraw]
  simp only [hmin, ne_eq, show ¬ (8 = 0) from by decide, not_false_eq_true, if_true]
  rw [stripAux_append _ _ _ _ _ c0, e0, o0,
    stripAux_join 8 10 _ _ (by decide) (by decide) (fun x hx => (dutyItem_props hs h x hx).1), o1]
  unfold trimResultTransformer
  have := jsTrim_core [10]
    (lit "\\begin\x7bcvitems\x7d\n  " ++
      (jsJoin (indentSep 2) (hs.map dutyItem) ++ lit "\n\\end\x7bcvitems\x7d"))
    [10] (by decide) (by decide)
    (by
      have : lit "\\begin\x7bcvitems\x7d\n  " = 92 :: lit "begin\x7bcvitems\x7d\n  " := by decide
      rw [this]; intro c hc; simp at hc; subst hc; decide)
    (by
      have : lit "\n\\end\x7bcvitems\x7d" = lit "\n\\end\x7bcvitems" ++ [125] := by decide
      rw [this]; intro c hc
      simp only [← List.append_assoc, List.getLast?_append, List.getLast?_singleton] at hc
      simp at hc; subst hc; decide)
  simpa [List.append_assoc] using this

/-! ## The builders never raise -/

theorem nameLine_eq (name : Option Str) : nameLine name = .ok (nameLineText name) := by
  cases name with
  | none => rfl
  | some nm =>
    cases nm with
    | nil => rfl
    | cons c cs => rfl

theorem generateProfileSection_some (b : Basics) :
    generateProfileSection (some b) = .ok (profileText b) := by
  simp only [generateProfileSection, truthyObj, Bool.not_true, Bool.false_eq_true, if_false,
    deref, nameLine_eq]
  rfl

theorem generateEducationSection_some (schools : List School) :
    generateEducationSection (some schools) = .ok (educationText schools) := rfl

theorem dutyLines_eq (highlights : Option (List Str)) :
    dutyLines highlights = .ok (dutyLinesText highlights) := by
  cases highlights <;> rfl

theorem experienceEntry_eq (job : Job) :
    experienceEntry job = .ok (experienceEntryText job) := by
  simp only [experienceEntry, dutyLines_eq]
  rfl

theorem mapM_ok {α β : Type} (f : α → Except JSError β) (g : α → β)
    (h : ∀ x, f x = .ok (g x)) (xs : List α) : xs.mapM f = .ok (xs.map g) := by
  induction xs with
  | nil => rfl
  | cons x xs ih =>
    rw [List.mapM_cons, h x, ih]
    rfl

theorem generateExperienceSection_some (jobs : List Job) :
    generateExperienceSection (some jobs) = .ok (experienceText jobs) := by
  simp only [generateExperienceSection, truthyObj, Bool.not_true, Bool.false_eq_true, if_false,
    deref, mapM_ok experienceEntry experienceEntryText experienceEntry_eq]
  rfl

theorem generateSkillsSection_some (sk : List Skill) :
    generateSkillsSection (some sk) = .ok (skillsText sk) := rfl

theorem generateProjectsSection_some (ps : List Project) :
    generateProjectsSection (some ps) = .ok (projectsText ps) := rfl

theorem generateAwardsSection_some (aw : List Award) :
    generateAwardsSection (some aw) = .ok (awardsText aw) := rfl

theorem generateProfileSection_eq (basics : Option Basics) :
    generateProfileSection basics = .ok (fragment profileText basics) := by
  cases basics with
  | none => rfl
  | some b => rw [generateProfileSection_some]; simp only [fragment]

theorem generateEducationSection_eq (education : Option (List School)) :
    generateEducationSection education = .ok (fragment educationText education) := by
  cases education <;> rfl

theorem generateExperienceSection_eq (work : Option (List Job)) :
    generateExperienceSection work = .ok (fragment experienceText work) := by
  cases work with
  | none => rfl
  | some jobs => rw [generateExperienceSection_some]; simp only [fragment]

theorem generateSkillsSection_eq (skills : Option (List Skill)) :
    generateSkillsSection skills = .ok (fragment skillsText skills) := by
  cases skills <;> rfl

theorem generateProjectsSection_eq (projects : Option (List Project)) :
    generateProjectsSection projects = .ok (fragment projectsText projects) := by
  cases projects <;> rfl

theorem generateAwardsSection_eq (awards : Option (List Award)) :
    generateAwardsSection awards = .ok (fragment awardsText awards) := by
  cases awards <;> rfl

/-! ## Closed form of the document template -/

theorem zero_mem_indentMatchesAux (st : Option (Nat × Bool)) (x y : Str) (c : Nat)
    (hc : isWhiteSpace c = false) : 0 ∈ indentMatchesAux st (x ++ 10 :: c :: y) := by
  rw [indentMatchesAux_append]
  apply List.mem_append_right
  have hc10 : c ≠ 10 := by
    intro h; subst h; exact absurd hc (by decide)
  rcases indentState st x with _ | ⟨k, lt⟩
  · simp [indentMatchesAux, isLineTerminator, hc10, hc]
  · simp [indentMatchesAux, hc10, hc]

/-- A text with a line that starts with a non-white-space character has no
common indentation: `stripIndentTransformer` leaves it as it is. -/
theorem stripIndentTransformer_of_flush (x y : Str) (c : Nat) (hc : isWhiteSpace c = false) :
    stripIndentTransformer (x ++ 10 :: c :: y) = x ++ 10 :: c :: y := by
  unfold stripIndentTransformer
  simp only [indentMatches, minIndent_eq_zero_of_mem _ (zero_mem_indentMatchesAux _ x y c hc),
    ne_eq, not_true_eq_false, if_false]

theorem generateHeader_split :
    generateHeader =
      lit "%!TEX TS-program = xelatex" ++ 10 :: 37 :: generateHeader.drop 28 := by
  decide!

theorem templateText_id_eight (s0 s1 s2 s3 s4 s5 s6 s7 s8 a1 a2 a3 a4 a5 a6 a7 a8 : Str) :
    templateText (fun e _ => e) [s0, s1, s2, s3, s4, s5, s6, s7, s8]
        [.str a1, .str a2, .str a3, .str a4, .str a5, .str a6, .str a7, .str a8] =
      s0 ++ (a1 ++ (s1 ++ (a2 ++ (s2 ++ (a3 ++ (s3 ++ (a4 ++ (s4 ++ (a5 ++ (s5 ++ (a6 ++
        (s6 ++ (a7 ++ (s7 ++ (a8 ++ s8))))))))))))))) := by
  simp [templateText, processSubstitutions, JSVal.toStr]

theorem stripIndent_template2 (p e x s pr a w : Str) :
    stripIndent template2Strings
      [.str generateHeader, .str p, .str e, .str x, .str s, .str pr, .str a, .str w] =
      documentText p e x s pr a w := by
  unfold stripIndent
  rw [template2Strings, templateText_id_eight]
  have hflush : ∀ r : Str, stripIndentTransformer (lit "\n    " ++ (generateHeader ++ r)) =
      lit "\n    " ++ (generateHeader ++ r) := by
    intro r
    have := stripIndentTransformer_of_flush (lit "\n    " ++ lit "%!TEX TS-program = xelatex")
      (generateHeader.drop 28 ++ r) 37 (by decide)
    rw [generateHeader_split]
    simpa [List.append_assoc] using this
  rw [hflush]
  unfold trimResultTransformer
  have hlast : lit "\n    \\end\x7bdocument\x7d\n  " =
      lit "\n    \\end\x7bdocument\x7d" ++ lit "\n  " := by decide
  have := jsTrim_core (lit "\n    ") (documentText p e x s pr a w) (lit "\n  ")
    (by decide) (by decide)
    (by
      intro c hc
      rw [documentText, generateHeader_split] at hc
      have h0 : lit "%!TEX TS-program = xelatex" = 37 :: lit "!TEX TS-program = xelatex" := by
        decide
      rw [h0] at hc
      simp at hc; subst hc; decide)
    (by
      intro c hc
      have h0 : lit "\n    \\end\x7bdocument\x7d" = lit "\n    \\end\x7bdocument" ++ [125] := by
        decide
      rw [documentText, h0] at hc
      simp only [← List.append_assoc, List.getLast?_append, List.getLast?_singleton] at hc
      simp at hc; subst hc; decide)
  rw [hlast]
  simpa [documentText, List.append_assoc] using this

theorem template2_eq (w : Str) (values : SanitizedValues) :
    template2 w values = .ok (template2Text w values) := by
  simp only [template2, generateProfileSection_eq, generateEducationSection_eq,
    generateExperienceSection_eq, generateSkillsSection_eq, generateProjectsSection_eq,
    generateAwardsSection_eq, template2Text, ← stripIndent_template2]
  rfl

/-! ## Splitting and joining -/

theorem jsSplit_ne_nil (sep : Nat) (s : Str) : jsSplit sep s ≠ [] := by
  induction s with
  | nil => simp [jsSplit]
  | cons c cs ih =>
    simp only [jsSplit]
    split_ifs
    · simp
    · cases h : jsSplit sep cs <;> simp

theorem jsSplit_cons_ne (sep c : Nat) (cs : Str) (h : c ≠ sep) :
    jsSplit sep (c :: cs) =
      (c :: (jsSplit sep cs).headD []) :: (jsSplit sep cs).tail := by
  simp only [jsSplit, if_neg h]
  cases hs : jsSplit sep cs with
  | nil => exact absurd hs (jsSplit_ne_nil sep cs)
  | cons t ts => simp

theorem jsSplit_head (sep : Nat) (s : Str) :
    (jsSplit sep s).head? = some (s.takeWhile (fun c => c != sep)) := by
  induction s with
  | nil => simp [jsSplit]
  | cons c cs ih =>
    by_cases h : c = sep
    · subst h
      simp [jsSplit, List.takeWhile]
    · rw [jsSplit_cons_ne sep c cs h]
      have hne : (c != sep) = true := by simpa using h
      simp only [List.head?_cons, List.takeWhile, hne]
      cases hs : jsSplit sep cs with
      | nil => exact absurd hs (jsSplit_ne_nil sep cs)
      | cons t ts =>
        rw [hs] at ih
        simp only [List.head?_cons, Option.some.injEq] at ih
        simp [ih]

theorem jsSplit_tail (sep : Nat) (s : Str) :
    jsJoin [sep] (jsSplit sep s).tail = (s.dropWhile (fun c => c != sep)).drop 1 := by
  induction s with
  | nil => simp [jsSplit, jsJoin]
  | cons c cs ih =>
    by_cases h : c = sep
    · subst h
      simp only [jsSplit, if_true, List.tail_cons, List.dropWhile, bne_self_eq_false,
        List.drop_succ_cons, List.drop_zero]
      clear ih
      induction cs with
      | nil => simp [jsSplit, jsJoin]
      | cons d ds ih2 =>
        by_cases hd : d = c
        · subst hd
          simp only [jsSplit, if_true]
          cases hs : jsSplit d ds with
          | nil => exact absurd hs (jsSplit_ne_nil d ds)
          | cons t ts =>
            rw [hs] at ih2
            simp [jsJoin, ih2]
        · rw [jsSplit_cons_ne c d ds hd]
          cases hs : jsSplit c ds with
          | nil => exact absurd hs (jsSplit_ne_nil c ds)
          | cons t ts =>
            rw [hs] at ih2
            cases ts with
            | nil =>
              simp only [jsJoin] at ih2
              simp [jsJoin, ih2]
            | cons u us =>
              simp only [jsJoin] at ih2
              simp [jsJoin, ih2]
    · rw [jsSplit_cons_ne sep c cs h]
      have hne : (c != sep) = true := by simpa using h
      simp only [List.tail_cons, List.dropWhile, hne]
      exact ih

theorem jsSplit_length_eq_one (sep : Nat) (s : Str) :
    (jsSplit sep s).length = 1 ↔ sep ∉ s := by
  induction s with
  | nil => simp [jsSplit]
  | cons c cs ih =>
    by_cases h : c = sep
    · subst h
      have := jsSplit_ne_nil c cs
      simp only [jsSplit, if_true, List.length_cons, List.mem_cons, true_or, not_true_eq_false,
        iff_false]
      intro hl
      apply this
      exact List.length_eq_zero.mp (by omega)
    · rw [jsSplit_cons_ne sep c cs h]
      have hlen : ((c :: (jsSplit sep cs).headD []) :: (jsSplit sep cs).tail).length =
          (jsSplit sep cs).length := by
        cases hs : jsSplit sep cs with
        | nil => exact absurd hs (jsSplit_ne_nil sep cs)
        | cons t ts => simp
      rw [hlen, ih]
      simp only [List.mem_cons, not_or]
      constructor
      · intro h2
        exact ⟨fun e => h e.symm, h2⟩
      · intro h2
        exact h2.2

/-! ## The contact line -/

theorem jsJoin_length (sep : Str) (ts : List Str) :
    (jsJoin sep ts).length = (ts.map List.length).sum + (ts.length - 1) * sep.length := by
  induction ts with
  | nil => simp [jsJoin]
  | cons x xs ih =>
    cases xs with
    | nil => simp [jsJoin]
    | cons y ys =>
      simp only [jsJoin, List.length_append, List.map_cons, List.sum_cons, List.length_cons] at ih ⊢
      rw [ih]
      simp only [Nat.add_sub_cancel]
      ring

theorem jsJoin_head (sep : Str) (ts : List Str) (c : Nat) (h : ∀ t ∈ ts, t.head? = some c) :
    (jsJoin sep ts).head? = if ts = [] then none else some c := by
  cases ts with
  | nil => simp [jsJoin]
  | cons x xs =>
    have hx := h x (by simp)
    cases xs with
    | nil => simpa [jsJoin] using hx
    | cons y ys =>
      cases x with
      | nil => simp at hx
      | cons a as =>
        simp only [List.head?_cons, Option.some.injEq] at hx
        simp [jsJoin, hx]

theorem jsJoin_getLast (sep : Str) (ts : List Str) (c : Nat)
    (h : ∀ t ∈ ts, t.getLast? = some c) :
    (jsJoin sep ts).getLast? = if ts = [] then none else some c := by
  induction ts with
  | nil => simp [jsJoin]
  | cons x xs ih =>
    have hx := h x (by simp)
    cases xs with
    | nil => simpa [jsJoin] using hx
    | cons y ys =>
      have ih' := ih (fun t ht => h t (by simp [ht]))
      simp only [reduceCtorEq, if_false] at ih' ⊢
      simp only [jsJoin] at ih' ⊢
      rw [List.getLast?_append, ih']
      simp

/-- The contact line of one field: the token when the field is truthy, the
empty string otherwise. -/
theorem contact_filter (ps : List (Str × Option Str)) :
    (ps.map (fun p => if truthy p.2 then p.1 ++ (ofOpt p.2).toStr ++ lit "\x7d" else [])).filter
        (fun t => !t.isEmpty) =
      ps.filterMap (fun t =>
        match t.2 with
        | some v => if v ≠ [] then some (t.1 ++ v ++ lit "\x7d") else none
        | none => none) := by
  induction ps with
  | nil => rfl
  | cons p ps ih =>
    obtain ⟨icon, field⟩ := p
    have hb : lit "\x7d" = [125] := by decide
    cases field with
    | none => simpa [truthy] using ih
    | some v =>
      cases v with
      | nil => simpa [truthy] using ih
      | cons c cs =>
        rw [List.map_cons, List.filter_cons, ih]
        simp [truthy, ofOpt, JSVal.toStr, hb]

theorem info_eq_contactTokens (b : Basics) :
    info b = jsJoin (lit " | ") (contactTokens b) := by
  unfold info contactTokens
  rw [← contact_filter]
  cases hl : b.location <;> rfl

theorem contactTokens_shape (b : Basics) :
    ∀ t ∈ contactTokens b, t.head? = some 123 ∧ t.getLast? = some 125 := by
  intro t ht
  have hb : lit "\x7d" = [125] := by decide
  have h1 : lit "\x7b\\faEnvelope\\ " = 123 :: lit "\\faEnvelope\\ " := by decide
  have h2 : lit "\x7b\\faMobile\\ " = 123 :: lit "\\faMobile\\ " := by decide
  have h3 : lit "\x7b\\faMapMarker\\ " = 123 :: lit "\\faMapMarker\\ " := by decide
  have h4 : lit "\x7b\\faLink\\ " = 123 :: lit "\\faLink\\ " := by decide
  simp only [contactTokens, List.mem_filterMap, List.mem_cons, List.mem_singleton,
    List.not_mem_nil, or_false] at ht
  obtain ⟨p, hp, hpt⟩ := ht
  obtain ⟨icon, field⟩ := p
  cases field with
  | none => simp at hpt
  | some v =>
    simp only [ne_eq, ite_not] at hpt
    split_ifs at hpt with hv
    simp only [Option.some.injEq] at hpt
    subst hpt
    constructor
    · rcases hp with hp | hp | hp | hp <;>
        · simp only [Prod.mk.injEq] at hp
          obtain ⟨rfl, -⟩ := hp
          simp [h1, h2, h3, h4]
    · rw [hb, List.getLast?_append]
      simp

/-! ## Non-empty fragments -/

theorem jsTrim_ne_nil (s : Str) (c : Nat) (hc : c ∈ s) (hw : isWhiteSpace c = false) :
    jsTrim s ≠ [] := by
  unfold jsTrim
  intro h
  have h1 : (s.dropWhile isWhiteSpace).reverse.dropWhile isWhiteSpace = [] := by
    simpa using h
  rw [List.dropWhile_eq_nil_iff] at h1
  have h2 : ∀ x ∈ s.dropWhile isWhiteSpace, isWhiteSpace x = true := by
    intro x hx
    exact h1 x (by simpa using hx)
  cases hd : s.dropWhile isWhiteSpace with
  | nil =>
    rw [List.dropWhile_eq_nil_iff] at hd
    have := hd c hc
    rw [hw] at this
    exact Bool.noConfusion this
  | cons x xs =>
    have hx : isWhiteSpace x = true := h2 x (by rw [hd]; simp)
    have hx' : ¬ (isWhiteSpace x = true) := by
      have := List.head_dropWhile_not isWhiteSpace s (by rw [hd]; simp)
      simpa [hd] using this
    exact hx' hx

theorem processSubstitutions_start (onSub : JSVal → Str → JSVal) (acc : Str) (ss : List Str)
    (es : List JSVal) : ∃ t, processSubstitutions onSub acc ss es = acc ++ t := by
  induction ss generalizing acc es with
  | nil => exact ⟨[], by simp [processSubstitutions]⟩
  | cons s ss ih =>
    cases es with
    | nil =>
      obtain ⟨t, ht⟩ := ih (acc ++ (onSub .undefined acc).toStr ++ s) []
      exact ⟨(onSub .undefined acc).toStr ++ s ++ t, by
        rw [processSubstitutions, ht]; simp only [List.append_assoc]⟩
    | cons e es =>
      obtain ⟨t, ht⟩ := ih (acc ++ (onSub e acc).toStr ++ s) es
      exact ⟨(onSub e acc).toStr ++ s ++ t, by
        rw [processSubstitutions, ht]; simp only [List.append_assoc]⟩

/-- A text whose first line is empty and whose second line is `k` spaces and
then a non-white-space character keeps that character when its indentation is
removed. -/
theorem mem_stripIndentTransformer (k c : Nat) (rest : Str) (hc : isWhiteSpace c = false) :
    c ∈ stripIndentTransformer (10 :: (List.replicate k 32 ++ c :: rest)) := by
  have hlt : isLineTerminator c = false := by
    by_contra h
    have := isLineTerminator_isWhiteSpace c (by simpa using h)
    rw [hc] at this
    exact Bool.noConfusion this
  have hc10 : c ≠ 10 := by
    intro h; subst h; exact absurd hc (by decide)
  have hmem : k ∈ indentMatches (10 :: (List.replicate k 32 ++ c :: rest)) := by
    have := indentMatchesAux_indentSep k (c :: rest)
    have h2 : indentMatches (10 :: (List.replicate k 32 ++ c :: rest)) =
        indentMatchesAux (some (k, false)) (c :: rest) := by
      simp only [indentMatches, indentMatchesAux, if_true]
      have h3 := this
      simp only [indentSep, List.cons_append, indentMatchesAux,
        show isLineTerminator 10 = true from by decide, if_true] at h3
      exact h3
    rw [h2]
    simp [indentMatchesAux, hc10, hc]
  have hle := minIndent_le_of_mem _ k hmem
  unfold stripIndentTransformer
  generalize minIndent (indentMatches (10 :: (List.replicate k 32 ++ c :: rest))) = n at hle
  by_cases hn : n = 0
  · simp [hn]
  · simp only [ne_eq, hn, not_false_eq_true, if_true]
    obtain ⟨m, rfl⟩ : ∃ m, n = m + 1 := ⟨n - 1, by omega⟩
    obtain ⟨j, rfl⟩ : ∃ j, k = j + 1 := ⟨k - 1, by omega⟩
    have hcs : canStrip (m + 1) (32 :: (List.replicate j 32 ++ c :: rest)) = true := by
      have := canStrip_replicate (m + 1) (j + 1) (c :: rest) hle
      simpa [List.replicate] using this
    have hfirst : ∀ X : Str, stripAux (m + 1) 0 true (10 :: X) =
        10 :: stripAux (m + 1) 0 true X := by
      intro X
      simp [stripAux, canStrip, isLineTerminator]
    have hsecond : stripAux (m + 1) 0 true (32 :: (List.replicate j 32 ++ c :: rest)) =
        stripAux (m + 1) m false (List.replicate j 32 ++ c :: rest) := by
      simp only [stripAux, hcs, Bool.true_and, if_true, Nat.add_sub_cancel]
    rw [hfirst]
    apply List.mem_cons_of_mem
    simp only [List.replicate, List.cons_append]
    rw [hsecond]
    cases m with
    | zero =>
      rw [stripAux_noLT_replicate]
      simp [stripAux, hlt]
    | succ m =>
      rw [stripAux_drop_replicate _ _ _ _ _ (by omega), stripAux_noLT_replicate]
      simp [stripAux, hlt]

/-- A tagged template whose first string opens with an empty line and a line
of `k` spaces and a non-white-space character yields a non-empty text. -/
theorem tag_ne_nil (onSub : JSVal → Str → JSVal) (s0 : Str) (ss : List Str)
    (es : List JSVal) (k c : Nat) (h1 : s0.take (k + 1) = 10 :: List.replicate k 32)
    (h2 : (s0.drop (k + 1)).head? = some c) (hc : isWhiteSpace c = false) :
    trimResultTransformer (stripIndentTransformer (templateText onSub (s0 :: ss) es)) ≠ [] := by
  have hs0 : s0 = 10 :: (List.replicate k 32 ++ c :: (s0.drop (k + 1)).tail) := by
    have h3 : s0.drop (k + 1) = c :: (s0.drop (k + 1)).tail := by
      cases hd : s0.drop (k + 1) with
      | nil => rw [hd] at h2; simp at h2
      | cons x xs =>
        rw [hd] at h2
        simp only [List.head?_cons, Option.some.injEq] at h2
        simp [h2]
    calc s0 = s0.take (k + 1) ++ s0.drop (k + 1) := (List.take_append_drop (k + 1) s0).symm
      _ = 10 :: (List.replicate k 32 ++ c :: (s0.drop (k + 1)).tail) := by
        rw [h1, h3]
        simp
  generalize (s0.drop (k + 1)).tail = tail at hs0
  subst hs0
  obtain ⟨t, ht⟩ := processSubstitutions_start onSub
    (10 :: (List.replicate k 32 ++ c :: tail)) ss es
  have hraw : templateText onSub ((10 :: (List.replicate k 32 ++ c :: tail)) :: ss) es =
      10 :: (List.replicate k 32 ++ c :: (tail ++ t)) := by
    simp only [templateText, ht, List.cons_append, List.append_assoc]
  rw [hraw]
  exact jsTrim_ne_nil _ c (mem_stripIndentTransformer k c (tail ++ t) hc) hc

/-! ## Occurrences of a text -/

theorem occursIn_nil_left (s : Str) : occursIn [] s = true := by
  cases s <;> simp [occursIn, startsWith]

theorem startsWith_append_right (m x r : Str) (h : startsWith m x = true) :
    startsWith m (x ++ r) = true := by
  induction m generalizing x with
  | nil => simp [startsWith]
  | cons a m ih =>
    cases x with
    | nil => simp [startsWith] at h
    | cons b x =>
      simp only [startsWith, Bool.and_eq_true] at h
      simp [startsWith, h.1, ih x h.2]

theorem occursIn_append_right (m x r : Str) (h : occursIn m x = true) :
    occursIn m (x ++ r) = true := by
  induction x with
  | nil =>
    have hm : m = [] := by simpa [occursIn] using h
    subst hm
    exact occursIn_nil_left _
  | cons c x ih =>
    simp only [occursIn, Bool.or_eq_true] at h
    simp only [List.cons_append, occursIn, Bool.or_eq_true]
    rcases h with h | h
    · left
      have := startsWith_append_right m (c :: x) r h
      simpa using this
    · right
      exact ih h

theorem occursIn_append_left (m x r : Str) (h : occursIn m r = true) :
    occursIn m (x ++ r) = true := by
  induction x with
  | nil => simpa using h
  | cons c x ih => simp [occursIn, ih]

/-- A text that begins with `m` before a character foreign to `m` has `m`
end before that character. -/
theorem startsWith_before (m x r : Str) (d : Nat) (hd : d ∉ m)
    (h : startsWith m (x ++ d :: r) = true) : startsWith m x = true := by
  induction m generalizing x with
  | nil => simp [startsWith]
  | cons a m ih =>
    cases x with
    | nil =>
      simp only [List.nil_append, startsWith, Bool.and_eq_true, beq_iff_eq] at h
      exact absurd h.1.symm (fun e => hd (by simp [e]))
    | cons b x =>
      simp only [List.cons_append, startsWith, Bool.and_eq_true] at h
      simp only [startsWith, Bool.and_eq_true]
      exact ⟨h.1, ih x (fun hm => hd (List.mem_cons_of_mem _ hm)) h.2⟩

/-- An occurrence of `m` cannot run across a character foreign to `m`. -/
theorem occursIn_split (m x r : Str) (d : Nat) (hd : d ∉ m)
    (h : occursIn m (x ++ d :: r) = true) : occursIn m x = true ∨ occursIn m r = true := by
  induction x with
  | nil =>
    simp only [List.nil_append, occursIn, Bool.or_eq_true] at h
    rcases h with h | h
    · have := startsWith_before m [] r d hd (by simpa using h)
      cases m with
      | nil => exact Or.inr (occursIn_nil_left r)
      | cons a m => simp [startsWith] at this
    · exact Or.inr h
  | cons c x ih =>
    simp only [List.cons_append, occursIn, Bool.or_eq_true] at h
    rcases h with h | h
    · left
      have := startsWith_before m (c :: x) r d hd (by simpa using h)
      simp [occursIn, this]
    · rcases ih h with h' | h'
      · left
        simp [occursIn, h']
      · exact Or.inr h'

/-- In a text `a ++ [d] ++ w ++ e :: b`, with `d` and `e` foreign to `m`, the
text `m` occurs exactly when it occurs in one of `a`, `w`, `b`. -/
theorem occursIn_between (m a w b : Str) (d e : Nat) (hd : d ∉ m) (he : e ∉ m)
    (ha : occursIn m a = false) (hb : occursIn m b = false) (hm : m ≠ []) :
    occursIn m (a ++ d :: (w ++ e :: b)) = occursIn m w := by
  cases hw : occursIn m w with
  | true =>
    apply occursIn_append_left
    have h1 := occursIn_append_right m w (e :: b) hw
    cases m with
    | nil => exact absurd rfl hm
    | cons x m =>
      simp only [occursIn, Bool.or_eq_true]
      exact Or.inr h1
  | false =>
    by_contra h
    have h' : occursIn m (a ++ d :: (w ++ e :: b)) = true := by simpa using h
    rcases occursIn_split m a _ d hd h' with h1 | h1
    · rw [ha] at h1; exact Bool.noConfusion h1
    · rcases occursIn_split m w b e he h1 with h2 | h2
      · rw [hw] at h2; exact Bool.noConfusion h2
      · rw [hb] at h2; exact Bool.noConfusion h2

/-! ## Counting brace-delimited arguments -/

theorem inert_nil : Inert [] := by
  intro d n r
  rfl

theorem inert_braceFree (x : Str) (h : braceFree (some x) = true) : Inert x := by
  intro d n r
  induction x with
  | nil => rfl
  | cons c x ih =>
    simp only [braceFree, List.all_cons, Bool.and_eq_true, bne_iff_ne, ne_eq] at h
    have ih' := ih (by simpa [braceFree] using h.2)
    simp only [List.cons_append, argCount, h.1.1, h.1.2, if_false]
    exact ih'

theorem inert_append (x y : Str) (hx : Inert x) (hy : Inert y) : Inert (x ++ y) := by
  intro d n r
  rw [List.append_assoc, hx, hy]

theorem inert_group (x : Str) (hx : Inert x) : Inert (123 :: (x ++ [125])) := by
  intro d n r
  have e : (123 :: (x ++ [125])) ++ r = 123 :: (x ++ 125 :: r) := by simp
  rw [e]
  simp only [argCount, if_true]
  rw [hx (d + 1) n (125 :: r)]
  simp [argCount]

theorem argCount_skip (ws r : Str) (n : Nat) (h : allWhiteSpace ws = true) :
    argCount 0 n (ws ++ 123 :: r) = argCount 1 n r := by
  induction ws with
  | nil => simp [argCount]
  | cons c ws ih =>
    simp only [allWhiteSpace, List.all_cons, Bool.and_eq_true] at h
    have h123 : c ≠ 123 := by
      intro e; subst e; exact absurd h.1 (by decide)
    have h125 : c ≠ 125 := by
      intro e; subst e; exact absurd h.1 (by decide)
    simp only [List.cons_append, argCount, h123, h125, if_false, h.1, if_true]
    exact ih (by simpa [allWhiteSpace] using h.2)

/-- One argument: white space, an opening brace, an inert text and the
closing brace add one to the count. -/
theorem argCount_step (ws x r : Str) (n : Nat) (h : allWhiteSpace ws = true) (hx : Inert x) :
    argCount 0 n (ws ++ 123 :: (x ++ 125 :: r)) = argCount 0 (n + 1) r := by
  rw [argCount_skip ws _ n h, hx 0 n (125 :: r)]
  simp [argCount]

theorem argCount_groups (ws : Str) (args : List Str) (tail : Str) (n : Nat)
    (h : allWhiteSpace ws = true) (hx : ∀ a ∈ args, Inert a) :
    argCount 0 n (groups ws args tail) = argCount 0 (n + args.length) tail := by
  induction args generalizing n with
  | nil => rfl
  | cons a args ih =>
    simp only [groups, List.foldr_cons, List.length_cons]
    rw [argCount_step ws a _ n h (hx a (by simp))]
    have := ih (n + 1) (fun b hb => hx b (by simp [hb]))
    simp only [groups] at this
    rw [this]
    congr 1
    omega

theorem groups_getLast (pre ws : Str) (args : List Str) (hne : args ≠ []) :
    (pre ++ groups ws args []).getLast? = some 125 := by
  induction args generalizing pre with
  | nil => exact absurd rfl hne
  | cons a args ih =>
    cases args with
    | nil =>
      have e : pre ++ groups ws [a] [] = (pre ++ (ws ++ 123 :: a)) ++ [125] := by
        simp [groups]
      rw [e, List.getLast?_append]
      simp
    | cons b rest =>
      have e : pre ++ groups ws (a :: b :: rest) [] =
          (pre ++ (ws ++ 123 :: (a ++ [125]))) ++ groups ws (b :: rest) [] := by
        simp [groups]
      rw [e]
      exact ih _ (by simp)

theorem startsWith_self_append (name r : Str) : startsWith name (name ++ r) = true := by
  induction name with
  | nil => simp [startsWith]
  | cons c name ih => simp [startsWith, ih]

theorem macroArgs_append (name r : Str) : macroArgs name (name ++ r) = argCount 0 0 r := by
  unfold macroArgs
  rw [startsWith_self_append, if_pos rfl, List.drop_left]

theorem toStr_str (s : Str) : (JSVal.str s).toStr = s := rfl

theorem dutyLines_raw (hs : List Str) :
    templateText (fun e r => inlineArrayTransformer (splitStringTransformer e) r)
      [lit "\n        \\begin\x7bcvitems\x7d\n          ",
       lit "\n        \\end\x7bcvitems\x7d\n        "] [.arr (hs.map dutyItem)] =
      lit "\n        \\begin\x7bcvitems\x7d\n          " ++
        (jsJoin (indentSep 10) (hs.map dutyItem) ++
          lit "\n        \\end\x7bcvitems\x7d\n        ") := by
  have hti : trailingIndent (lit "\n        \\begin\x7bcvitems\x7d\n          ") =
      some (indentSep 10) := by decide
  simp [templateText, processSubstitutions, inlineArrayTransformer, splitStringTransformer,
    hti, JSVal.toStr]

theorem dutyLinesText_closed (hs : List Str) (h : ∀ x ∈ hs, noLineTerminator x = true) :
    dutyLinesText (some hs) = lit "\\begin\x7bcvitems\x7d\n  " ++
      (jsJoin (indentSep 2) (hs.map dutyItem) ++ lit "\n\\end\x7bcvitems\x7d") := by
  have h1 := dutyLines_closed hs h
  rw [dutyLines_eq] at h1
  exact Except.ok.inj h1

/-! ## Indentation removal deletes white space only -/

theorem indentMatchesAux_step (st : Option (Nat × Bool)) (c : Nat) (t : Str) (hc : c ≠ 10) :
    ∃ st', ∀ m ∈ indentMatchesAux st' t, m ∈ indentMatchesAux st (c :: t) := by
  rcases st with _ | ⟨k, lt⟩
  · exact ⟨_, fun m hm => by simpa [indentMatchesAux] using hm⟩
  · by_cases hw : isWhiteSpace c = true
    · exact ⟨_, fun m hm => by simpa [indentMatchesAux, hc, hw] using hm⟩
    · refine ⟨none, fun m hm => ?_⟩
      have hw' : isWhiteSpace c = false := by simpa using hw
      simp only [indentMatchesAux, hc, hw', if_false, Bool.false_eq_true]
      split_ifs <;> simp [hm]

theorem indentMatchesAux_lf (st : Option (Nat × Bool)) (t : Str) :
    indentMatchesAux st (10 :: t) = indentMatchesAux (some (0, false)) t := by
  rcases st with _ | ⟨k, lt⟩ <;> simp [indentMatchesAux, isLineTerminator]

theorem isLineTerminator_of_lfOnly (c : Nat) (h1 : c ≠ 10) (h2 : c ≠ 13) (h3 : c ≠ 8232)
    (h4 : c ≠ 8233) : isLineTerminator c = false := by
  simp [isLineTerminator, h1, h2, h3, h4]

/-- Removing `n` characters of indentation from a text whose only line
terminator is the line feed removes white space only, when `n` is at most
every indentation match: the three parts are the states of `stripAux` inside a
line, at a line start and while it removes characters. -/
theorem ink_stripAux (n : Nat) (hn : 1 ≤ n) (t : Str) (ht : lfOnly t = true) :
    (∀ st, (∀ m ∈ indentMatchesAux st t, n ≤ m) → ink (stripAux n 0 false t) = ink t) ∧
    ((∀ m ∈ indentMatchesAux (some (0, false)) t, n ≤ m) →
      ink (stripAux n 0 true t) = ink t) ∧
    (∀ j k b, canStrip (j + 1) t = true →
      (∀ m ∈ indentMatchesAux (some (k, false)) t, k + j + 1 ≤ m) →
      (∀ m ∈ indentMatchesAux (some (k, false)) t, n ≤ m) →
      ink (stripAux n (j + 1) b t) = ink t) := by
  induction t with
  | nil =>
    refine ⟨fun _ _ => rfl, fun _ => rfl, ?_⟩
    intro j k b hc
    simp [canStrip] at hc
  | cons c t ih =>
    have hl : (c ≠ 13 ∧ c ≠ 8232 ∧ c ≠ 8233) ∧ lfOnly t = true := by
      simpa [lfOnly, and_assoc] using ht
    obtain ⟨⟨h13, h2028, h2029⟩, ht'⟩ := hl
    obtain ⟨ihA, ihB, ihC⟩ := ih ht'
    -- the state inside a line
    have partA : ∀ st, (∀ m ∈ indentMatchesAux st (c :: t), n ≤ m) →
        ink (stripAux n 0 false (c :: t)) = ink (c :: t) := by
      intro st hm
      by_cases h10 : c = 10
      · subst h10
        rw [indentMatchesAux_lf] at hm
        have := ihB hm
        simp only [stripAux, Bool.false_and, Bool.false_eq_true, if_false,
          show isLineTerminator 10 = true from by decide]
        simp only [ink, List.filter_cons] at this ⊢
        rw [this]
      · have hlt := isLineTerminator_of_lfOnly c h10 h13 h2028 h2029
        obtain ⟨st', hst'⟩ := indentMatchesAux_step st c t h10
        have := ihA st' (fun m hmem => hm m (hst' m hmem))
        simp only [stripAux, Bool.false_and, Bool.false_eq_true, if_false, hlt]
        simp only [ink, List.filter_cons] at this ⊢
        rw [this]
    -- the state that removes characters
    have partC : ∀ j k b, canStrip (j + 1) (c :: t) = true →
        (∀ m ∈ indentMatchesAux (some (k, false)) (c :: t), k + j + 1 ≤ m) →
        (∀ m ∈ indentMatchesAux (some (k, false)) (c :: t), n ≤ m) →
        ink (stripAux n (j + 1) b (c :: t)) = ink (c :: t) := by
      intro j k b hcan hm1 hm2
      simp only [canStrip, Bool.and_eq_true, Bool.not_eq_true'] at hcan
      obtain ⟨hlt, hcan'⟩ := hcan
      have h10 : c ≠ 10 := by
        intro e; subst e; exact absurd hlt (by decide)
      have hw : isWhiteSpace c = true := by
        by_contra hw
        have hw' : isWhiteSpace c = false := by simpa using hw
        have hk : k ∈ indentMatchesAux (some (k, false)) (c :: t) := by
          simp [indentMatchesAux, h10, hw']
        have := hm1 k hk
        omega
      have hstep : indentMatchesAux (some (k, false)) (c :: t) =
          indentMatchesAux (some (k + 1, false)) t := by
        simp [indentMatchesAux, h10, hw, hlt]
      rw [hstep] at hm1 hm2
      have hink : ink (c :: t) = ink t := by
        simp [ink, List.filter_cons, hw]
      rw [hink]
      simp only [stripAux]
      cases j with
      | zero => exact ihA _ hm2
      | succ j =>
        exact ihC j (k + 1) false hcan' (fun m hmem => by have := hm1 m hmem; omega) hm2
    refine ⟨partA, ?_, partC⟩
    -- the state at a line start
    intro hm
    by_cases hcan : canStrip n (c :: t) = true
    · obtain ⟨j, rfl⟩ : ∃ j, n = j + 1 := ⟨n - 1, by omega⟩
      have hlt : isLineTerminator c = false := by
        simp only [canStrip, Bool.and_eq_true, Bool.not_eq_true'] at hcan
        exact hcan.1
      have h10 : c ≠ 10 := by
        intro e; subst e; exact absurd hlt (by decide)
      have hw : isWhiteSpace c = true := by
        by_contra hw
        have hw' : isWhiteSpace c = false := by simpa using hw
        have hk : 0 ∈ indentMatchesAux (some (0, false)) (c :: t) := by
          simp [indentMatchesAux, h10, hw']
        have := hm 0 hk
        omega
      have hstep : indentMatchesAux (some (0, false)) (c :: t) =
          indentMatchesAux (some (1, false)) t := by
        simp [indentMatchesAux, h10, hw, hlt]
      rw [hstep] at hm
      have hink : ink (c :: t) = ink t := by
        simp [ink, List.filter_cons, hw]
      have hcan' : canStrip j t = true := by
        simp only [canStrip, Bool.and_eq_true] at hcan
        exact hcan.2
      rw [hink]
      simp only [stripAux, hcan, Bool.true_and, if_true, Nat.add_sub_cancel]
      cases j with
      | zero => exact ihA _ hm
      | succ j =>
        exact ihC j 1 false hcan' (fun m hmem => by have := hm m hmem; omega) hm
    · have hcan' : canStrip n (c :: t) = false := by simpa using hcan
      simp only [stripAux, hcan', Bool.and_false, Bool.false_eq_true, if_false]
      by_cases h10 : c = 10
      · subst h10
        rw [indentMatchesAux_lf] at hm
        have := ihB hm
        simp only [show isLineTerminator 10 = true from by decide]
        simp only [ink, List.filter_cons] at this ⊢
        rw [this]
      · have hlt := isLineTerminator_of_lfOnly c h10 h13 h2028 h2029
        obtain ⟨st', hst'⟩ := indentMatchesAux_step (some (0, false)) c t h10
        have := ihA st' (fun m hmem => hm m (hst' m hmem))
        simp only [hlt]
        simp only [ink, List.filter_cons] at this ⊢
        rw [this]

theorem ink_append (a b : Str) : ink (a ++ b) = ink a ++ ink b := by
  simp [ink]

theorem ink_cons_ws (c : Nat) (s : Str) (h : isWhiteSpace c = true) : ink (c :: s) = ink s := by
  simp [ink, List.filter_cons, h]

theorem ink_cons_ink (c : Nat) (s : Str) (h : isWhiteSpace c = false) :
    ink (c :: s) = c :: ink s := by
  simp [ink, List.filter_cons, h]

theorem ink_of_allWhiteSpace (s : Str) (h : allWhiteSpace s = true) : ink s = [] := by
  simp only [allWhiteSpace, List.all_eq_true] at h
  simp only [ink, List.filter_eq_nil_iff]
  intro a ha
  simp [h a ha]

theorem ink_dropWhile (s : Str) : ink (s.dropWhile isWhiteSpace) = ink s := by
  induction s with
  | nil => rfl
  | cons c s ih =>
    by_cases hw : isWhiteSpace c = true
    · simp only [List.dropWhile, hw]
      rw [ih, ink_cons_ws c s hw]
    · have hw' : isWhiteSpace c = false := by simpa using hw
      simp [List.dropWhile, hw']

theorem ink_reverse (s : Str) : ink s.reverse = (ink s).reverse := by
  simp [ink]

theorem ink_jsTrim (s : Str) : ink (jsTrim s) = ink s := by
  unfold jsTrim
  rw [ink_reverse, ink_dropWhile, ink_reverse, List.reverse_reverse, ink_dropWhile]

theorem ink_stripIndentTransformer (t : Str) (ht : lfOnly t = true) :
    ink (stripIndentTransformer t) = ink t := by
  unfold stripIndentTransformer
  by_cases hn : minIndent (indentMatches t) = 0
  · simp [hn]
  · simp only [ne_eq, hn, not_false_eq_true, if_true]
    exact (ink_stripAux _ (by omega) t ht).2.1
      (fun m hm => minIndent_le_of_mem _ m hm)

theorem argCount_ink (d n : Nat) (s : Str) : argCount d n (ink s) = argCount d n s := by
  induction s generalizing d n with
  | nil => rfl
  | cons c s ih =>
    by_cases hw : isWhiteSpace c = true
    · have h123 : c ≠ 123 := by
        intro e; subst e; exact absurd hw (by decide)
      have h125 : c ≠ 125 := by
        intro e; subst e; exact absurd hw (by decide)
      rw [ink_cons_ws c s hw, ih]
      cases d with
      | zero => simp [argCount, h123, h125, hw]
      | succ d => simp [argCount, h123, h125]
    · have hw' : isWhiteSpace c = false := by simpa using hw
      rw [ink_cons_ink c s hw']
      cases d with
      | zero =>
        simp only [argCount, hw', Bool.false_eq_true, if_false]
        split_ifs <;> first | rfl | exact ih _ _
      | succ d =>
        simp only [argCount]
        split_ifs <;> exact ih _ _

theorem dropWhile_append_of_head (p : Nat → Bool) (x y : Str)
    (hy : ∀ c ∈ y.head?, p c = false) : (x ++ y).dropWhile p = x.dropWhile p ++ y := by
  induction x with
  | nil =>
    cases y with
    | nil => rfl
    | cons c y => simp [List.dropWhile, hy c (by simp)]
  | cons a x ih =>
    by_cases ha : p a = true
    · simp [List.dropWhile, ha, ih]
    · have ha' : p a = false := by simpa using ha
      simp [List.dropWhile, ha']

/-- The trimmed text begins with `name` when only white space precedes it. -/
theorem jsTrim_name (a name s : Str) (ha : allWhiteSpace a = true)
    (h1 : ∀ c ∈ name.head?, isWhiteSpace c = false)
    (h2 : ∀ c ∈ name.getLast?, isWhiteSpace c = false) (hne : name ≠ []) :
    jsTrim (a ++ (name ++ s)) = name ++ (s.reverse.dropWhile isWhiteSpace).reverse := by
  unfold jsTrim
  rw [dropWhile_ws_append a (name ++ s) ha (by
    intro c hc
    cases name with
    | nil => exact absurd rfl hne
    | cons x xs => exact h1 c (by simpa using hc))]
  rw [List.reverse_append, dropWhile_append_of_head isWhiteSpace s.reverse name.reverse (by
    intro c hc
    rw [List.head?_reverse] at hc
    exact h2 c hc)]
  simp

theorem stripAux_sublist (n k : Nat) (b : Bool) (s : Str) :
    (stripAux n k b s).Sublist s := by
  induction s generalizing k b with
  | nil => cases k <;> simp [stripAux]
  | cons c s ih =>
    cases k with
    | zero =>
      simp only [stripAux]
      split_ifs
      · exact (ih _ _).cons c
      · exact (ih _ _).cons₂ c
    | succ k =>
      simp only [stripAux]
      exact (ih _ _).cons c

theorem lfOnly_of_sublist (a b : Str) (h : a.Sublist b) (hb : lfOnly b = true) :
    lfOnly a = true := by
  simp only [lfOnly, List.all_eq_true] at *
  intro c hc
  exact hb c (h.subset hc)

theorem lfOnly_append (a b : Str) : lfOnly (a ++ b) = (lfOnly a && lfOnly b) := by
  simp [lfOnly]

theorem lfOnly_stripIndent_result (t : Str) (ht : lfOnly t = true) :
    lfOnly (trimResultTransformer (stripIndentTransformer t)) = true := by
  apply lfOnly_of_sublist _ t _ ht
  unfold trimResultTransformer jsTrim stripIndentTransformer
  have h1 : ∀ l : Str, (l.dropWhile isWhiteSpace).Sublist l := fun l =>
    (List.dropWhile_suffix _).sublist
  have h2 : ∀ l : Str, ((l.dropWhile isWhiteSpace).reverse.dropWhile isWhiteSpace).reverse.Sublist l := by
    intro l
    have := (h1 (l.dropWhile isWhiteSpace).reverse).reverse
    rw [List.reverse_reverse] at this
    exact this.trans (h1 l)
  refine (h2 _).trans ?_
  dsimp only
  split_ifs
  · exact stripAux_sublist _ _ _ _
  · exact List.Sublist.refl _

/-! ## The argument count of the entry templates -/

/-- A rendered entry whose template begins with an empty line and the macro
name after six spaces: when the rest of the text holds no CR, U+2028 or
U+2029, the entry is the macro name followed by a text with the non-white-space
characters of the rest, so its arguments are those of the rest. -/
theorem macroArgs_entry (name R : Str)
    (f1 : indentMatchesAux (some (0, false)) (lit "\n      " ++ name) = [6])
    (f2 : indentState (some (0, false)) (lit "\n      " ++ name) = none)
    (f3 : ∀ n, 1 ≤ n → n ≤ 6 → stripSafe n 0 true (lit "\n      " ++ name) = true ∧
      stripEnd n 0 true (lit "\n      " ++ name) = (0, false) ∧
      stripAux n 0 true (lit "\n      " ++ name) = 10 :: (List.replicate (6 - n) 32 ++ name))
    (h1 : ∀ c ∈ name.head?, isWhiteSpace c = false)
    (h2 : ∀ c ∈ name.getLast?, isWhiteSpace c = false) (hne : name ≠ [])
    (hR : lfOnly R = true) :
    macroArgs name (trimResultTransformer (stripIndentTransformer (lit "\n      " ++ name ++ R))) =
      argCount 0 0 (ink R) := by
  have hm : indentMatches (lit "\n      " ++ name ++ R) = 6 :: indentMatchesAux none R := by
    rw [indentMatches, indentMatchesAux_append, f1, f2]
    rfl
  have hle : minIndent (indentMatches (lit "\n      " ++ name ++ R)) ≤ 6 :=
    minIndent_le_of_mem _ 6 (by rw [hm]; simp)
  have hall : ∀ m ∈ indentMatchesAux none R,
      minIndent (indentMatches (lit "\n      " ++ name ++ R)) ≤ m := by
    intro m hmem
    exact minIndent_le_of_mem _ m (by rw [hm]; simp [hmem])
  have key : ∃ E, trimResultTransformer (stripIndentTransformer (lit "\n      " ++ name ++ R)) =
      name ++ E ∧ ink E = ink R := by
    unfold stripIndentTransformer trimResultTransformer
    generalize minIndent (indentMatches (lit "\n      " ++ name ++ R)) = n at hle hall
    by_cases hn : n = 0
    · refine ⟨(R.reverse.dropWhile isWhiteSpace).reverse, ?_, ?_⟩
      · simp only [hn, ne_eq, not_true_eq_false, if_false]
        rw [List.append_assoc]
        exact jsTrim_name _ _ _ (by decide) h1 h2 hne
      · rw [ink_reverse, ink_dropWhile, ink_reverse, List.reverse_reverse]
    · obtain ⟨g1, g2, g3⟩ := f3 n (by omega) hle
      refine ⟨((stripAux n 0 false R).reverse.dropWhile isWhiteSpace).reverse, ?_, ?_⟩
      · simp only [ne_eq, hn, not_false_eq_true, if_true]
        rw [stripAux_append _ _ _ _ _ g1, g2, g3]
        have e : 10 :: (List.replicate (6 - n) 32 ++ name) ++ stripAux n 0 false R =
            (10 :: List.replicate (6 - n) 32) ++ (name ++ stripAux n 0 false R) := by
          simp
        rw [e]
        exact jsTrim_name _ _ _ (by simp [allWhiteSpace, isWhiteSpace]) h1 h2 hne
      · rw [ink_reverse, ink_dropWhile, ink_reverse, List.reverse_reverse]
        exact (ink_stripAux n (by omega) R hR).1 none hall
  obtain ⟨E, hE, hink⟩ := key
  rw [hE, macroArgs_append, ← argCount_ink, hink]

theorem tameText_append (a b : Str) : tameText (a ++ b) = (tameText a && tameText b) := by
  simp [tameText]

theorem tameText_lfOnly (a : Str) (h : tameText a = true) : lfOnly a = true := by
  simp only [tameText, lfOnly, List.all_eq_true, Bool.and_eq_true] at *
  intro c hc
  have := h c hc
  exact ⟨⟨this.1.1.2, this.1.2⟩, this.2⟩

theorem tameText_inert (a : Str) (h : tameText a = true) : Inert (ink a) := by
  apply inert_braceFree
  simp only [tameText, braceFree, ink, List.all_eq_true, Bool.and_eq_true, List.mem_filter] at *
  intro c hc
  have := h c hc.1
  exact ⟨this.1.1.1.1, this.1.1.1.2⟩

theorem tameText_orEmpty (o : Option Str) (h : tameField o = true) :
    tameText (orEmpty o) = true := by
  cases o with
  | none => rfl
  | some s =>
    cases s with
    | nil => rfl
    | cons c cs => simpa [orEmpty, truthy, ofOpt, JSVal.toStr, tameField] using h

theorem tameText_ofOpt (o : Option Str) (h : tameField o = true) :
    tameText (ofOpt o).toStr = true := by
  cases o with
  | none => decide
  | some s => simpa [ofOpt, JSVal.toStr, tameField] using h

theorem cventry_facts :
    indentMatchesAux (some (0, false)) (lit "\n      " ++ lit "\\cventry") = [6] ∧
    indentState (some (0, false)) (lit "\n      " ++ lit "\\cventry") = none ∧
    (∀ n, 1 ≤ n → n ≤ 6 → stripSafe n 0 true (lit "\n      " ++ lit "\\cventry") = true ∧
      stripEnd n 0 true (lit "\n      " ++ lit "\\cventry") = (0, false) ∧
      stripAux n 0 true (lit "\n      " ++ lit "\\cventry") =
        10 :: (List.replicate (6 - n) 32 ++ lit "\\cventry")) := by
  refine ⟨by decide, by decide, ?_⟩
  intro n h1 h6
  interval_cases n <;> decide

theorem cvhonor_facts :
    indentMatchesAux (some (0, false)) (lit "\n      " ++ lit "\\cvhonor") = [6] ∧
    indentState (some (0, false)) (lit "\n      " ++ lit "\\cvhonor") = none ∧
    (∀ n, 1 ≤ n → n ≤ 6 → stripSafe n 0 true (lit "\n      " ++ lit "\\cvhonor") = true ∧
      stripEnd n 0 true (lit "\n      " ++ lit "\\cvhonor") = (0, false) ∧
      stripAux n 0 true (lit "\n      " ++ lit "\\cvhonor") =
        10 :: (List.replicate (6 - n) 32 ++ lit "\\cvhonor")) := by
  refine ⟨by decide, by decide, ?_⟩
  intro n h1 h6
  interval_cases n <;> decide

/-- The five-argument `\cventry` template has five arguments whenever the
texts of its five values hold no CR, U+2028 or U+2029 and their
non-white-space characters leave the brace depth unchanged. -/
theorem cventry_arity (v1 v2 v3 v4 v5 : JSVal)
    (l1 : lfOnly v1.toStr = true) (l2 : lfOnly v2.toStr = true) (l3 : lfOnly v3.toStr = true)
    (l4 : lfOnly v4.toStr = true) (l5 : lfOnly v5.toStr = true)
    (i1 : Inert (ink v1.toStr)) (i2 : Inert (ink v2.toStr)) (i3 : Inert (ink v3.toStr))
    (i4 : Inert (ink v4.toStr)) (i5 : Inert (ink v5.toStr)) :
    macroArgs (lit "\\cventry") (stripIndent cventryStrings [v1, v2, v3, v4, v5]) = some 5 := by
  obtain ⟨f1, f2, f3⟩ := cventry_facts
  have e0 : lit "\n      \\cventry\n        \x7b" =
      lit "\n      " ++ lit "\\cventry" ++ lit "\n        \x7b" := by decide
  have k0 : ink (lit "\n        \x7b") = [123] := by decide
  have k1 : ink (lit "\x7d\n        \x7b") = [125, 123] := by decide
  have k5 : ink (lit "\x7d\n    ") = [125] := by decide
  have q0 : lfOnly (lit "\n        \x7b") = true := by decide
  have q1 : lfOnly (lit "\x7d\n        \x7b") = true := by decide
  have q5 : lfOnly (lit "\x7d\n    ") = true := by decide
  unfold stripIndent
  rw [cventryStrings, templateText_id_five, e0, List.append_assoc (lit "\n      " ++ lit "\\cventry")]
  rw [macroArgs_entry (lit "\\cventry") _ f1 f2 f3 (by decide) (by decide) (by decide)
    (by simp only [lfOnly_append, q0, q1, q5, l1, l2, l3, l4, l5, Bool.and_self])]
  have hg : ink (lit "\n        \x7b" ++ (v1.toStr ++ (lit "\x7d\n        \x7b" ++ (v2.toStr ++
      (lit "\x7d\n        \x7b" ++ (v3.toStr ++ (lit "\x7d\n        \x7b" ++ (v4.toStr ++
        (lit "\x7d\n        \x7b" ++ (v5.toStr ++ lit "\x7d\n    "))))))))) ) =
      groups [] [ink v1.toStr, ink v2.toStr, ink v3.toStr, ink v4.toStr, ink v5.toStr] [] := by
    simp only [ink_append, k0, k1, k5, groups, List.foldr, List.append_assoc, List.cons_append,
      List.nil_append]
  rw [hg, argCount_groups [] _ [] 0 rfl (by
    intro a ha
    simp only [List.mem_cons, List.mem_singleton, List.not_mem_nil, or_false] at ha
    rcases ha with rfl | rfl | rfl | rfl | rfl <;> assumption)]
  rfl

/-- The `\cvhonor` template has four arguments for an award whose fields hold
no brace, CR, U+2028 or U+2029. -/
theorem cvhonor_arity (a : Award) (h : a.tame = true) :
    macroArgs (lit "\\cvhonor") (awardEntry a) = some 4 := by
  simp only [Award.tame, Bool.and_eq_true] at h
  obtain ⟨⟨⟨hn, hd⟩, hdt⟩, hl⟩ := h
  have t1 := tameText_orEmpty _ hn
  have t2 := tameText_orEmpty _ hd
  have t3 := tameText_orEmpty _ hl
  have t4 := tameText_orEmpty _ hdt
  obtain ⟨f1, f2, f3⟩ := cvhonor_facts
  have e0 : lit "\n      \\cvhonor\n        \x7b" =
      lit "\n      " ++ lit "\\cvhonor" ++ lit "\n        \x7b" := by decide
  have k0 : ink (lit "\n        \x7b") = [123] := by decide
  have k1 : ink (lit "\x7d\n        \x7b") = [125, 123] := by decide
  have k5 : ink (lit "\x7d\n    ") = [125] := by decide
  have q0 : lfOnly (lit "\n        \x7b") = true := by decide
  have q1 : lfOnly (lit "\x7d\n        \x7b") = true := by decide
  have q5 : lfOnly (lit "\x7d\n    ") = true := by decide
  unfold awardEntry stripIndent
  rw [templateText_id_four, e0, List.append_assoc (lit "\n      " ++ lit "\\cvhonor")]
  simp only [toStr_str]
  rw [macroArgs_entry (lit "\\cvhonor") _ f1 f2 f3 (by decide) (by decide) (by decide)
    (by simp only [lfOnly_append, q0, q1, q5, tameText_lfOnly _ t1, tameText_lfOnly _ t2,
      tameText_lfOnly _ t3, tameText_lfOnly _ t4, Bool.and_self])]
  have hg : ink (lit "\n        \x7b" ++ (orEmpty a.name ++ (lit "\x7d\n        \x7b" ++
      (orEmpty a.details ++ (lit "\x7d\n        \x7b" ++ (orEmpty a.location ++
        (lit "\x7d\n        \x7b" ++ (orEmpty a.date ++ lit "\x7d\n    ")))))))) =
      groups [] [ink (orEmpty a.name), ink (orEmpty a.details), ink (orEmpty a.location),
        ink (orEmpty a.date)] [] := by
    simp only [ink_append, k0, k1, k5, groups, List.foldr, List.append_assoc, List.cons_append,
      List.nil_append]
  rw [hg, argCount_groups [] _ [] 0 rfl (by
    intro x hx
    simp only [List.mem_cons, List.mem_singleton, List.not_mem_nil, or_false] at hx
    rcases hx with rfl | rfl | rfl | rfl
    · exact tameText_inert _ t1
    · exact tameText_inert _ t2
    · exact tameText_inert _ t3
    · exact tameText_inert _ t4)]
  rfl

/-- The project template has five arguments for a project whose fields hold
no brace, CR, U+2028 or U+2029. -/
theorem projectEntry_arity (p : Project) (h : p.tame = true) :
    macroArgs (lit "\\cventry") (projectEntry p) = some 5 := by
  simp only [Project.tame, Bool.and_eq_true] at h
  obtain ⟨⟨⟨hn, hd⟩, ht⟩, hl⟩ := h
  have t1 := tameText_orEmpty _ hd
  have t2 := tameText_orEmpty _ hn
  have t3 := tameText_orEmpty _ ht
  have t4 := tameText_orEmpty _ hl
  obtain ⟨f1, f2, f3⟩ := cventry_facts
  have e0 : lit "\n      \\cventry\n        \x7b" =
      lit "\n      " ++ lit "\\cventry" ++ lit "\n        \x7b" := by decide
  have k0 : ink (lit "\n        \x7b") = [123] := by decide
  have k1 : ink (lit "\x7d\n        \x7b") = [125, 123] := by decide
  have k5 : ink (lit "\x7d\n        \x7b\x7d\n\n      \\vspace\x7b-5mm\x7d\n\n      ") =
      125 :: 123 :: 125 :: lit "\\vspace\x7b-5mm\x7d" := by decide
  have q0 : lfOnly (lit "\n        \x7b") = true := by decide
  have q1 : lfOnly (lit "\x7d\n        \x7b") = true := by decide
  have q5 : lfOnly (lit "\x7d\n        \x7b\x7d\n\n      \\vspace\x7b-5mm\x7d\n\n      ") =
      true := by decide
  unfold projectEntry stripIndent
  rw [templateText_id_four, e0, List.append_assoc (lit "\n      " ++ lit "\\cventry")]
  simp only [toStr_str]
  rw [macroArgs_entry (lit "\\cventry") _ f1 f2 f3 (by decide) (by decide) (by decide)
    (by simp only [lfOnly_append, q0, q1, q5, tameText_lfOnly _ t1, tameText_lfOnly _ t2,
      tameText_lfOnly _ t3, tameText_lfOnly _ t4, Bool.and_self])]
  have hg : ink (lit "\n        \x7b" ++ (orEmpty p.description ++ (lit "\x7d\n        \x7b" ++
      (orEmpty p.name ++ (lit "\x7d\n        \x7b" ++ (orEmpty p.technologies ++
        (lit "\x7d\n        \x7b" ++ (orEmpty p.link ++
          lit "\x7d\n        \x7b\x7d\n\n      \\vspace\x7b-5mm\x7d\n\n      ")))))))) =
      groups [] [ink (orEmpty p.description), ink (orEmpty p.name), ink (orEmpty p.technologies),
        ink (orEmpty p.link), []] (lit "\\vspace\x7b-5mm\x7d") := by
    simp only [ink_append, k0, k1, k5, groups, List.foldr, List.append_assoc, List.cons_append,
      List.nil_append]
  rw [hg, argCount_groups [] _ _ 0 rfl (by
    intro x hx
    simp only [List.mem_cons, List.mem_singleton, List.not_mem_nil, or_false] at hx
    rcases hx with rfl | rfl | rfl | rfl | rfl
    · exact tameText_inert _ t1
    · exact tameText_inert _ t2
    · exact tameText_inert _ t3
    · exact tameText_inert _ t4
    · exact inert_nil)]
  show argCount 0 5 (lit "\\vspace\x7b-5mm\x7d") = some 5
  decide

theorem educationArgs_tame (school : School) (h : school.tame = true) :
    tameText (degreeLine school).toStr = true ∧
      tameText (orEmpty school.institution) = true ∧
      tameText (orEmpty school.location) = true ∧
      tameText (educationDateRange school).toStr = true ∧
      tameText (if truthy school.gpa then lit "GPA: " ++ (ofOpt school.gpa).toStr else []) =
        true := by
  simp only [School.tame, Bool.and_eq_true] at h
  obtain ⟨⟨⟨⟨⟨⟨hi, hl⟩, ha⟩, hst⟩, hg⟩, hsd⟩, hed⟩ := h
  have p1 : tameText (lit " in ") = true := by decide
  have p2 : tameText (lit " – ") = true := by decide
  have p3 : tameText (lit " – Present") = true := by decide
  have p4 : tameText (lit "GPA: ") = true := by decide
  refine ⟨?_, tameText_orEmpty _ hi, tameText_orEmpty _ hl, ?_, ?_⟩
  · unfold degreeLine
    split_ifs
    · simp [toStr_str, tameText_append, tameText_ofOpt _ hst, tameText_ofOpt _ ha, p1]
    · exact tameText_ofOpt _ hst
    · exact tameText_ofOpt _ ha
    · rfl
  · unfold educationDateRange
    split_ifs
    · simp [toStr_str, tameText_append, tameText_ofOpt _ hsd, tameText_ofOpt _ hed, p2]
    · simp [toStr_str, tameText_append, tameText_ofOpt _ hsd, p3]
    · exact tameText_ofOpt _ hed
  · split_ifs
    · simp [tameText_append, tameText_ofOpt _ hg, p4]
    · rfl

theorem experienceArgs_tame (job : Job) (h : job.tame = true) :
    tameText (orEmpty job.position) = true ∧ tameText (orEmpty job.company) = true ∧
      tameText (orEmpty job.location) = true ∧
      tameText (jsValOrEmpty (experienceDateRange job)).toStr = true := by
  simp only [Job.tame, Bool.and_eq_true] at h
  obtain ⟨⟨⟨⟨⟨hc, hp⟩, hl⟩, hsd⟩, hed⟩, -⟩ := h
  have p2 : tameText (lit " – ") = true := by decide
  have p3 : tameText (lit " – Present") = true := by decide
  refine ⟨tameText_orEmpty _ hp, tameText_orEmpty _ hc, tameText_orEmpty _ hl, ?_⟩
  unfold experienceDateRange
  split_ifs
  · simp [jsValOrEmpty, toStr_str, tameText_append, tameText_ofOpt _ hsd,
      tameText_ofOpt _ hed, p2]
  · simp [jsValOrEmpty, toStr_str, tameText_append, tameText_ofOpt _ hsd, p3]
  · cases hE : job.endDate with
    | none => rfl
    | some s =>
      rw [hE] at hed
      simpa [ofOpt, jsValOrEmpty, toStr_str, tameField] using hed

theorem lfOnly_jsJoin (sep : Str) (xs : List Str) (hs : lfOnly sep = true)
    (hx : ∀ x ∈ xs, lfOnly x = true) : lfOnly (jsJoin sep xs) = true := by
  induction xs with
  | nil => rfl
  | cons x xs ih =>
    cases xs with
    | nil => exact hx x (by simp)
    | cons y ys =>
      simp only [jsJoin, lfOnly_append, Bool.and_eq_true]
      exact ⟨⟨hx x (by simp), hs⟩, ih (fun z hz => hx z (by simp [hz]))⟩

theorem inert_ink_jsJoin (sep : Str) (xs : List Str) (hs : allWhiteSpace sep = true)
    (hx : ∀ x ∈ xs, Inert (ink x)) : Inert (ink (jsJoin sep xs)) := by
  induction xs with
  | nil => exact inert_nil
  | cons x xs ih =>
    cases xs with
    | nil => exact hx x (by simp)
    | cons y ys =>
      simp only [jsJoin, ink_append, ink_of_allWhiteSpace sep hs, List.append_nil]
      exact inert_append _ _ (hx x (by simp)) (ih (fun z hz => hx z (by simp [hz])))

/-- The highlights block of tame highlights holds no CR, U+2028 or U+2029,
and its non-white-space characters leave the brace depth unchanged. -/
theorem dutyLinesText_tame (highlights : Option (List Str))
    (h : (match highlights with
      | none => true
      | some hs => hs.all tameText) = true) :
    lfOnly (dutyLinesText highlights) = true ∧ Inert (ink (dutyLinesText highlights)) := by
  cases highlights with
  | none => exact ⟨rfl, inert_nil⟩
  | some hs =>
    have hp : ∀ x ∈ hs, tameText x = true := by simpa using h
    have hitem : ∀ x ∈ hs.map dutyItem, lfOnly x = true ∧ Inert (ink x) := by
      intro x hx
      simp only [List.mem_map] at hx
      obtain ⟨d, hd, rfl⟩ := hx
      have a1 : ink (lit "\\item \x7b") = lit "\\item" ++ [123] := by decide
      have a2 : ink (lit "\x7d") = [125] := by decide
      constructor
      · simp only [dutyItem, lfOnly_append, tameText_lfOnly d (hp d hd), Bool.and_true,
          Bool.true_and, Bool.and_eq_true]
        exact ⟨by decide, by decide⟩
      · simp only [dutyItem, ink_append, a1, a2, List.append_assoc, List.singleton_append]
        exact inert_append _ _ (inert_braceFree _ (by decide))
          (inert_group _ (tameText_inert d (hp d hd)))
    have hraw : lfOnly (lit "\n        \\begin\x7bcvitems\x7d\n          " ++
        (jsJoin (indentSep 10) (hs.map dutyItem) ++
          lit "\n        \\end\x7bcvitems\x7d\n        ")) = true := by
      simp only [lfOnly_append, Bool.and_eq_true]
      exact ⟨by decide, lfOnly_jsJoin _ _ (by decide) (fun x hx => (hitem x hx).1), by decide⟩
    unfold dutyLinesText source
    simp only []
    rw [dutyLines_raw]
    refine ⟨lfOnly_stripIndent_result _ hraw, ?_⟩
    unfold trimResultTransformer
    rw [ink_jsTrim, ink_stripIndentTransformer _ hraw]
    have b0 : ink (lit "\n        \\begin\x7bcvitems\x7d\n          ") =
        lit "\\begin" ++ (123 :: (lit "cvitems" ++ [125])) := by decide
    have b1 : ink (lit "\n        \\end\x7bcvitems\x7d\n        ") =
        lit "\\end" ++ (123 :: (lit "cvitems" ++ [125])) := by decide
    have hgrp : Inert (123 :: (lit "cvitems" ++ [125])) :=
      inert_group _ (inert_braceFree _ (by decide))
    rw [ink_append, ink_append, b0, b1]
    exact inert_append _ _ (inert_append _ _ (inert_braceFree _ (by decide)) hgrp)
      (inert_append _ _ (inert_ink_jsJoin _ _ (by decide) (fun x hx => (hitem x hx).2))
        (inert_append _ _ (inert_braceFree _ (by decide)) hgrp))

/-! ## Values without line terminators -/

theorem oneLine_orEmpty (o : Option Str) (h : oneLineField o = true) :
    noLineTerminator (orEmpty o) = true := by
  cases o with
  | none => rfl
  | some s =>
    cases s with
    | nil => rfl
    | cons c cs => simpa [orEmpty, truthy, ofOpt, JSVal.toStr, oneLineField] using h

theorem oneLine_ofOpt (o : Option Str) (h : oneLineField o = true) :
    noLineTerminator (ofOpt o).toStr = true := by
  cases o with
  | none => decide
  | some s => simpa [ofOpt, JSVal.toStr, oneLineField] using h

theorem educationArgs_oneLine (school : School) (h : school.oneLine = true) :
    noLineTerminator (degreeLine school).toStr = true ∧
      noLineTerminator (JSVal.str (orEmpty school.institution)).toStr = true ∧
      noLineTerminator (JSVal.str (orEmpty school.location)).toStr = true ∧
      noLineTerminator (educationDateRange school).toStr = true ∧
      noLineTerminator (JSVal.str
        (if truthy school.gpa then lit "GPA: " ++ (ofOpt school.gpa).toStr else [])).toStr =
        true := by
  simp only [School.oneLine, Bool.and_eq_true] at h
  obtain ⟨⟨⟨⟨⟨⟨hi, hl⟩, ha⟩, hst⟩, hg⟩, hsd⟩, hed⟩ := h
  have p1 : noLineTerminator (lit " in ") = true := by decide
  have p2 : noLineTerminator (lit " – ") = true := by decide
  have p3 : noLineTerminator (lit " – Present") = true := by decide
  have p4 : noLineTerminator (lit "GPA: ") = true := by decide
  refine ⟨?_, oneLine_orEmpty _ hi, oneLine_orEmpty _ hl, ?_, ?_⟩
  · unfold degreeLine
    split_ifs
    · simp [toStr_str, noLineTerminator_append, oneLine_ofOpt _ hst, oneLine_ofOpt _ ha, p1]
    · exact oneLine_ofOpt _ hst
    · exact oneLine_ofOpt _ ha
    · rfl
  · unfold educationDateRange
    split_ifs
    · simp [toStr_str, noLineTerminator_append, oneLine_ofOpt _ hsd, oneLine_ofOpt _ hed, p2]
    · simp [toStr_str, noLineTerminator_append, oneLine_ofOpt _ hsd, p3]
    · exact oneLine_ofOpt _ hed
  · rw [toStr_str]
    split_ifs
    · simp [noLineTerminator_append, oneLine_ofOpt _ hg, p4]
    · rfl

/-! ## Sections whose entries are joined by `source` -/

theorem orEmpty_eq_getD (o : Option Str) : orEmpty o = o.getD [] := by
  cases o with
  | none => rfl
  | some s =>
    cases s with
    | nil => rfl
    | cons c cs => rfl

theorem jsJoin_append (sep : Str) (a b : List Str) (ha : a ≠ []) (hb : b ≠ []) :
    jsJoin sep (a ++ b) = jsJoin sep a ++ sep ++ jsJoin sep b := by
  induction a with
  | nil => exact absurd rfl ha
  | cons x a ih =>
    cases a with
    | nil =>
      cases b with
      | nil => exact absurd rfl hb
      | cons y b => simp [jsJoin]
    | cons z a =>
      have := ih (by simp)
      simp only [List.cons_append, jsJoin, List.append_assoc, List.append_eq] at this ⊢
      rw [this]

/-- Joining entries that are themselves joined lines is joining all the
lines. -/
theorem jsJoin_flatten (sep : Str) (xss : List (List Str)) (h : ∀ xs ∈ xss, xs ≠ []) :
    jsJoin sep (xss.map (jsJoin sep)) = jsJoin sep xss.flatten := by
  induction xss with
  | nil => rfl
  | cons xs xss ih =>
    have hxs := h xs (by simp)
    have ih' := ih (fun ys hys => h ys (by simp [hys]))
    cases xss with
    | nil => simp [jsJoin]
    | cons ys yss =>
      have hne : (ys :: yss).flatten ≠ [] := by
        have hys := h ys (by simp)
        cases ys with
        | nil => exact absurd rfl hys
        | cons y ys => simp
      rw [List.flatten_cons, jsJoin_append sep xs _ hxs hne, ← ih']
      simp [jsJoin]

/-- The text of a `source` template with one array substitution. -/
theorem source_raw (P S : Str) (k : Nat) (entries : List Str)
    (hti : trailingIndent P = some (indentSep k)) :
    templateText (fun e r => inlineArrayTransformer (splitStringTransformer e) r)
      [P, S] [.arr entries] = P ++ (jsJoin (indentSep k) entries ++ S) := by
  simp [templateText, processSubstitutions, inlineArrayTransformer, splitStringTransformer,
    hti, JSVal.toStr]

/-- A `source` template with one array substitution whose entries, joined at
an indentation of `k`, are lines without line terminators: `n` characters of
indentation are removed from every line. -/
theorem source_closed (P S P' S' wsP wsS : Str) (n k : Nat) (ms ms1 : List Nat)
    (entries xs : List Str) (hn : 1 ≤ n) (hk : n ≤ k)
    (hti : trailingIndent P = some (indentSep k))
    (hflat : jsJoin (indentSep k) entries = jsJoin (indentSep k) xs)
    (hx : ∀ x ∈ xs, noLineTerminator x = true ∧ hasInk x = true)
    (m0 : indentMatchesAux (some (0, false)) P = ms)
    (t0 : indentState (some (0, false)) P = some (k, false))
    (m1 : ∀ st, indentMatchesAux st S = ms1)
    (hmem : n ∈ ms ++ ms1) (hle : ∀ m ∈ ms ++ ms1, n ≤ m)
    (c0 : stripSafe n 0 true P = true) (e0 : stripEnd n 0 true P = (0, false))
    (o0 : stripAux n 0 true P = wsP ++ P') (o1 : stripAux n 0 false S = S' ++ wsS)
    (hwsP : allWhiteSpace wsP = true) (hwsS : allWhiteSpace wsS = true)
    (hP : ∀ c ∈ P'.head?, isWhiteSpace c = false) (hPne : P' ≠ [])
    (hS : ∀ c ∈ S'.getLast?, isWhiteSpace c = false) (hSne : S' ≠ []) :
    source [P, S] [.arr entries] = P' ++ (jsJoin (indentSep (k - n)) xs ++ S') := by
  have hm : indentMatches (P ++ (jsJoin (indentSep k) xs ++ S)) =
      ms ++ (xs.map (fun x => k + leadingSpace x) ++ ms1) := by
    rw [indentMatches, indentMatchesAux_append, m0, t0, indentMatchesAux_join k _ _ hx, m1]
  have hmin : minIndent (indentMatches (P ++ (jsJoin (indentSep k) xs ++ S))) = n := by
    rw [hm]
    apply minIndent_eq
    · simp only [List.mem_append] at hmem ⊢
      rcases hmem with h | h
      · exact Or.inl h
      · exact Or.inr (Or.inr h)
    · intro m hmem'
      simp only [List.mem_append, List.mem_map] at hmem'
      rcases hmem' with h | ⟨x, -, rfl⟩ | h
      · exact hle m (by simp [h])
      · omega
      · exact hle m (by simp [h])
  unfold source stripIndentTransformer
  rw [source_raw P S k entries hti, hflat]
  simp only [hmin, ne_eq, show ¬ (n = 0) from by omega, not_false_eq_true, if_true]
  rw [stripAux_append _ _ _ _ _ c0, e0, o0,
    stripAux_join n k _ _ hn hk (fun x hx' => (hx x hx').1), o1]
  unfold trimResultTransformer
  have hmid : ∀ c ∈ (P' ++ (jsJoin (indentSep (k - n)) xs ++ S')).head?,
      isWhiteSpace c = false := by
    intro c hc
    cases P' with
    | nil => exact absurd rfl hPne
    | cons p P'' => exact hP c (by simpa using hc)
  have hlast : ∀ c ∈ (P' ++ (jsJoin (indentSep (k - n)) xs ++ S')).getLast?,
      isWhiteSpace c = false := by
    intro c hc
    rw [← List.append_assoc, List.getLast?_append] at hc
    cases hS' : S'.getLast? with
    | none =>
      rw [List.getLast?_eq_none_iff] at hS'
      exact absurd hS' hSne
    | some d =>
      rw [hS'] at hc
      simp only [Option.or, Option.mem_def, Option.some.injEq] at hc
      subst hc
      exact hS d hS'
  have := jsTrim_core wsP (P' ++ (jsJoin (indentSep (k - n)) xs ++ S')) wsS hwsP hwsS hmid hlast
  simpa [List.append_assoc] using this

/-! ## Closed forms of the sections -/

theorem macroCall_four (name a b c d : Str) :
    name ++ (lit "\n  \x7b" ++ (a ++ (lit "\x7d\n  \x7b" ++ (b ++ (lit "\x7d\n  \x7b" ++
      (c ++ (lit "\x7d\n  \x7b" ++ (d ++ lit "\x7d")))))))) =
      macroCall 2 name [a, b, c, d] := by
  have e1 : lit "\n  \x7b" = [10, 32, 32, 123] := by decide
  have e2 : lit "\x7d\n  \x7b" = [125, 10, 32, 32, 123] := by decide
  have e3 : lit "\x7d" = [125] := by decide
  simp [macroCall, argLines, jsJoin, indentSep, e1, e2, e3, List.replicate]

theorem macroCall_five (name a b c d e : Str) :
    name ++ (lit "\n  \x7b" ++ (a ++ (lit "\x7d\n  \x7b" ++ (b ++ (lit "\x7d\n  \x7b" ++
      (c ++ (lit "\x7d\n  \x7b" ++ (d ++ (lit "\x7d\n  \x7b" ++ (e ++ lit "\x7d")))))))))) =
      macroCall 2 name [a, b, c, d, e] := by
  have e1 : lit "\n  \x7b" = [10, 32, 32, 123] := by decide
  have e2 : lit "\x7d\n  \x7b" = [125, 10, 32, 32, 123] := by decide
  have e3 : lit "\x7d" = [125] := by decide
  simp [macroCall, argLines, jsJoin, indentSep, e1, e2, e3, List.replicate]

theorem argLines_ne_nil (name : Str) (args : List Str) : argLines name args ≠ [] := by
  simp [argLines]

/-- The lines of a macro call whose name and arguments hold no line
terminator are lines with a non-white-space character. -/
theorem argLines_props (name : Str) (args : List Str) (hn : noLineTerminator name = true)
    (hi : hasInk name = true) (ha : ∀ v ∈ args, noLineTerminator v = true) :
    ∀ x ∈ argLines name args, noLineTerminator x = true ∧ hasInk x = true := by
  intro x hx
  simp only [argLines, List.mem_cons, List.mem_map] at hx
  rcases hx with rfl | ⟨v, hv, rfl⟩
  · exact ⟨hn, hi⟩
  · constructor
    · have := ha v hv
      simp only [noLineTerminator, List.all_cons, List.all_append, List.all_nil, Bool.and_true,
        Bool.and_eq_true] at this ⊢
      exact ⟨by decide, this, by decide⟩
    · simp [hasInk, isWhiteSpace]

/-- Entries that are macro calls at the indentation of the join: the joined
entries are the joined lines of all the calls. -/
theorem jsJoin_macroCalls {α : Type} (k : Nat) (name : Str) (args : α → List Str)
    (entry : α → Str) (es : List α) (h : ∀ e ∈ es, entry e = macroCall k name (args e)) :
    jsJoin (indentSep k) (es.map entry) =
      jsJoin (indentSep k) (es.map (fun e => argLines name (args e))).flatten := by
  rw [← jsJoin_flatten]
  · rw [List.map_map]
    congr 1
    apply List.map_congr_left
    intro e he
    rw [h e he]
    rfl
  · intro xs hxs
    simp only [List.mem_map] at hxs
    obtain ⟨e, -, rfl⟩ := hxs
    exact argLines_ne_nil _ _

theorem jsJoin_macroCalls_zero {α : Type} (name : Str) (args : α → List Str) (es : List α) :
    jsJoin (indentSep 0) (es.map (fun e => argLines name (args e))).flatten =
      jsJoin [10] (es.map (fun e => macroCall 0 name (args e))) := by
  have h0 : indentSep 0 = [10] := rfl
  rw [← jsJoin_flatten]
  · rw [List.map_map, h0]
    rfl
  · intro xs hxs
    simp only [List.mem_map] at hxs
    obtain ⟨e, -, rfl⟩ := hxs
    exact argLines_ne_nil _ _

theorem awardEntry_oneLine (a : Award) (h : a.oneLine = true) :
    awardEntry a = macroCall 2 (lit "\\cvhonor")
      [a.name.getD [], a.details.getD [], a.location.getD [], a.date.getD []] := by
  simp only [Award.oneLine, Bool.and_eq_true] at h
  obtain ⟨⟨⟨hn, hd⟩, hdt⟩, hl⟩ := h
  rw [cvhonor_closed a (oneLine_orEmpty _ hn) (oneLine_orEmpty _ hd) (oneLine_orEmpty _ hl)
    (oneLine_orEmpty _ hdt)]
  have e : lit "\\cvhonor\n  \x7b" = lit "\\cvhonor" ++ lit "\n  \x7b" := by decide
  rw [e, List.append_assoc, macroCall_four]
  simp only [orEmpty_eq_getD]

/-- The awards section of awards whose fields hold no line terminator. -/
theorem awardsText_oneLine (aw : List Award) (h : ∀ a ∈ aw, a.oneLine = true) :
    awardsText aw = lit "\\cvsection\x7bHonors \\& Awards\x7d\n\\begin\x7bcvhonors\x7d\n" ++
      (jsJoin [10] (aw.map (fun a => macroCall 0 (lit "\\cvhonor")
        [a.name.getD [], a.details.getD [], a.location.getD [], a.date.getD []])) ++
        lit "\n\\end\x7bcvhonors\x7d") := by
  have hx : ∀ x ∈ (aw.map (fun a => argLines (lit "\\cvhonor")
      [a.name.getD [], a.details.getD [], a.location.getD [], a.date.getD []])).flatten,
      noLineTerminator x = true ∧ hasInk x = true := by
    intro x hx
    simp only [List.mem_flatten, List.mem_map] at hx
    obtain ⟨l, ⟨a, ha, rfl⟩, hxl⟩ := hx
    have ho := h a ha
    simp only [Award.oneLine, Bool.and_eq_true] at ho
    obtain ⟨⟨⟨hn, hd⟩, hdt⟩, hl⟩ := ho
    refine argLines_props _ _ (by decide) (by decide) ?_ x hxl
    intro v hv
    simp only [List.mem_cons, List.mem_singleton, List.not_mem_nil, or_false] at hv
    rcases hv with rfl | rfl | rfl | rfl
    · rw [← orEmpty_eq_getD]; exact oneLine_orEmpty _ hn
    · rw [← orEmpty_eq_getD]; exact oneLine_orEmpty _ hd
    · rw [← orEmpty_eq_getD]; exact oneLine_orEmpty _ hl
    · rw [← orEmpty_eq_getD]; exact oneLine_orEmpty _ hdt
  have hS : lit "\n  \\end\x7bcvhonors\x7d\n  " = 10 :: lit "  \\end\x7bcvhonors\x7d\n  " := by
    decide
  unfold awardsText
  rw [source_closed _ _ (lit "\\cvsection\x7bHonors \\& Awards\x7d\n\\begin\x7bcvhonors\x7d\n")
    (lit "\n\\end\x7bcvhonors\x7d") [10] [10] 2 2 [2, 2] [2] _ _ (by decide) (by decide)
    (by decide)
    (jsJoin_macroCalls 2 (lit "\\cvhonor") _ awardEntry aw
      (fun a ha => awardEntry_oneLine a (h a ha)))
    hx (by decide) (by decide)
    (fun st => by rw [hS, indentMatchesAux_lf]; decide)
    (by decide) (by decide) (by decide) (by decide) (by decide) (by decide) (by decide)
    (by decide) (by decide) (by decide) (by decide) (by decide)]
  rw [jsJoin_macroCalls_zero]

theorem projectEntry_oneLine (p : Project) (h : p.oneLine = true) :
    projectEntry p = macroCall 2 (lit "\\cventry")
      [p.description.getD [], p.name.getD [], p.technologies.getD [], p.link.getD [], []] ++
        lit "\n\n\\vspace\x7b-5mm\x7d" := by
  simp only [Project.oneLine, Bool.and_eq_true] at h
  obtain ⟨⟨⟨hn, hd⟩, ht⟩, hl⟩ := h
  rw [projectEntry_closed p (oneLine_orEmpty _ hd) (oneLine_orEmpty _ hn) (oneLine_orEmpty _ ht)
    (oneLine_orEmpty _ hl)]
  have e : lit "\\cventry\n  \x7b" = lit "\\cventry" ++ lit "\n  \x7b" := by decide
  have e5 : lit "\x7d\n  \x7b\x7d\n\n\\vspace\x7b-5mm\x7d" =
      lit "\x7d\n  \x7b" ++ ([] ++ lit "\x7d") ++ lit "\n\n\\vspace\x7b-5mm\x7d" := by decide
  rw [← macroCall_five, e, e5]
  simp only [orEmpty_eq_getD, List.append_assoc]

theorem jsJoin_cons_start (sep x : Str) (xs : List Str) :
    ∃ t, jsJoin sep (x :: xs) = x ++ t := by
  cases xs with
  | nil => exact ⟨[], by simp [jsJoin]⟩
  | cons y ys => exact ⟨sep ++ jsJoin sep (y :: ys), by simp [jsJoin]⟩

/-- The projects section of at least one project, the fields without line
terminators: the line of `\vspace` begins in the first column, so no
indentation is removed. -/
theorem projectsText_oneLine (ps : List Project) (h : ∀ p ∈ ps, p.oneLine = true)
    (hne : ps ≠ []) :
    projectsText ps = lit "\\cvsection\x7bProjects\x7d\n  \\begin\x7bcventries\x7d\n  " ++
      (jsJoin (lit "\n  ") (ps.map (fun p => macroCall 2 (lit "\\cventry")
        [p.description.getD [], p.name.getD [], p.technologies.getD [], p.link.getD [], []] ++
          lit "\n\n\\vspace\x7b-5mm\x7d")) ++ lit "\n  \\end\x7bcventries\x7d") := by
  have hmap : ps.map projectEntry = ps.map (fun p => macroCall 2 (lit "\\cventry")
      [p.description.getD [], p.name.getD [], p.technologies.getD [], p.link.getD [], []] ++
        lit "\n\n\\vspace\x7b-5mm\x7d") :=
    List.map_congr_left (fun p hp => projectEntry_oneLine p (h p hp))
  have hsep : lit "\n  " = indentSep 2 := by decide
  unfold projectsText source
  rw [source_raw _ _ 2 _ (by decide), hmap, ← hsep]
  generalize hJ : jsJoin (lit "\n  ") (ps.map (fun p => macroCall 2 (lit "\\cventry")
      [p.description.getD [], p.name.getD [], p.technologies.getD [], p.link.getD [], []] ++
        lit "\n\n\\vspace\x7b-5mm\x7d")) = J
  have hflush : ∃ x y, J = x ++ 10 :: 92 :: y := by
    cases ps with
    | nil => exact absurd rfl hne
    | cons p ps =>
      obtain ⟨t, ht⟩ := jsJoin_cons_start (lit "\n  ") (macroCall 2 (lit "\\cventry")
        [p.description.getD [], p.name.getD [], p.technologies.getD [], p.link.getD [], []] ++
          lit "\n\n\\vspace\x7b-5mm\x7d") (ps.map (fun p => macroCall 2 (lit "\\cventry")
        [p.description.getD [], p.name.getD [], p.technologies.getD [], p.link.getD [], []] ++
          lit "\n\n\\vspace\x7b-5mm\x7d"))
      rw [List.map_cons, ht] at hJ
      have e : lit "\n\n\\vspace\x7b-5mm\x7d" = [10] ++ 10 :: 92 :: lit "vspace\x7b-5mm\x7d" := by
        decide
      refine ⟨macroCall 2 (lit "\\cventry")
        [p.description.getD [], p.name.getD [], p.technologies.getD [], p.link.getD [], []] ++ [10],
        lit "vspace\x7b-5mm\x7d" ++ t, ?_⟩
      rw [← hJ, e]
      simp only [List.append_assoc, List.cons_append, List.nil_append]
  obtain ⟨x, y, hxy⟩ := hflush
  have hT : lit "\n  \\cvsection\x7bProjects\x7d\n  \\begin\x7bcventries\x7d\n  " ++
      (J ++ lit "\n  \\end\x7bcventries\x7d\n  ") =
      (lit "\n  \\cvsection\x7bProjects\x7d\n  \\begin\x7bcventries\x7d\n  " ++ x) ++
        10 :: 92 :: (y ++ lit "\n  \\end\x7bcventries\x7d\n  ") := by
    rw [hxy]
    simp only [List.append_assoc, List.cons_append]
  rw [hT, stripIndentTransformer_of_flush _ _ 92 (by decide), ← hT]
  unfold trimResultTransformer
  have eP : lit "\n  \\cvsection\x7bProjects\x7d\n  \\begin\x7bcventries\x7d\n  " =
      lit "\n  " ++ lit "\\cvsection\x7bProjects\x7d\n  \\begin\x7bcventries\x7d\n  " := by decide
  have eS : lit "\n  \\end\x7bcventries\x7d\n  " = lit "\n  \\end\x7bcventries\x7d" ++ lit "\n  " := by
    decide
  have := jsTrim_core (lit "\n  ")
    (lit "\\cvsection\x7bProjects\x7d\n  \\begin\x7bcventries\x7d\n  " ++
      (J ++ lit "\n  \\end\x7bcventries\x7d")) (lit "\n  ") (by decide) (by decide)
    (by
      have e : lit "\\cvsection\x7bProjects\x7d\n  \\begin\x7bcventries\x7d\n  " =
          92 :: lit "cvsection\x7bProjects\x7d\n  \\begin\x7bcventries\x7d\n  " := by decide
      rw [e]; intro c hc; simp at hc; subst hc; decide)
    (by
      have e : lit "\n  \\end\x7bcventries\x7d" = lit "\n  \\end\x7bcventries" ++ [125] := by
        decide
      rw [e]; intro c hc
      simp only [← List.append_assoc, List.getLast?_append, List.getLast?_singleton] at hc
      simp at hc; subst hc; decide)
  rw [eP, eS]
  simpa [List.append_assoc] using this

/-- The row of a skill. -/
theorem skillRow_eq (skill : Skill) :
    skillRow skill = (if truthy skill.name then skill.name.getD [] ++ lit ": " else []) ++
      lit " & " ++ (lit "\x7b\\skill\x7b " ++ skill.details.getD [] ++ lit "\x7d\x7d") ++
        lit " \\\\" := by
  unfold skillRow
  rw [orEmpty_eq_getD]
  cases hn : skill.name with
  | none => rfl
  | some s => rfl

theorem skillRow_props (skill : Skill) (h : skill.oneLine = true) :
    noLineTerminator (skillRow skill) = true ∧ hasInk (skillRow skill) = true := by
  simp only [Skill.oneLine, Bool.and_eq_true] at h
  obtain ⟨hn, hd⟩ := h
  have p1 : noLineTerminator (lit ": ") = true := by decide
  have p2 : noLineTerminator (lit " & ") = true := by decide
  have p3 : noLineTerminator (lit "\x7b\\skill\x7b ") = true := by decide
  have p4 : noLineTerminator (lit "\x7d\x7d") = true := by decide
  have p5 : noLineTerminator (lit " \\\\") = true := by decide
  constructor
  · unfold skillRow
    simp only [noLineTerminator_append, p2, p3, p4, p5, oneLine_orEmpty _ hd, Bool.and_true]
    split_ifs
    · simp [noLineTerminator_append, oneLine_ofOpt _ hn, p1]
    · rfl
  · unfold skillRow
    have e : lit " & " = [32, 38, 32] := by decide
    simp [hasInk, e, isWhiteSpace]

/-- The skills section of skills whose fields hold no line terminator. -/
theorem skillsText_oneLine (sk : List Skill) (h : ∀ s ∈ sk, s.oneLine = true) :
    skillsText sk = lit "\\cvsection\x7bSkills\x7d\n\\begin\x7bcventries\x7d\n" ++
      (macroCall 0 (lit "\\cventry")
        [[], lit "\\def\\arraystretch\x7b1.15\x7d\x7b\\begin\x7btabular\x7d\x7b l l \x7d\n" ++
          (jsJoin [10] (sk.map skillRow) ++ lit "\n\\end\x7btabular\x7d\x7d"), [], [], []] ++
        lit "\n\\end\x7bcventries\x7d\n\n\\vspace\x7b-7mm\x7d") := by
  have hx : ∀ x ∈ sk.map skillRow, noLineTerminator x = true ∧ hasInk x = true := by
    intro x hx
    simp only [List.mem_map] at hx
    obtain ⟨s, hs, rfl⟩ := hx
    exact skillRow_props s (h s hs)
  have hS : lit "\n  \\end\x7btabular\x7d\x7d\x7d\n  \x7b\x7d\n  \x7b\x7d\n  \x7b\x7d\n  \\end\x7bcventries\x7d\n\n  \\vspace\x7b-7mm\x7d\n  " =
      10 :: lit "  \\end\x7btabular\x7d\x7d\x7d\n  \x7b\x7d\n  \x7b\x7d\n  \x7b\x7d\n  \\end\x7bcventries\x7d\n\n  \\vspace\x7b-7mm\x7d\n  " := by
    decide
  unfold skillsText
  rw [source_closed _ _
    (lit "\\cvsection\x7bSkills\x7d\n\\begin\x7bcventries\x7d\n\\cventry\n\x7b\x7d\n\x7b\\def\\arraystretch\x7b1.15\x7d\x7b\\begin\x7btabular\x7d\x7b l l \x7d\n")
    (lit "\n\\end\x7btabular\x7d\x7d\x7d\n\x7b\x7d\n\x7b\x7d\n\x7b\x7d\n\\end\x7bcventries\x7d\n\n\\vspace\x7b-7mm\x7d")
    [10] [10] 2 2 [2, 2, 2, 2, 2] [2, 2, 2, 2, 2, 2] _ _ (by decide) (by decide)
    (by decide) rfl hx (by decide) (by decide)
    (fun st => by rw [hS, indentMatchesAux_lf]; decide)
    (by decide) (by decide) (by decide) (by decide) (by decide) (by decide) (by decide)
    (by decide) (by decide) (by decide) (by decide) (by decide)]
  have e1 : lit "\\cvsection\x7bSkills\x7d\n\\begin\x7bcventries\x7d\n\\cventry\n\x7b\x7d\n\x7b\\def\\arraystretch\x7b1.15\x7d\x7b\\begin\x7btabular\x7d\x7b l l \x7d\n" =
      lit "\\cvsection\x7bSkills\x7d\n\\begin\x7bcventries\x7d\n" ++ (lit "\\cventry" ++
        ([10, 123, 125, 10, 123] ++
          lit "\\def\\arraystretch\x7b1.15\x7d\x7b\\begin\x7btabular\x7d\x7b l l \x7d\n")) := by
    decide
  have e2 : lit "\n\\end\x7btabular\x7d\x7d\x7d\n\x7b\x7d\n\x7b\x7d\n\x7b\x7d\n\\end\x7bcventries\x7d\n\n\\vspace\x7b-7mm\x7d" =
      lit "\n\\end\x7btabular\x7d\x7d" ++ ([125, 10, 123, 125, 10, 123, 125, 10, 123, 125] ++
        lit "\n\\end\x7bcventries\x7d\n\n\\vspace\x7b-7mm\x7d") := by
    decide
  rw [e1, e2]
  simp [macroCall, argLines, jsJoin, indentSep, List.replicate]

/-! ## The markers of the fragments -/

theorem startsWith_iff (m s : Str) : startsWith m s = true ↔ ∃ v, s = m ++ v := by
  induction m generalizing s with
  | nil => simp [startsWith]
  | cons a m ih =>
    cases s with
    | nil => simp [startsWith]
    | cons b s =>
      simp only [startsWith, Bool.and_eq_true, beq_iff_eq, ih, List.cons_append, List.cons.injEq]
      constructor
      · rintro ⟨rfl, v, rfl⟩
        exact ⟨v, rfl, rfl⟩
      · rintro ⟨v, rfl, rfl⟩
        exact ⟨rfl, v, rfl⟩

theorem occursIn_iff (m s : Str) : occursIn m s = true ↔ ∃ u v, s = u ++ (m ++ v) := by
  induction s with
  | nil =>
    simp only [occursIn, List.isEmpty_iff]
    constructor
    · rintro rfl
      exact ⟨[], [], rfl⟩
    · rintro ⟨u, v, h⟩
      have h' := congrArg List.length h
      simp only [List.length_nil, List.length_append] at h'
      exact List.length_eq_zero.mp (by omega)
  | cons c s ih =>
    simp only [occursIn, Bool.or_eq_true, startsWith_iff, ih]
    constructor
    · rintro (⟨v, h⟩ | ⟨u, v, h⟩)
      · exact ⟨[], v, by simpa using h⟩
      · exact ⟨c :: u, v, by simp [h]⟩
    · rintro ⟨u, v, h⟩
      cases u with
      | nil => exact Or.inl ⟨v, by simpa using h⟩
      | cons d u =>
        simp only [List.cons_append, List.cons.injEq] at h
        exact Or.inr ⟨u, v, h.2⟩

/-- Trimming keeps a text that begins and ends with a character that is not
white space. -/
theorem jsTrim_keeps (u m v : Str) (h1 : ∀ c ∈ m.head?, isWhiteSpace c = false)
    (h2 : ∀ c ∈ m.getLast?, isWhiteSpace c = false) (hne : m ≠ []) :
    jsTrim (u ++ (m ++ v)) =
      u.dropWhile isWhiteSpace ++ (m ++ (v.reverse.dropWhile isWhiteSpace).reverse) := by
  unfold jsTrim
  rw [dropWhile_append_of_head isWhiteSpace u (m ++ v) (by
    intro c hc
    cases m with
    | nil => exact absurd rfl hne
    | cons x xs => exact h1 c (by simpa using hc))]
  rw [List.reverse_append, List.reverse_append, List.append_assoc,
    dropWhile_append_of_head isWhiteSpace v.reverse
      (m.reverse ++ (List.dropWhile isWhiteSpace u).reverse) (by
    intro c hc
    cases hm : m.reverse with
    | nil => exact absurd (List.reverse_eq_nil_iff.mp hm) hne
    | cons x xs =>
      rw [hm] at hc
      apply h2 c
      rw [← List.head?_reverse, hm]
      simpa using hc)]
  simp

theorem occursIn_jsTrim (m s : Str) (h1 : ∀ c ∈ m.head?, isWhiteSpace c = false)
    (h2 : ∀ c ∈ m.getLast?, isWhiteSpace c = false) (hne : m ≠ [])
    (h : occursIn m s = true) : occursIn m (jsTrim s) = true := by
  obtain ⟨u, v, rfl⟩ := (occursIn_iff m _).mp h
  rw [jsTrim_keeps u m v h1 h2 hne]
  exact (occursIn_iff m _).mpr ⟨_, _, rfl⟩

/-- A tagged template whose first string begins with the lines `a`, indented
by at most `K`: a text of `a` that survives the removal of up to `K`
characters of indentation occurs in the result, whatever the substitutions
are. -/
theorem occursIn_tag (onSub : JSVal → Str → JSVal) (s0 : Str) (ss : List Str)
    (es : List JSVal) (a r0 : Str) (K : Nat) (m : Str) (ha : s0 = a ++ r0)
    (hK : K ∈ indentMatchesAux (some (0, false)) a) (h0 : occursIn m a = true)
    (hn : ∀ n, 1 ≤ n → n ≤ K → stripSafe n 0 true a = true ∧
      occursIn m (stripAux n 0 true a) = true)
    (h1 : ∀ c ∈ m.head?, isWhiteSpace c = false)
    (h2 : ∀ c ∈ m.getLast?, isWhiteSpace c = false) (hne : m ≠ []) :
    occursIn m (trimResultTransformer (stripIndentTransformer (templateText onSub (s0 :: ss) es))) =
      true := by
  subst ha
  obtain ⟨t, ht⟩ := processSubstitutions_start onSub (a ++ r0) ss es
  have hraw : templateText onSub ((a ++ r0) :: ss) es = a ++ (r0 ++ t) := by
    simp only [templateText, ht, List.append_assoc]
  rw [hraw]
  apply occursIn_jsTrim m _ h1 h2 hne
  have hle : minIndent (indentMatches (a ++ (r0 ++ t))) ≤ K := by
    apply minIndent_le_of_mem
    rw [indentMatches, indentMatchesAux_append]
    exact List.mem_append_left _ hK
  unfold stripIndentTransformer
  generalize minIndent (indentMatches (a ++ (r0 ++ t))) = n at hle
  by_cases hz : n = 0
  · simp only [hz, ne_eq, not_true_eq_false, if_false]
    exact occursIn_append_right m a _ h0
  · simp only [ne_eq, hz, not_false_eq_true, if_true]
    obtain ⟨g1, g2⟩ := hn n (by omega) hle
    rw [stripAux_append _ _ _ _ _ g1]
    exact occursIn_append_right m _ _ g2

theorem profileText_marker (b : Basics) :
    occursIn (lit "\\begin\x7bcenter\x7d") (profileText b) = true := by
  unfold profileText stripIndent
  refine occursIn_tag _ _ _ _
    (lit "\n    %%%%%%%%%%%%%%%%%%%%%%%%%%%%%%%%%%%%%%\n    %     Profile\n    %%%%%%%%%%%%%%%%%%%%%%%%%%%%%%%%%%%%%%\n    \\begin\x7bcenter\x7d\n")
    (lit "    ") 4 _ (by decide) (by decide) (by decide) ?_ (by decide) (by decide) (by decide)
  intro n h1 h2
  interval_cases n <;> exact ⟨by decide, by decide⟩

theorem educationText_marker (es : List School) :
    occursIn (lit "\\cvsection\x7bEducation\x7d") (educationText es) = true := by
  unfold educationText source
  refine occursIn_tag _ _ _ _
    (lit "\n  %%%%%%%%%%%%%%%%%%%%%%%%%%%%%%%%%%%%%%\n  %     Education\n  %%%%%%%%%%%%%%%%%%%%%%%%%%%%%%%%%%%%%%\n  \\cvsection\x7bEducation\x7d\n")
    (lit "  \\begin\x7bcventries\x7d\n  ") 2 _ (by decide) (by decide) (by decide) ?_ (by decide)
    (by decide) (by decide)
  intro n h1 h2
  interval_cases n <;> exact ⟨by decide, by decide⟩

theorem experienceText_marker (js : List Job) :
    occursIn (lit "\\cvsection\x7bExperience\x7d") (experienceText js) = true := by
  unfold experienceText source
  refine occursIn_tag _ _ _ _
    (lit "\n  %%%%%%%%%%%%%%%%%%%%%%%%%%%%%%%%%%%%%%\n  %     Experience\n  %%%%%%%%%%%%%%%%%%%%%%%%%%%%%%%%%%%%%%\n  \\cvsection\x7bExperience\x7d\n")
    (lit "  \\begin\x7bcventries\x7d\n  ") 2 _ (by decide) (by decide) (by decide) ?_ (by decide)
    (by decide) (by decide)
  intro n h1 h2
  interval_cases n <;> exact ⟨by decide, by decide⟩

theorem skillsText_marker (sk : List Skill) :
    occursIn (lit "\\cvsection\x7bSkills\x7d") (skillsText sk) = true := by
  unfold skillsText source
  refine occursIn_tag _ _ _ _ (lit "\n  \\cvsection\x7bSkills\x7d\n")
    (lit "  \\begin\x7bcventries\x7d\n  \\cventry\n  \x7b\x7d\n  \x7b\\def\\arraystretch\x7b1.15\x7d\x7b\\begin\x7btabular\x7d\x7b l l \x7d\n  ")
    2 _ (by decide) (by decide) (by decide) ?_ (by decide) (by decide) (by decide)
  intro n h1 h2
  interval_cases n <;> exact ⟨by decide, by decide⟩

theorem projectsText_marker (ps : List Project) :
    occursIn (lit "\\cvsection\x7bProjects\x7d") (projectsText ps) = true := by
  unfold projectsText source
  refine occursIn_tag _ _ _ _ (lit "\n  \\cvsection\x7bProjects\x7d\n")
    (lit "  \\begin\x7bcventries\x7d\n  ") 2 _ (by decide) (by decide) (by decide) ?_ (by decide)
    (by decide) (by decide)
  intro n h1 h2
  interval_cases n <;> exact ⟨by decide, by decide⟩

theorem awardsText_marker (aw : List Award) :
    occursIn (lit "\\cvsection\x7bHonors \\& Awards\x7d") (awardsText aw) = true := by
  unfold awardsText source
  refine occursIn_tag _ _ _ _ (lit "\n  \\cvsection\x7bHonors \\& Awards\x7d\n")
    (lit "  \\begin\x7bcvhonors\x7d\n  ") 2 _ (by decide) (by decide) (by decide) ?_ (by decide)
    (by decide) (by decide)
  intro n h1 h2
  interval_cases n <;> exact ⟨by decide, by decide⟩

/-! ## Counting the occurrences of a text -/

theorem countOcc_le_cons (m : Str) (c : Nat) (s : Str) :
    countOcc m s ≤ countOcc m (c :: s) := by
  simp only [countOcc]
  omega

theorem countOcc_append_left_le (m x r : Str) : countOcc m r ≤ countOcc m (x ++ r) := by
  induction x with
  | nil => simp
  | cons c x ih => exact le_trans ih (countOcc_le_cons m c _)

theorem countOcc_append_right_le (m x r : Str) : countOcc m x ≤ countOcc m (x ++ r) := by
  induction x with
  | nil => simp [countOcc]
  | cons c x ih =>
    simp only [List.cons_append, countOcc, List.append_eq]
    by_cases h : startsWith m (c :: x) = true
    · have := startsWith_append_right m (c :: x) r h
      simp only [List.cons_append] at this
      simp only [h, this, if_true]
      omega
    · simp only [h, Bool.false_eq_true, if_false]
      split_ifs <;> omega

/-- An occurrence of `m` cannot run across a character foreign to `m`: the
occurrences on the two sides add up. -/
theorem countOcc_split (m x r : Str) (d : Nat) (hd : d ∉ m) (hne : m ≠ []) :
    countOcc m (x ++ d :: r) = countOcc m x + countOcc m r := by
  induction x with
  | nil =>
    have h : startsWith m (d :: r) = false := by
      cases m with
      | nil => exact absurd rfl hne
      | cons a m =>
        have : (a == d) = false := by
          simp only [beq_eq_false_iff_ne, ne_eq]
          intro e
          exact hd (by simp [e])
        simp [startsWith, this]
    simp [countOcc, h]
  | cons c x ih =>
    have h : startsWith m (c :: (x ++ d :: r)) = startsWith m (c :: x) := by
      cases hs : startsWith m (c :: x) with
      | true =>
        have := startsWith_append_right m (c :: x) (d :: r) hs
        simpa using this
      | false =>
        by_contra hc
        have hc' : startsWith m ((c :: x) ++ d :: r) = true := by simpa using hc
        have := startsWith_before m (c :: x) r d hd hc'
        rw [hs] at this
        exact Bool.noConfusion this
    simp only [List.cons_append, countOcc, h, ih, List.append_eq]
    omega

theorem countOcc_eq_zero (m s : Str) : countOcc m s = 0 ↔ occursIn m s = false ∨ s = [] := by
  induction s with
  | nil => simp [countOcc]
  | cons c s ih =>
    simp only [countOcc, occursIn, Bool.or_eq_false_iff, reduceCtorEq, or_false]
    constructor
    · intro h
      have h1 : startsWith m (c :: s) = false := by
        by_contra hc
        simp only [Bool.not_eq_false] at hc
        simp [hc] at h
      have h2 : countOcc m s = 0 := by omega
      refine ⟨h1, ?_⟩
      rcases ih.mp h2 with h3 | h3
      · exact h3
      · subst h3
        cases m with
        | nil => simp [startsWith] at h1
        | cons a m => rfl
    · rintro ⟨h1, h2⟩
      simp only [h1, Bool.false_eq_true, if_false, Nat.zero_add]
      exact ih.mpr (Or.inl h2)

theorem countOcc_zero_of_not_occursIn (m s : Str) (h : occursIn m s = false) :
    countOcc m s = 0 :=
  (countOcc_eq_zero m s).mpr (Or.inl h)

theorem countOcc_pos_of_occursIn (m s : Str) (hne : m ≠ []) (h : occursIn m s = true) :
    1 ≤ countOcc m s := by
  by_contra hc
  have h0 : countOcc m s = 0 := by omega
  rcases (countOcc_eq_zero m s).mp h0 with h1 | h1
  · rw [h] at h1
    exact Bool.noConfusion h1
  · subst h1
    cases m with
    | nil => exact absurd rfl hne
    | cons a m => simp [occursIn] at h

/-- Inside a line the removal of indentation copies the characters: a text
without line terminators at the head of the result is at the head of the
input. -/
theorem startsWith_stripAux (m : Str) (n : Nat) (t : Str) (hm : noLineTerminator m = true)
    (h : startsWith m (stripAux n 0 false t) = true) : startsWith m t = true := by
  induction m generalizing t with
  | nil => simp [startsWith]
  | cons a m ih =>
    rw [noLineTerminator_cons] at hm
    simp only [Bool.and_eq_true, Bool.not_eq_true'] at hm
    cases t with
    | nil => simp [stripAux, startsWith] at h
    | cons c cs =>
      simp only [stripAux, Bool.false_and, Bool.false_eq_true, if_false, startsWith,
        Bool.and_eq_true, beq_iff_eq] at h
      obtain ⟨rfl, h2⟩ := h
      rw [hm.1] at h2
      simp only [startsWith, beq_self_eq_true, Bool.true_and]
      exact ih cs hm.2 h2

/-- The removal of indentation creates no occurrence of a text without line
terminators. -/
theorem countOcc_stripAux_le (m : Str) (n k : Nat) (b : Bool) (t : Str)
    (hm : noLineTerminator m = true) (hne : m ≠ []) :
    countOcc m (stripAux n k b t) ≤ countOcc m t := by
  induction t generalizing k b with
  | nil => cases k <;> simp [stripAux]
  | cons c cs ih =>
    cases k with
    | zero =>
      simp only [stripAux]
      split_ifs with hcond
      · exact le_trans (ih _ _) (countOcc_le_cons m c cs)
      · have hstep : startsWith m (c :: stripAux n 0 (isLineTerminator c) cs) = true →
            startsWith m (c :: cs) = true := by
          cases m with
          | nil => exact absurd rfl hne
          | cons a m =>
            rw [noLineTerminator_cons] at hm
            simp only [Bool.and_eq_true, Bool.not_eq_true'] at hm
            intro h
            simp only [startsWith, Bool.and_eq_true, beq_iff_eq] at h ⊢
            obtain ⟨rfl, h2⟩ := h
            rw [hm.1] at h2
            exact ⟨rfl, startsWith_stripAux m n cs hm.2 h2⟩
        have := ih 0 (isLineTerminator c)
        simp only [countOcc]
        by_cases h1 : startsWith m (c :: stripAux n 0 (isLineTerminator c) cs) = true
        · simp only [h1, hstep h1, if_true]
          omega
        · simp only [h1, Bool.false_eq_true, if_false]
          split_ifs <;> omega
    | succ k =>
      simp only [stripAux]
      exact le_trans (ih _ _) (countOcc_le_cons m c cs)

theorem countOcc_unindent_le (m : Str) (n : Nat) (t : Str) (hm : noLineTerminator m = true)
    (hne : m ≠ []) : countOcc m (unindent n t) ≤ countOcc m t := by
  unfold unindent
  split_ifs
  · exact countOcc_stripAux_le m n 0 true t hm hne
  · exact le_refl _

theorem stripIndentTransformer_eq_unindent (t : Str) :
    stripIndentTransformer t = unindent (minIndent (indentMatches t)) t := rfl

theorem jsTrim_inside (s : Str) : ∃ u v, s = u ++ (jsTrim s ++ v) := by
  refine ⟨s.takeWhile isWhiteSpace,
    ((s.dropWhile isWhiteSpace).reverse.takeWhile isWhiteSpace).reverse, ?_⟩
  unfold jsTrim
  rw [← List.reverse_append, List.takeWhile_append_dropWhile, List.reverse_reverse,
    List.takeWhile_append_dropWhile]

theorem countOcc_jsTrim_le (m s : Str) : countOcc m (jsTrim s) ≤ countOcc m s := by
  obtain ⟨u, v, h⟩ := jsTrim_inside s
  calc countOcc m (jsTrim s) ≤ countOcc m (jsTrim s ++ v) := countOcc_append_right_le m _ v
    _ ≤ countOcc m (u ++ (jsTrim s ++ v)) := countOcc_append_left_le m u _
    _ = countOcc m s := by rw [← h]

/-- A tag of `common-tags` that removes indentation and trims creates no
occurrence of a text without line terminators. -/
theorem countOcc_tag_le (m t : Str) (hm : noLineTerminator m = true) (hne : m ≠ []) :
    countOcc m (trimResultTransformer (stripIndentTransformer t)) ≤ countOcc m t := by
  unfold trimResultTransformer
  exact le_trans (countOcc_jsTrim_le m _)
    (by rw [stripIndentTransformer_eq_unindent]; exact countOcc_unindent_le m _ t hm hne)

/-! ## Removing indentation from lines that end in a line feed -/

theorem canStrip_lf (n : Nat) (x r : Str) :
    canStrip n (x ++ 10 :: r) = canStrip n (x ++ [10]) := by
  induction n generalizing x with
  | zero => simp [canStrip]
  | succ n ih =>
    cases x with
    | nil => simp [canStrip, isLineTerminator]
    | cons c x => simp [canStrip, ih]

/-- The removal of indentation from a text that ends in a line feed ends in
that line feed, and what follows the line feed is treated as a text of its
own. -/
theorem stripAux_lf (n k : Nat) (b : Bool) (x : Str) (hn : 1 ≤ n)
    (hk : canStrip k (x ++ [10]) = true) :
    ∃ Y, stripAux n k b (x ++ [10]) = Y ++ [10] ∧
      ∀ r, stripAux n k b (x ++ 10 :: r) = Y ++ 10 :: stripAux n 0 true r := by
  obtain ⟨j, rfl⟩ : ∃ j, n = j + 1 := ⟨n - 1, by omega⟩
  induction x generalizing k b with
  | nil =>
    cases k with
    | zero =>
      refine ⟨[], ?_, ?_⟩
      · simp [stripAux, canStrip, isLineTerminator]
      · intro r
        simp [stripAux, canStrip, isLineTerminator]
    | succ k => simp [canStrip, isLineTerminator] at hk
  | cons c x ih =>
    cases k with
    | zero =>
      by_cases hc : (b && canStrip (j + 1) (c :: (x ++ [10]))) = true
      · have hc2 : ∀ r, (b && canStrip (j + 1) (c :: (x ++ 10 :: r))) = true := by
          intro r
          have := canStrip_lf (j + 1) (c :: x) r
          simp only [List.cons_append] at this
          rw [this]
          exact hc
        have hk' : canStrip j (x ++ [10]) = true := by
          simp only [Bool.and_eq_true, canStrip] at hc
          exact hc.2.2
        obtain ⟨Y, h1, h2⟩ := ih j false hk'
        refine ⟨Y, ?_, ?_⟩
        · simp only [List.cons_append, stripAux, List.append_eq, hc, if_true, Nat.add_sub_cancel]
          exact h1
        · intro r
          simp only [List.cons_append, stripAux, List.append_eq, hc2 r, if_true, Nat.add_sub_cancel]
          exact h2 r
      · have hc2 : ∀ r, ¬ (b && canStrip (j + 1) (c :: (x ++ 10 :: r))) = true := by
          intro r
          have := canStrip_lf (j + 1) (c :: x) r
          simp only [List.cons_append] at this
          rw [this]
          exact hc
        obtain ⟨Y, h1, h2⟩ := ih 0 (isLineTerminator c) rfl
        refine ⟨c :: Y, ?_, ?_⟩
        · simp only [List.cons_append, stripAux, List.append_eq, hc, Bool.false_eq_true, if_false]
          rw [h1]
        · intro r
          simp only [List.cons_append, stripAux, List.append_eq, hc2 r, Bool.false_eq_true, if_false]
          rw [h2 r]
    | succ k =>
      have hk' : canStrip k (x ++ [10]) = true := by
        simp only [List.cons_append, canStrip, Bool.and_eq_true] at hk
        exact hk.2
      obtain ⟨Y, h1, h2⟩ := ih k false hk'
      refine ⟨Y, ?_, ?_⟩
      · simp only [List.cons_append, stripAux, List.append_eq]
        exact h1
      · intro r
        simp only [List.cons_append, stripAux, List.append_eq]
        exact h2 r

theorem unindent_append_lf (n : Nat) (x r : Str) :
    unindent n (x ++ 10 :: r) = unindent n (x ++ [10]) ++ unindent n r := by
  unfold unindent
  by_cases hn : n = 0
  · simp [hn]
  · simp only [ne_eq, hn, not_false_eq_true, if_true]
    obtain ⟨Y, h1, h2⟩ := stripAux_lf n 0 true x (by omega) rfl
    rw [h1, h2 r]
    simp

theorem unindent_getLast (n : Nat) (x : Str) : (unindent n (x ++ [10])).getLast? = some 10 := by
  unfold unindent
  by_cases hn : n = 0
  · simp [hn]
  · simp only [ne_eq, hn, not_false_eq_true, if_true]
    obtain ⟨Y, h1, -⟩ := stripAux_lf n 0 true x (by omega) rfl
    rw [h1]
    simp

/-- Lines that end in a line feed lose their indentation one by one. -/
theorem unindent_chunks (n : Nat) (chunks : List Str) (r : Str) :
    unindent n ((chunks.map (fun c => c ++ [10])).flatten ++ r) =
      (chunks.map (fun c => unindent n (c ++ [10]))).flatten ++ unindent n r := by
  induction chunks with
  | nil => simp
  | cons c chunks ih =>
    have e : ((c :: chunks).map (fun c => c ++ [10])).flatten ++ r =
        c ++ 10 :: ((chunks.map (fun c => c ++ [10])).flatten ++ r) := by simp
    rw [e, unindent_append_lf, ih]
    simp

theorem countOcc_append_lf (m a r : Str) (h10 : 10 ∉ m) (hne : m ≠ [])
    (ha : a.getLast? = some 10) : countOcc m (a ++ r) = countOcc m a + countOcc m r := by
  obtain ⟨Y, rfl⟩ : ∃ Y, a = Y ++ [10] := by
    refine ⟨a.dropLast, ?_⟩
    have hne' : a ≠ [] := by
      intro e
      subst e
      simp at ha
    have := List.dropLast_append_getLast hne'
    rw [List.getLast?_eq_getLast _ hne', Option.some.injEq] at ha
    rw [ha] at this
    exact this.symm
  rw [List.append_assoc, List.singleton_append, countOcc_split m Y r 10 h10 hne,
    countOcc_split m Y [] 10 h10 hne]
  simp [countOcc]

theorem countOcc_flatten_lf (m : Str) (chunks : List Str) (r : Str) (h10 : 10 ∉ m)
    (hne : m ≠ []) (hc : ∀ c ∈ chunks, c.getLast? = some 10) :
    countOcc m (chunks.flatten ++ r) = (chunks.map (countOcc m)).sum + countOcc m r := by
  induction chunks with
  | nil => simp
  | cons c chunks ih =>
    simp only [List.flatten_cons, List.append_assoc, List.map_cons, List.sum_cons]
    rw [countOcc_append_lf m c _ h10 hne (hc c (by simp)),
      ih (fun d hd => hc d (by simp [hd]))]
    omega

/-! ## The entries of a section -/

theorem trimEnd_split (X : Str) :
    ∃ v, X = (X.reverse.dropWhile isWhiteSpace).reverse ++ v := by
  refine ⟨(X.reverse.takeWhile isWhiteSpace).reverse, ?_⟩
  rw [← List.reverse_append, List.takeWhile_append_dropWhile, List.reverse_reverse]

theorem countOcc_trimEnd_le (m X : Str) :
    countOcc m (X.reverse.dropWhile isWhiteSpace).reverse ≤ countOcc m X := by
  obtain ⟨v, hv⟩ := trimEnd_split X
  calc countOcc m (X.reverse.dropWhile isWhiteSpace).reverse
      ≤ countOcc m ((X.reverse.dropWhile isWhiteSpace).reverse ++ v) :=
        countOcc_append_right_le m _ v
    _ = countOcc m X := by rw [← hv]

/-- A rendered entry whose template begins with an empty line and the macro
name after six spaces begins with the macro name, whatever follows in the
template; the rest of the entry has no more occurrences of a text without line
terminators than the rest of the template. -/
theorem entry_start (name R : Str)
    (f1 : indentMatchesAux (some (0, false)) (lit "\n      " ++ name) = [6])
    (f3 : ∀ n, 1 ≤ n → n ≤ 6 → stripSafe n 0 true (lit "\n      " ++ name) = true ∧
      stripEnd n 0 true (lit "\n      " ++ name) = (0, false) ∧
      stripAux n 0 true (lit "\n      " ++ name) = 10 :: (List.replicate (6 - n) 32 ++ name))
    (h1 : ∀ c ∈ name.head?, isWhiteSpace c = false)
    (h2 : ∀ c ∈ name.getLast?, isWhiteSpace c = false) (hne : name ≠ []) :
    ∃ E, trimResultTransformer (stripIndentTransformer (lit "\n      " ++ name ++ R)) =
        name ++ E ∧
      ∀ m, noLineTerminator m = true → m ≠ [] → countOcc m E ≤ countOcc m R := by
  have hle : minIndent (indentMatches (lit "\n      " ++ name ++ R)) ≤ 6 := by
    apply minIndent_le_of_mem
    rw [indentMatches, indentMatchesAux_append, f1]
    simp
  unfold stripIndentTransformer trimResultTransformer
  generalize minIndent (indentMatches (lit "\n      " ++ name ++ R)) = n at hle
  by_cases hn : n = 0
  · refine ⟨(R.reverse.dropWhile isWhiteSpace).reverse, ?_, ?_⟩
    · simp only [hn, ne_eq, not_true_eq_false, if_false]
      rw [List.append_assoc]
      exact jsTrim_name _ _ _ (by decide) h1 h2 hne
    · intro m _ _
      exact countOcc_trimEnd_le m R
  · obtain ⟨g1, g2, g3⟩ := f3 n (by omega) hle
    refine ⟨((stripAux n 0 false R).reverse.dropWhile isWhiteSpace).reverse, ?_, ?_⟩
    · simp only [ne_eq, hn, not_false_eq_true, if_true]
      rw [stripAux_append _ _ _ _ _ g1, g2, g3]
      have e : 10 :: (List.replicate (6 - n) 32 ++ name) ++ stripAux n 0 false R =
          (10 :: List.replicate (6 - n) 32) ++ (name ++ stripAux n 0 false R) := by
        simp
      rw [e]
      exact jsTrim_name _ _ _ (by simp [allWhiteSpace, isWhiteSpace]) h1 h2 hne
    · intro m hm hmne
      exact le_trans (countOcc_trimEnd_le m _) (countOcc_stripAux_le m n 0 false R hm hmne)

theorem countOcc_groups (m ws : Str) (args : List Str) (tail : Str) (h1 : 123 ∉ m)
    (h2 : 125 ∉ m) (hne : m ≠ []) (hws : countOcc m ws = 0) :
    countOcc m (groups ws args tail) = (args.map (countOcc m)).sum + countOcc m tail := by
  induction args with
  | nil => simp [groups]
  | cons a args ih =>
    simp only [groups, List.foldr_cons, List.map_cons, List.sum_cons] at ih ⊢
    rw [countOcc_split m ws _ 123 h1 hne, countOcc_split m a _ 125 h2 hne, ih, hws]
    omega

theorem countOcc_cventry_self (E : Str) :
    countOcc (lit "\\cventry") (lit "\\cventry" ++ E) = 1 + countOcc (lit "\\cventry") E := by
  have e : lit "\\cventry" = [92, 99, 118, 101, 110, 116, 114, 121] := by decide
  rw [e]
  simp [countOcc, startsWith, startsWith_self_append]

theorem countOcc_replicate_append (m : Str) (k : Nat) (r : Str) (h : 32 ∉ m) (hne : m ≠ []) :
    countOcc m (List.replicate k 32 ++ r) = countOcc m r := by
  induction k with
  | zero => simp
  | succ k ih =>
    have := countOcc_split m [] (List.replicate k 32 ++ r) 32 h hne
    simp only [List.nil_append] at this
    rw [List.replicate_succ, List.cons_append, this, ih]
    simp [countOcc]

/-- The five-argument `\cventry` template applied to values in which
`\cventry` does not occur: the entry is `\cventry` followed by a text in which
it does not occur. -/
theorem cventry_entry (v1 v2 v3 v4 v5 : JSVal)
    (c1 : countOcc (lit "\\cventry") v1.toStr = 0) (c2 : countOcc (lit "\\cventry") v2.toStr = 0)
    (c3 : countOcc (lit "\\cventry") v3.toStr = 0) (c4 : countOcc (lit "\\cventry") v4.toStr = 0)
    (c5 : countOcc (lit "\\cventry") v5.toStr = 0) :
    ∃ E, stripIndent cventryStrings [v1, v2, v3, v4, v5] = lit "\\cventry" ++ E ∧
      countOcc (lit "\\cventry") E = 0 := by
  obtain ⟨f1, -, f3⟩ := cventry_facts
  have e0 : lit "\n      \\cventry\n        \x7b" =
      lit "\n      " ++ lit "\\cventry" ++ lit "\n        \x7b" := by decide
  have hR : lit "\n        \x7b" ++ (v1.toStr ++ (lit "\x7d\n        \x7b" ++ (v2.toStr ++
      (lit "\x7d\n        \x7b" ++ (v3.toStr ++ (lit "\x7d\n        \x7b" ++ (v4.toStr ++
        (lit "\x7d\n        \x7b" ++ (v5.toStr ++ lit "\x7d\n    ")))))))))  =
      groups (lit "\n        ") [v1.toStr, v2.toStr, v3.toStr, v4.toStr, v5.toStr] (lit "\n    ") := by
    have k0 : lit "\n        \x7b" = lit "\n        " ++ [123] := by decide
    have k1 : lit "\x7d\n        \x7b" = 125 :: (lit "\n        " ++ [123]) := by decide
    have k5 : lit "\x7d\n    " = 125 :: lit "\n    " := by decide
    simp only [k0, k1, k5, groups, List.foldr, List.append_assoc, List.cons_append,
      List.nil_append]
  unfold stripIndent
  rw [cventryStrings, templateText_id_five, e0, List.append_assoc (lit "\n      " ++ lit "\\cventry"),
    hR]
  obtain ⟨E, hE, hcount⟩ := entry_start (lit "\\cventry")
    (groups (lit "\n        ") [v1.toStr, v2.toStr, v3.toStr, v4.toStr, v5.toStr] (lit "\n    "))
    f1 f3 (by decide) (by decide) (by decide)
  refine ⟨E, hE, ?_⟩
  have := hcount (lit "\\cventry") (by decide) (by decide)
  rw [countOcc_groups _ _ _ _ (by decide) (by decide) (by decide) (by decide)] at this
  simp only [List.map_cons, List.map_nil, List.sum_cons, List.sum_nil, c1, c2, c3, c4, c5] at this
  have ht : countOcc (lit "\\cventry") (lit "\n    ") = 0 := by decide
  omega

theorem countOcc_ofOpt_free (o : Option Str) (h : freeField (lit "\\cventry") o = true) :
    countOcc (lit "\\cventry") (ofOpt o).toStr = 0 := by
  cases o with
  | none => decide
  | some s =>
    apply countOcc_zero_of_not_occursIn
    simpa [freeField] using h

theorem countOcc_orEmpty_free (o : Option Str) (h : freeField (lit "\\cventry") o = true) :
    countOcc (lit "\\cventry") (orEmpty o) = 0 := by
  cases o with
  | none => rfl
  | some s =>
    unfold orEmpty
    split_ifs
    · exact countOcc_ofOpt_free _ h
    · rfl

theorem countOcc_dateRange_free (sd ed : Option Str) (v : JSVal)
    (hv : v = (if truthy sd && truthy ed then
        .str ((ofOpt sd).toStr ++ lit " – " ++ (ofOpt ed).toStr)
      else if truthy sd then .str ((ofOpt sd).toStr ++ lit " – Present") else ofOpt ed))
    (hs : freeField (lit "\\cventry") sd = true) (he : freeField (lit "\\cventry") ed = true) :
    countOcc (lit "\\cventry") v.toStr = 0 := by
  have e1 : lit " – " = 32 :: (lit "–" ++ [32]) := by decide
  have e2 : lit " – Present" = 32 :: lit "– Present" := by decide
  have z1 : countOcc (lit "\\cventry") (lit "–") = 0 := by decide
  have z2 : countOcc (lit "\\cventry") (lit "– Present") = 0 := by decide
  subst hv
  split_ifs
  · rw [toStr_str, e1]
    have e : (ofOpt sd).toStr ++ 32 :: (lit "–" ++ [32]) ++ (ofOpt ed).toStr =
        (ofOpt sd).toStr ++ 32 :: (lit "–" ++ 32 :: (ofOpt ed).toStr) := by simp
    rw [e, countOcc_split _ _ _ 32 (by decide) (by decide),
      countOcc_split _ _ _ 32 (by decide) (by decide), countOcc_ofOpt_free _ hs,
      countOcc_ofOpt_free _ he, z1]
  · rw [toStr_str, e2, countOcc_split _ _ _ 32 (by decide) (by decide),
      countOcc_ofOpt_free _ hs, z2]
  · exact countOcc_ofOpt_free _ he

theorem educationArgs_free (school : School) (h : school.freeOf (lit "\\cventry") = true) :
    countOcc (lit "\\cventry") (degreeLine school).toStr = 0 ∧
      countOcc (lit "\\cventry") (JSVal.str (orEmpty school.institution)).toStr = 0 ∧
      countOcc (lit "\\cventry") (JSVal.str (orEmpty school.location)).toStr = 0 ∧
      countOcc (lit "\\cventry") (educationDateRange school).toStr = 0 ∧
      countOcc (lit "\\cventry") (JSVal.str
        (if truthy school.gpa then lit "GPA: " ++ (ofOpt school.gpa).toStr else [])).toStr =
        0 := by
  simp only [School.freeOf, Bool.and_eq_true] at h
  obtain ⟨⟨⟨⟨⟨⟨hi, hl⟩, ha⟩, hst⟩, hg⟩, hsd⟩, hed⟩ := h
  refine ⟨?_, countOcc_orEmpty_free _ hi, countOcc_orEmpty_free _ hl,
    countOcc_dateRange_free _ _ _ rfl hsd hed, ?_⟩
  · have e1 : lit " in " = 32 :: (lit "in" ++ [32]) := by decide
    have z1 : countOcc (lit "\\cventry") (lit "in") = 0 := by decide
    unfold degreeLine
    split_ifs
    · rw [toStr_str, e1]
      have e : (ofOpt school.studyType).toStr ++ 32 :: (lit "in" ++ [32]) ++
          (ofOpt school.area).toStr =
          (ofOpt school.studyType).toStr ++ 32 :: (lit "in" ++ 32 :: (ofOpt school.area).toStr) := by
        simp
      rw [e, countOcc_split _ _ _ 32 (by decide) (by decide),
        countOcc_split _ _ _ 32 (by decide) (by decide), countOcc_ofOpt_free _ hst,
        countOcc_ofOpt_free _ ha, z1]
    · exact countOcc_ofOpt_free _ hst
    · exact countOcc_ofOpt_free _ ha
    · rfl
  · rw [toStr_str]
    split_ifs
    · have e1 : lit "GPA: " = lit "GPA:" ++ [32] := by decide
      have z1 : countOcc (lit "\\cventry") (lit "GPA:") = 0 := by decide
      rw [e1, List.append_assoc, List.singleton_append,
        countOcc_split _ _ _ 32 (by decide) (by decide), countOcc_ofOpt_free _ hg, z1]
    · rfl

theorem countOcc_jsJoin_indentSep (m : Str) (k : Nat) (xs : List Str) (h10 : 10 ∉ m)
    (h32 : 32 ∉ m) (hne : m ≠ []) (hx : ∀ x ∈ xs, countOcc m x = 0) :
    countOcc m (jsJoin (indentSep k) xs) = 0 := by
  induction xs with
  | nil => rfl
  | cons x xs ih =>
    cases xs with
    | nil => simpa [jsJoin] using hx x (by simp)
    | cons y ys =>
      have ih' := ih (fun z hz => hx z (by simp [hz]))
      simp only [jsJoin, indentSep, List.append_assoc, List.cons_append] at ih' ⊢
      rw [countOcc_split m x _ 10 h10 hne, countOcc_replicate_append m k _ h32 hne, ih',
        hx x (by simp)]

/-- The highlights block of highlights in which `\cventry` does not occur. -/
theorem dutyLinesText_free (highlights : Option (List Str))
    (h : (match highlights with
      | none => true
      | some hs => hs.all (fun x => !occursIn (lit "\\cventry") x)) = true) :
    countOcc (lit "\\cventry") (dutyLinesText highlights) = 0 := by
  cases highlights with
  | none => rfl
  | some hs =>
    simp only [List.all_eq_true, Bool.not_eq_true'] at h
    have hitems : ∀ x ∈ hs.map dutyItem, countOcc (lit "\\cventry") x = 0 := by
      intro x hx
      simp only [List.mem_map] at hx
      obtain ⟨d, hd, rfl⟩ := hx
      have e1 : lit "\\item \x7b" = lit "\\item " ++ [123] := by decide
      have e2 : lit "\x7d" = [125] := by decide
      have z1 : countOcc (lit "\\cventry") (lit "\\item ") = 0 := by decide
      have e : dutyItem d = lit "\\item " ++ 123 :: (d ++ 125 :: []) := by
        simp [dutyItem, e1, e2]
      rw [e, countOcc_split _ _ _ 123 (by decide) (by decide),
        countOcc_split _ _ _ 125 (by decide) (by decide), z1,
        countOcc_zero_of_not_occursIn _ _ (h d hd)]
      rfl
    have eP : lit "\n        \\begin\x7bcvitems\x7d\n          " =
        lit "\n        \\begin\x7bcvitems\x7d\n         " ++ [32] := by decide
    have eS : lit "\n        \\end\x7bcvitems\x7d\n        " =
        10 :: lit "        \\end\x7bcvitems\x7d\n        " := by decide
    have zP : countOcc (lit "\\cventry") (lit "\n        \\begin\x7bcvitems\x7d\n         ") = 0 := by
      decide
    have zS : countOcc (lit "\\cventry") (lit "        \\end\x7bcvitems\x7d\n        ") = 0 := by
      decide
    have hz : countOcc (lit "\\cventry")
        (templateText (fun e r => inlineArrayTransformer (splitStringTransformer e) r)
          [lit "\n        \\begin\x7bcvitems\x7d\n          ",
            lit "\n        \\end\x7bcvitems\x7d\n        "] [.arr (hs.map dutyItem)]) = 0 := by
      rw [dutyLines_raw, eP, eS, List.append_assoc, List.singleton_append,
        countOcc_split _ _ _ 32 (by decide) (by decide),
        countOcc_split _ _ _ 10 (by decide) (by decide),
        countOcc_jsJoin_indentSep _ _ _ (by decide) (by decide) (by decide) hitems, zP, zS]
    have hle := countOcc_tag_le (lit "\\cventry")
      (templateText (fun e r => inlineArrayTransformer (splitStringTransformer e) r)
        [lit "\n        \\begin\x7bcvitems\x7d\n          ",
          lit "\n        \\end\x7bcvitems\x7d\n        "] [.arr (hs.map dutyItem)])
      (by decide) (by decide)
    rw [hz] at hle
    have hdef : dutyLinesText (some hs) = trimResultTransformer (stripIndentTransformer
        (templateText (fun e r => inlineArrayTransformer (splitStringTransformer e) r)
          [lit "\n        \\begin\x7bcvitems\x7d\n          ",
            lit "\n        \\end\x7bcvitems\x7d\n        "] [.arr (hs.map dutyItem)])) := rfl
    rw [hdef]
    omega

theorem experienceArgs_free (job : Job) (h : job.freeOf (lit "\\cventry") = true) :
    countOcc (lit "\\cventry") (JSVal.str (orEmpty job.position)).toStr = 0 ∧
      countOcc (lit "\\cventry") (JSVal.str (orEmpty job.company)).toStr = 0 ∧
      countOcc (lit "\\cventry") (JSVal.str (orEmpty job.location)).toStr = 0 ∧
      countOcc (lit "\\cventry") (jsValOrEmpty (experienceDateRange job)).toStr = 0 ∧
      countOcc (lit "\\cventry") (JSVal.str (dutyLinesText job.highlights)).toStr = 0 := by
  simp only [Job.freeOf, Bool.and_eq_true] at h
  obtain ⟨⟨⟨⟨⟨hc, hp⟩, hl⟩, hsd⟩, hed⟩, hh⟩ := h
  refine ⟨countOcc_orEmpty_free _ hp, countOcc_orEmpty_free _ hc, countOcc_orEmpty_free _ hl, ?_,
    dutyLinesText_free _ hh⟩
  have := countOcc_dateRange_free job.startDate job.endDate (experienceDateRange job) rfl hsd hed
  cases hv : experienceDateRange job with
  | undefined => rfl
  | str s =>
    rw [hv] at this
    exact this
  | arr xs =>
    rw [hv] at this
    exact this

theorem dropWhile_append_of_any (p : Nat → Bool) (x y : Str) (h : ∃ c ∈ x, p c = false) :
    (x ++ y).dropWhile p = x.dropWhile p ++ y := by
  induction x with
  | nil =>
    obtain ⟨c, hc, -⟩ := h
    simp at hc
  | cons a x ih =>
    by_cases ha : p a = true
    · obtain ⟨c, hc, hpc⟩ := h
      simp only [List.mem_cons] at hc
      rcases hc with rfl | hc
      · rw [ha] at hpc
        exact Bool.noConfusion hpc
      · simp [List.dropWhile, ha, ih ⟨c, hc, hpc⟩]
    · have ha' : p a = false := by simpa using ha
      simp [List.dropWhile, ha']

/-- Trimming the end of a text leaves what precedes its last part when that
part holds a character that is not white space. -/
theorem trimEnd_append (a s : Str) (h : hasInk s = true) :
    ((a ++ s).reverse.dropWhile isWhiteSpace).reverse =
      a ++ (s.reverse.dropWhile isWhiteSpace).reverse := by
  rw [List.reverse_append, dropWhile_append_of_any isWhiteSpace s.reverse a.reverse (by
    simp only [hasInk, List.any_eq_true, Bool.not_eq_true'] at h
    obtain ⟨c, hc, hw⟩ := h
    exact ⟨c, by simpa using hc, hw⟩)]
  simp

/-- Entries joined after a line feed and `k` spaces are lines of their own,
each after `k` spaces. -/
theorem join_chunks (k : Nat) (es : List Str) (r : Str) (hne : es ≠ []) :
    List.replicate k 32 ++ (jsJoin (indentSep k) es ++ 10 :: r) =
      ((es.map (fun e => List.replicate k 32 ++ e)).map (fun c => c ++ [10])).flatten ++ r := by
  induction es with
  | nil => exact absurd rfl hne
  | cons e es ih =>
    cases es with
    | nil => simp [jsJoin]
    | cons e' es =>
      have ih' := ih (by simp)
      simp only [jsJoin, indentSep, List.append_assoc, List.cons_append, List.map_cons,
        List.flatten_cons, List.nil_append] at ih' ⊢
      rw [ih']

theorem dropWhile_of_hasInk (X : Str) (h : hasInk X = true) :
    ∃ c H, X.dropWhile isWhiteSpace = c :: H ∧ isWhiteSpace c = false := by
  cases hd : X.dropWhile isWhiteSpace with
  | nil =>
    rw [List.dropWhile_eq_nil_iff] at hd
    simp only [hasInk, List.any_eq_true, Bool.not_eq_true'] at h
    obtain ⟨c, hc, hw⟩ := h
    rw [hd c hc] at hw
    exact Bool.noConfusion hw
  | cons c H =>
    refine ⟨c, H, rfl, ?_⟩
    have := List.head_dropWhile_not isWhiteSpace X (by rw [hd]; simp)
    simpa [hd] using this

/-- A `source` template with one array substitution between lines indented
by two spaces: the result is the opening lines, the entries, each on lines of
its own, and the closing lines, every line without the first `n` characters,
for some `n` up to two. -/
theorem section_chunks (P0 S0 : Str) (entries : List Str) (hne : entries ≠ [])
    (hti : trailingIndent (P0 ++ [10] ++ lit "  ") = some (indentSep 2))
    (hK : 2 ∈ indentMatchesAux (some (0, false)) (P0 ++ [10]))
    (fH : ∀ n, n ≤ 2 → hasInk (unindent n (P0 ++ [10])) = true)
    (fT : ∀ n, n ≤ 2 → hasInk (unindent n S0) = true) :
    ∃ n, n ≤ 2 ∧ source [P0 ++ [10] ++ lit "  ", 10 :: S0] [.arr entries] =
      (unindent n (P0 ++ [10])).dropWhile isWhiteSpace ++
        ((entries.map (fun e => unindent n (lit "  " ++ e ++ [10]))).flatten ++
          ((unindent n S0).reverse.dropWhile isWhiteSpace).reverse) := by
  have hsp : lit "  " = List.replicate 2 32 := by decide
  have hraw : templateText (fun e r => inlineArrayTransformer (splitStringTransformer e) r)
      [P0 ++ [10] ++ lit "  ", 10 :: S0] [.arr entries] =
      (P0 ++ [10]) ++ (((entries.map (fun e => lit "  " ++ e)).map (fun c => c ++ [10])).flatten ++
        S0) := by
    rw [source_raw _ _ 2 _ hti, List.append_assoc (P0 ++ [10]), hsp, join_chunks 2 entries S0 hne]
  have hle : minIndent (indentMatches ((P0 ++ [10]) ++
      (((entries.map (fun e => lit "  " ++ e)).map (fun c => c ++ [10])).flatten ++ S0))) ≤ 2 := by
    apply minIndent_le_of_mem
    rw [indentMatches, indentMatchesAux_append]
    exact List.mem_append_left _ hK
  refine ⟨_, hle, ?_⟩
  unfold source
  rw [hraw, stripIndentTransformer_eq_unindent]
  generalize minIndent (indentMatches ((P0 ++ [10]) ++
      (((entries.map (fun e => lit "  " ++ e)).map (fun c => c ++ [10])).flatten ++ S0))) = n at hle
  obtain ⟨c, H, hH, hc⟩ := dropWhile_of_hasInk _ (fH n hle)
  have e1 : (P0 ++ [10]) ++
      (((entries.map (fun e => lit "  " ++ e)).map (fun c => c ++ [10])).flatten ++ S0) =
      P0 ++ 10 ::
        (((entries.map (fun e => lit "  " ++ e)).map (fun c => c ++ [10])).flatten ++ S0) := by
    simp
  have e3 : (entries.map ((fun c => unindent n (c ++ [10])) ∘ fun e => lit "  " ++ e)) =
      entries.map (fun e => unindent n (lit "  " ++ e ++ [10])) :=
    List.map_congr_left (fun e _ => rfl)
  rw [e1, unindent_append_lf, unindent_chunks, List.map_map, e3, hH]
  unfold trimResultTransformer
  have hX := List.takeWhile_append_dropWhile isWhiteSpace (unindent n (P0 ++ [10]))
  rw [hH] at hX
  have e2 : unindent n (P0 ++ [10]) ++
      ((entries.map (fun e => unindent n (lit "  " ++ e ++ [10]))).flatten ++ unindent n S0) =
      (unindent n (P0 ++ [10])).takeWhile isWhiteSpace ++ ([c] ++ ((H ++
        (entries.map (fun e => unindent n (lit "  " ++ e ++ [10]))).flatten) ++
          unindent n S0)) := by
    nth_rewrite 1 [← hX]
    simp
  have hws : ((unindent n (P0 ++ [10])).takeWhile isWhiteSpace).dropWhile isWhiteSpace = [] := by
    rw [List.dropWhile_eq_nil_iff]
    intro x hx
    exact List.mem_takeWhile_imp hx
  rw [e2, jsTrim_keeps _ [c] _ (by intro d hd; simp at hd; subst hd; exact hc)
    (by intro d hd; simp at hd; subst hd; exact hc) (by simp),
    trimEnd_append _ _ (fT n hle), hws]
  simp

/-- A line that holds an entry after two spaces, the entry beginning with
`\cventry`: without the first `n` characters of every line, for `n` up to two,
it begins with `\cventry` after the spaces that are left. -/
theorem chunk_start (n : Nat) (hn : n ≤ 2) (E : Str)
    (hE : countOcc (lit "\\cventry") E = 0) :
    ∃ r, unindent n (lit "  " ++ (lit "\\cventry" ++ E) ++ [10]) =
        List.replicate (2 - n) 32 ++ (lit "\\cventry" ++ r) ∧
      countOcc (lit "\\cventry") r = 0 := by
  have hz : countOcc (lit "\\cventry") (E ++ [10]) = 0 := by
    rw [countOcc_split _ _ _ 10 (by decide) (by decide), hE]
    rfl
  have e : lit "  " ++ (lit "\\cventry" ++ E) ++ [10] = lit "  \\cventry" ++ (E ++ [10]) := by
    have : lit "  \\cventry" = lit "  " ++ lit "\\cventry" := by decide
    rw [this]
    simp
  rw [e]
  unfold unindent
  interval_cases n
  · refine ⟨E ++ [10], ?_, hz⟩
    have : lit "  \\cventry" = List.replicate 2 32 ++ lit "\\cventry" := by decide
    simp [this]
  · refine ⟨stripAux 1 0 false (E ++ [10]), ?_, ?_⟩
    · simp only [ne_eq, one_ne_zero, not_false_eq_true, if_true]
      rw [stripAux_append _ _ _ _ _ (by decide),
        show stripEnd 1 0 true (lit "  \\cventry") = (0, false) from by decide,
        show stripAux 1 0 true (lit "  \\cventry") =
          List.replicate (2 - 1) 32 ++ lit "\\cventry" from by decide]
      simp
    · have := countOcc_stripAux_le (lit "\\cventry") 1 0 false (E ++ [10]) (by decide) (by decide)
      omega
  · refine ⟨stripAux 2 0 false (E ++ [10]), ?_, ?_⟩
    · simp only [ne_eq, OfNat.ofNat_ne_zero, not_false_eq_true, if_true]
      rw [stripAux_append _ _ _ _ _ (by decide),
        show stripEnd 2 0 true (lit "  \\cventry") = (0, false) from by decide,
        show stripAux 2 0 true (lit "  \\cventry") =
          List.replicate (2 - 2) 32 ++ lit "\\cventry" from by decide]
      simp
    · have := countOcc_stripAux_le (lit "\\cventry") 2 0 false (E ++ [10]) (by decide) (by decide)
      omega

theorem sum_map_one {α : Type} (xs : List α) (g : α → Nat) (h : ∀ x ∈ xs, g x = 1) :
    (xs.map g).sum = xs.length := by
  induction xs with
  | nil => rfl
  | cons x xs ih =>
    simp only [List.map_cons, List.sum_cons, List.length_cons, h x (by simp),
      ih (fun y hy => h y (by simp [hy]))]
    omega

/-- A section of entries that each begin with `\cventry` and hold no other
occurrence of it, between opening and closing lines that hold none: the
entries follow one another in input order, each on lines of its own, and
`\cventry` occurs once for every entry. -/
theorem section_count (P0 S0 : Str) (entries : List Str) (hne : entries ≠ [])
    (hti : trailingIndent (P0 ++ [10] ++ lit "  ") = some (indentSep 2))
    (hK : 2 ∈ indentMatchesAux (some (0, false)) (P0 ++ [10]))
    (fH : ∀ n, n ≤ 2 → hasInk (unindent n (P0 ++ [10])) = true)
    (fT : ∀ n, n ≤ 2 → hasInk (unindent n S0) = true)
    (hP : countOcc (lit "\\cventry") (P0 ++ [10]) = 0)
    (hS : countOcc (lit "\\cventry") S0 = 0)
    (hent : ∀ e ∈ entries, ∃ E, e = lit "\\cventry" ++ E ∧ countOcc (lit "\\cventry") E = 0) :
    countOcc (lit "\\cventry") (source [P0 ++ [10] ++ lit "  ", 10 :: S0] [.arr entries]) =
        entries.length ∧
      ∃ n head tail, n ≤ 2 ∧
        source [P0 ++ [10] ++ lit "  ", 10 :: S0] [.arr entries] =
          head ++ ((entries.map (fun e => unindent n (lit "  " ++ e ++ [10]))).flatten ++ tail) ∧
        countOcc (lit "\\cventry") head = 0 ∧ countOcc (lit "\\cventry") tail = 0 ∧
        ∀ e ∈ entries, ∃ r, unindent n (lit "  " ++ e ++ [10]) =
            List.replicate (2 - n) 32 ++ (lit "\\cventry" ++ r) ∧
          countOcc (lit "\\cventry") r = 0 := by
  obtain ⟨n, hn, hsrc⟩ := section_chunks P0 S0 entries hne hti hK fH fT
  obtain ⟨c, H, hH, hc⟩ := dropWhile_of_hasInk _ (fH n hn)
  have hX := List.takeWhile_append_dropWhile isWhiteSpace (unindent n (P0 ++ [10]))
  have hhead : countOcc (lit "\\cventry") ((unindent n (P0 ++ [10])).dropWhile isWhiteSpace) =
      0 := by
    have h1 := countOcc_unindent_le (lit "\\cventry") n (P0 ++ [10]) (by decide) (by decide)
    have h2 := countOcc_append_left_le (lit "\\cventry")
      ((unindent n (P0 ++ [10])).takeWhile isWhiteSpace)
      ((unindent n (P0 ++ [10])).dropWhile isWhiteSpace)
    rw [hX] at h2
    omega
  have hlast : ((unindent n (P0 ++ [10])).dropWhile isWhiteSpace).getLast? = some 10 := by
    have := unindent_getLast n P0
    rw [← hX, List.getLast?_append, hH] at this
    rw [hH]
    cases hl : (c :: H).getLast? with
    | none => simp at hl
    | some d =>
      rw [hl] at this
      simpa [Option.or] using this
  have htail : countOcc (lit "\\cventry")
      ((unindent n S0).reverse.dropWhile isWhiteSpace).reverse = 0 := by
    have h1 := countOcc_trimEnd_le (lit "\\cventry") (unindent n S0)
    have h2 := countOcc_unindent_le (lit "\\cventry") n S0 (by decide) (by decide)
    omega
  have hchunk : ∀ e ∈ entries, ∃ r, unindent n (lit "  " ++ e ++ [10]) =
        List.replicate (2 - n) 32 ++ (lit "\\cventry" ++ r) ∧
      countOcc (lit "\\cventry") r = 0 := by
    intro e he
    obtain ⟨E, rfl, hE⟩ := hent e he
    exact chunk_start n hn E hE
  have hone : ∀ x ∈ entries.map (fun e => unindent n (lit "  " ++ e ++ [10])),
      countOcc (lit "\\cventry") x = 1 := by
    intro x hx
    simp only [List.mem_map] at hx
    obtain ⟨e, he, rfl⟩ := hx
    obtain ⟨r, hr, hz⟩ := hchunk e he
    rw [hr, countOcc_replicate_append _ _ _ (by decide) (by decide), countOcc_cventry_self, hz]
  have hends : ∀ x ∈ entries.map (fun e => unindent n (lit "  " ++ e ++ [10])),
      x.getLast? = some 10 := by
    intro x hx
    simp only [List.mem_map] at hx
    obtain ⟨e, -, rfl⟩ := hx
    exact unindent_getLast n _
  refine ⟨?_, n, _, _, hn, hsrc, hhead, htail, hchunk⟩
  rw [hsrc, countOcc_append_lf _ _ _ (by decide) (by decide) hlast,
    countOcc_flatten_lf _ _ _ (by decide) (by decide) hends, hhead, htail,
    sum_map_one _ _ hone]
  simp

theorem educationEntry_start (s : School) (h : s.freeOf (lit "\\cventry") = true) :
    ∃ E, educationEntry s = lit "\\cventry" ++ E ∧ countOcc (lit "\\cventry") E = 0 := by
  obtain ⟨c1, c2, c3, c4, c5⟩ := educationArgs_free s h
  exact cventry_entry _ _ _ _ _ c1 c2 c3 c4 c5

theorem experienceEntryText_start (j : Job) (h : j.freeOf (lit "\\cventry") = true) :
    ∃ E, experienceEntryText j = lit "\\cventry" ++ E ∧ countOcc (lit "\\cventry") E = 0 := by
  obtain ⟨c1, c2, c3, c4, c5⟩ := experienceArgs_free j h
  exact cventry_entry _ _ _ _ _ c1 c2 c3 c4 c5

/-- The education section of at least one entry, `\cventry` occurring in no
field. -/
theorem educationText_count (es : List School) (hne : es ≠ [])
    (h : ∀ s ∈ es, s.freeOf (lit "\\cventry") = true) :
    countOcc (lit "\\cventry") (educationText es) = es.length ∧
      ∃ n head tail, n ≤ 2 ∧
        educationText es = head ++
          ((es.map (fun s => unindent n (lit "  " ++ educationEntry s ++ [10]))).flatten ++ tail) ∧
        countOcc (lit "\\cventry") head = 0 ∧ countOcc (lit "\\cventry") tail = 0 ∧
        ∀ s ∈ es, ∃ r, unindent n (lit "  " ++ educationEntry s ++ [10]) =
            List.replicate (2 - n) 32 ++ (lit "\\cventry" ++ r) ∧
          countOcc (lit "\\cventry") r = 0 := by
  have eP : lit "\n  %%%%%%%%%%%%%%%%%%%%%%%%%%%%%%%%%%%%%%\n  %     Education\n  %%%%%%%%%%%%%%%%%%%%%%%%%%%%%%%%%%%%%%\n  \\cvsection\x7bEducation\x7d\n  \\begin\x7bcventries\x7d\n  " =
      lit "\n  %%%%%%%%%%%%%%%%%%%%%%%%%%%%%%%%%%%%%%\n  %     Education\n  %%%%%%%%%%%%%%%%%%%%%%%%%%%%%%%%%%%%%%\n  \\cvsection\x7bEducation\x7d\n  \\begin\x7bcventries\x7d" ++
        [10] ++ lit "  " := by decide
  have eS : lit "\n  \\end\x7bcventries\x7d\n\n  \\vspace\x7b-2mm\x7d\n  " =
      10 :: lit "  \\end\x7bcventries\x7d\n\n  \\vspace\x7b-2mm\x7d\n  " := by decide
  have key := section_count
    (lit "\n  %%%%%%%%%%%%%%%%%%%%%%%%%%%%%%%%%%%%%%\n  %     Education\n  %%%%%%%%%%%%%%%%%%%%%%%%%%%%%%%%%%%%%%\n  \\cvsection\x7bEducation\x7d\n  \\begin\x7bcventries\x7d")
    (lit "  \\end\x7bcventries\x7d\n\n  \\vspace\x7b-2mm\x7d\n  ") (es.map educationEntry)
    (by simpa using hne) (by decide) (by decide)
    (by intro n hn; interval_cases n <;> decide!)
    (by intro n hn; interval_cases n <;> decide!)
    (by decide!) (by decide!)
    (by
      intro e he
      simp only [List.mem_map] at he
      obtain ⟨s, hs, rfl⟩ := he
      exact educationEntry_start s (h s hs))
  unfold educationText
  rw [eP, eS]
  simpa [List.map_map, Function.comp] using key

/-- The experience section of at least one entry, `\cventry` occurring in no
field and in no highlight. -/
theorem experienceText_count (js : List Job) (hne : js ≠ [])
    (h : ∀ j ∈ js, j.freeOf (lit "\\cventry") = true) :
    countOcc (lit "\\cventry") (experienceText js) = js.length ∧
      ∃ n head tail, n ≤ 2 ∧
        experienceText js = head ++
          ((js.map (fun j => unindent n (lit "  " ++ experienceEntryText j ++ [10]))).flatten ++
            tail) ∧
        countOcc (lit "\\cventry") head = 0 ∧ countOcc (lit "\\cventry") tail = 0 ∧
        ∀ j ∈ js, ∃ r, unindent n (lit "  " ++ experienceEntryText j ++ [10]) =
            List.replicate (2 - n) 32 ++ (lit "\\cventry" ++ r) ∧
          countOcc (lit "\\cventry") r = 0 := by
  have eP : lit "\n  %%%%%%%%%%%%%%%%%%%%%%%%%%%%%%%%%%%%%%\n  %     Experience\n  %%%%%%%%%%%%%%%%%%%%%%%%%%%%%%%%%%%%%%\n  \\cvsection\x7bExperience\x7d\n  \\begin\x7bcventries\x7d\n  " =
      lit "\n  %%%%%%%%%%%%%%%%%%%%%%%%%%%%%%%%%%%%%%\n  %     Experience\n  %%%%%%%%%%%%%%%%%%%%%%%%%%%%%%%%%%%%%%\n  \\cvsection\x7bExperience\x7d\n  \\begin\x7bcventries\x7d" ++
        [10] ++ lit "  " := by decide
  have eS : lit "\n  \\end\x7bcventries\x7d\n  " = 10 :: lit "  \\end\x7bcventries\x7d\n  " := by
    decide
  have key := section_count
    (lit "\n  %%%%%%%%%%%%%%%%%%%%%%%%%%%%%%%%%%%%%%\n  %     Experience\n  %%%%%%%%%%%%%%%%%%%%%%%%%%%%%%%%%%%%%%\n  \\cvsection\x7bExperience\x7d\n  \\begin\x7bcventries\x7d")
    (lit "  \\end\x7bcventries\x7d\n  ") (js.map experienceEntryText)
    (by simpa using hne) (by decide) (by decide)
    (by intro n hn; interval_cases n <;> decide!)
    (by intro n hn; interval_cases n <;> decide!)
    (by decide!) (by decide!)
    (by
      intro e he
      simp only [List.mem_map] at he
      obtain ⟨j, hj, rfl⟩ := he
      exact experienceEntryText_start j (h j hj))
  unfold experienceText
  rw [eP, eS]
  simpa [List.map_map, Function.comp] using key

/-- The education entry of a school whose fields hold no line terminator:
`\cventry` followed by its five arguments, each between braces on a line of
its own after two spaces. -/
theorem educationEntry_oneLine (school : School) (h : school.oneLine = true) :
    educationEntry school = macroCall 2 (lit "\\cventry")
      [(degreeLine school).toStr, school.institution.getD [], school.location.getD [],
        (educationDateRange school).toStr,
        if truthy school.gpa then lit "GPA: " ++ (ofOpt school.gpa).toStr else []] := by
  obtain ⟨l1, l2, l3, l4, l5⟩ := educationArgs_oneLine school h
  rw [educationEntry, educationArgs, cventry_closed _ _ _ _ _ l1 l2 l3 l4 l5]
  have e : lit "\\cventry\n  \x7b" = lit "\\cventry" ++ lit "\n  \x7b" := by decide
  rw [e, List.append_assoc, macroCall_five]
  simp only [toStr_str, orEmpty_eq_getD]

theorem truthy_some_ne_nil (s : Str) (h : s ≠ []) : truthy (some s) = true := by
  cases s with
  | nil => exact absurd rfl h
  | cons c cs => rfl

/-! ## The claims -/

/-- C1 (the code departs from the claim).  For the record whose `skills` is
absent and whose `projects` is the one project named `P`, the document
`template2` returns has a Skills section (one table row, built from the
project) where the skills fragment belongs, and the empty string where the
projects fragment belongs: the skills builder was applied to
`record.projects` and the projects builder to `record.skills`. -/
theorem C1_skills_builder_receives_projects (w : Str) :
    template2 w oneProject = .ok
        (documentText [] [] []
          (lit "\\cvsection\x7bSkills\x7d\n\\begin\x7bcventries\x7d\n\\cventry\n\x7b\x7d\n\x7b\\def\\arraystretch\x7b1.15\x7d\x7b\\begin\x7btabular\x7d\x7b l l \x7d\nP:  & \x7b\\skill\x7b \x7d\x7d \\\\\n\\end\x7btabular\x7d\x7d\x7d\n\x7b\x7d\n\x7b\x7d\n\x7b\x7d\n\\end\x7bcventries\x7d\n\n\\vspace\x7b-7mm\x7d")
          [] [] w) ∧
      generateSkillsSection oneProject.skills = .ok [] ∧
      generateProjectsSection oneProject.projects = .ok
        (lit "\\cvsection\x7bProjects\x7d\n  \\begin\x7bcventries\x7d\n  \\cventry\n  \x7b\x7d\n  \x7bP\x7d\n  \x7b\x7d\n  \x7b\x7d\n  \x7b\x7d\n\n\\vspace\x7b-5mm\x7d\n  \\end\x7bcventries\x7d") := by
  refine ⟨?_, by decide!, by decide!⟩
  rw [template2_eq, template2Text]
  have h : fragment skillsText (oneProject.projects.map (List.map Project.asSkill)) =
      lit "\\cvsection\x7bSkills\x7d\n\\begin\x7bcventries\x7d\n\\cventry\n\x7b\x7d\n\x7b\\def\\arraystretch\x7b1.15\x7d\x7b\\begin\x7btabular\x7d\x7b l l \x7d\nP:  & \x7b\\skill\x7b \x7d\x7d \\\\\n\\end\x7btabular\x7d\x7d\x7d\n\x7b\x7d\n\x7b\x7d\n\x7b\x7d\n\\end\x7bcventries\x7d\n\n\\vspace\x7b-7mm\x7d" := by
    decide!
  rw [h]
  rfl

/-- C2 (the code departs from the claim).  An education entry with neither
`startDate` nor `endDate` has the text `undefined` as the fourth argument of
its `\cventry`, not the empty argument; the experience entry, which writes
`dateRange || ''`, has the empty fourth argument for the same input. -/
theorem C2_education_date_range_undefined :
    educationEntry { institution := some (lit "MIT") } =
        lit "\\cventry\n  \x7b\x7d\n  \x7bMIT\x7d\n  \x7b\x7d\n  \x7bundefined\x7d\n  \x7b\x7d" ∧
      experienceEntry { company := some (lit "MIT") } =
        .ok (lit "\\cventry\n  \x7b\x7d\n  \x7bMIT\x7d\n  \x7b\x7d\n  \x7b\x7d\n  \x7b\x7d") := by
  constructor <;> decide!

/-- C3 (amended).  For an education entry whose fields hold no line
terminator, the rendered entry is `\cventry` followed by five arguments, each
between braces on a line of its own, and the fourth argument is the date
range: `startDate – endDate` when both are present and non-empty;
`startDate – Present` when `startDate` is present and non-empty and `endDate`
is absent or empty; the `endDate` value when `endDate` is present and
non-empty and `startDate` is absent or empty.  The other arguments are the
degree line, the institution, the location and the GPA line.  A start date
`2020` with no end date is rendered as `2020 – Present`. -/
theorem C3_education_date_range (school : School) (h : school.oneLine = true) :
    (∀ s e : Str, school.startDate = some s → school.endDate = some e → s ≠ [] → e ≠ [] →
        educationEntry school = macroCall 2 (lit "\\cventry")
          [(degreeLine school).toStr, school.institution.getD [], school.location.getD [],
            s ++ lit " – " ++ e,
            if truthy school.gpa then lit "GPA: " ++ (ofOpt school.gpa).toStr else []]) ∧
      (∀ s : Str, school.startDate = some s → s ≠ [] → truthy school.endDate = false →
        educationEntry school = macroCall 2 (lit "\\cventry")
          [(degreeLine school).toStr, school.institution.getD [], school.location.getD [],
            s ++ lit " – Present",
            if truthy school.gpa then lit "GPA: " ++ (ofOpt school.gpa).toStr else []]) ∧
      (∀ e : Str, truthy school.startDate = false → school.endDate = some e → e ≠ [] →
        educationEntry school = macroCall 2 (lit "\\cventry")
          [(degreeLine school).toStr, school.institution.getD [], school.location.getD [],
            e,
            if truthy school.gpa then lit "GPA: " ++ (ofOpt school.gpa).toStr else []]) ∧
      macroCall 2 (lit "\\cventry")
          [lit "BSc", lit "MIT", lit "Boston", lit "2020" ++ lit " – " ++ lit "2024", lit "GPA: 4"] =
        lit "\\cventry\n  \x7bBSc\x7d\n  \x7bMIT\x7d\n  \x7bBoston\x7d\n  \x7b2020 – 2024\x7d\n  \x7bGPA: 4\x7d" ∧
      educationEntry { startDate := some (lit "2020") } =
        lit "\\cventry\n  \x7b\x7d\n  \x7b\x7d\n  \x7b\x7d\n  \x7b2020 – Present\x7d\n  \x7b\x7d" := by
  refine ⟨?_, ?_, ?_, by decide, by decide!⟩
  · intro s e hs he hs0 he0
    have d : educationDateRange school = .str (s ++ lit " – " ++ e) := by
      simp [educationDateRange, hs, he, truthy_some_ne_nil s hs0, truthy_some_ne_nil e he0,
        ofOpt, JSVal.toStr]
    rw [educationEntry_oneLine school h, d, toStr_str]
  · intro s hs hs0 he
    have d : educationDateRange school = .str (s ++ lit " – Present") := by
      simp [educationDateRange, hs, he, truthy_some_ne_nil s hs0, ofOpt, JSVal.toStr]
    rw [educationEntry_oneLine school h, d, toStr_str]
  · intro e hs he he0
    have d : educationDateRange school = .str e := by
      simp [educationDateRange, hs, he, ofOpt]
    rw [educationEntry_oneLine school h, d, toStr_str]

theorem C3_education_date_range_witness :
    educationEntry { institution := some (lit "MIT"), startDate := some (lit "2020"), endDate := some (lit "2024") } =
        lit "\\cventry\n  \x7b\x7d\n  \x7bMIT\x7d\n  \x7b\x7d\n  \x7b2020 – 2024\x7d\n  \x7b\x7d" ∧
      educationEntry { institution := some (lit "MIT"), startDate := some (lit "2020"), endDate := some [] } =
        lit "\\cventry\n  \x7b\x7d\n  \x7bMIT\x7d\n  \x7b\x7d\n  \x7b2020 – Present\x7d\n  \x7b\x7d" ∧
      educationEntry { institution := some (lit "MIT"), endDate := some (lit "2024") } =
        lit "\\cventry\n  \x7b\x7d\n  \x7bMIT\x7d\n  \x7b\x7d\n  \x7b2024\x7d\n  \x7b\x7d" :=
  ⟨((C3_education_date_range
      { institution := some (lit "MIT"), startDate := some (lit "2020"), endDate := some (lit "2024") }
      (by decide)).1 (lit "2020") (lit "2024") rfl rfl (by decide) (by decide)).trans (by decide!),
    ((C3_education_date_range
      { institution := some (lit "MIT"), startDate := some (lit "2020"), endDate := some [] }
      (by decide)).2.1 (lit "2020") rfl (by decide) rfl).trans (by decide!),
    ((C3_education_date_range { institution := some (lit "MIT"), endDate := some (lit "2024") }
      (by decide)).2.2.1 (lit "2024") rfl rfl (by decide)).trans (by decide!)⟩

/-- C3, counterexample.  The education entry whose start date is `2020`, line
feed, space, `x` and whose end date is `2021` is not rendered with
`startDate – endDate` as an argument: one character of indentation is removed
from every line of the entry, which removes the space inside the start date,
and the fourth argument is `2020`, line feed, `x – 2021`. -/
theorem C3_counterexample :
    educationEntry { startDate := some (lit "2020\n x"), endDate := some (lit "2021") } =
        lit "\\cventry\n       \x7b\x7d\n       \x7b\x7d\n       \x7b\x7d\n       \x7b2020\nx – 2021\x7d\n       \x7b\x7d" ∧
      occursIn (lit "\x7b" ++ (lit "2020\n x" ++ lit " – " ++ lit "2021") ++ lit "\x7d")
        (educationEntry { startDate := some (lit "2020\n x"), endDate := some (lit "2021") }) =
        false := by
  constructor <;> decide!

/-- C4.  For a non-empty name the name line carries, in the first-name
marker, the part of the name before its first space and, in the last-name
marker, everything after that space, which is the remaining tokens of
`name.split(' ')` joined with single spaces; a name without a space gives the
whole name and the empty string.  `Jane Doe` gives `Jane` and `Doe`, `Madonna`
gives `Madonna` and the empty string.  An absent or empty name gives the empty
name line, hence no marker. -/
theorem C4_name_split (nm : Str) (h : nm ≠ []) :
    nameLine (some nm) = .ok (lit "\\headerfirstnamestyle\x7b" ++
        nm.takeWhile (fun c => c != 32) ++ lit "\x7d \\headerlastnamestyle\x7b" ++
        (nm.dropWhile (fun c => c != 32)).drop 1 ++ lit "\x7d \\\\") ∧
      (nm.dropWhile (fun c => c != 32)).drop 1 = jsJoin [32] ((jsSplit 32 nm).drop 1) ∧
      (32 ∉ nm → nm.takeWhile (fun c => c != 32) = nm ∧
        (nm.dropWhile (fun c => c != 32)).drop 1 = []) ∧
      nameLine (some (lit "Jane Doe")) = .ok (lit
        "\\headerfirstnamestyle\x7bJane\x7d \\headerlastnamestyle\x7bDoe\x7d \\\\") ∧
      nameLine (some (lit "Madonna")) = .ok (lit
        "\\headerfirstnamestyle\x7bMadonna\x7d \\headerlastnamestyle\x7b\x7d \\\\") ∧
      nameLine none = .ok [] ∧ nameLine (some []) = .ok [] ∧
      generateProfileSection (some {}) = .ok (lit
        "%%%%%%%%%%%%%%%%%%%%%%%%%%%%%%%%%%%%%%\n%     Profile\n%%%%%%%%%%%%%%%%%%%%%%%%%%%%%%%%%%%%%%\n\\begin\x7bcenter\x7d\n\n\\vspace\x7b2mm\x7d\n\n\\end\x7bcenter\x7d") := by
  have htail : (nm.dropWhile (fun c => c != 32)).drop 1 = jsJoin [32] ((jsSplit 32 nm).drop 1) := by
    rw [List.drop_one (jsSplit 32 nm), jsSplit_tail]
  refine ⟨?_, htail, ?_, by decide!, by decide!, rfl, rfl, by decide!⟩
  · rw [nameLine_eq]
    have hne : nm.isEmpty = false := by
      cases nm with
      | nil => exact absurd rfl h
      | cons c cs => rfl
    simp only [nameLineText, hne, Bool.false_eq_true, if_false, nameTokens, jsSplit_head, ofOpt,
      JSVal.toStr]
    by_cases h1 : (jsSplit 32 nm).length = 1
    · have h32 : 32 ∉ nm := (jsSplit_length_eq_one 32 nm).mp h1
      have hd : nm.dropWhile (fun c => c != 32) = [] := by
        rw [List.dropWhile_eq_nil_iff]
        intro x hx
        have : x ≠ 32 := fun e => h32 (e ▸ hx)
        simpa using this
      simp [h1, hd]
    · simp only [h1, if_false, jsSlice, List.take_length]
      rw [htail]
  · intro h32
    have hall : ∀ x ∈ nm, (fun c => c != 32) x = true := by
      intro x hx
      have : x ≠ 32 := fun e => h32 (e ▸ hx)
      simpa using this
    constructor
    · exact List.takeWhile_eq_self_iff.mpr hall
    · rw [List.dropWhile_eq_nil_iff.mpr hall]
      rfl

theorem C4_name_split_witness :
    nameLine (some (lit "Ada Lovelace King")) = .ok (lit "\\headerfirstnamestyle\x7b" ++
        (lit "Ada Lovelace King").takeWhile (fun c => c != 32) ++
        lit "\x7d \\headerlastnamestyle\x7b" ++
        ((lit "Ada Lovelace King").dropWhile (fun c => c != 32)).drop 1 ++ lit "\x7d \\\\") ∧
      ((lit "Ada Lovelace King").dropWhile (fun c => c != 32)).drop 1 = lit "Lovelace King" ∧
      (lit "Cher").takeWhile (fun c => c != 32) = lit "Cher" :=
  ⟨(C4_name_split (lit "Ada Lovelace King") (by decide)).1, by decide,
    ((C4_name_split (lit "Cher") (by decide)).2.2.1 (by decide)).1⟩

/-- C5.  The contact line is the tokens of email, phone, address and website,
in that order, of the fields that are present and non-empty, each wrapped in
its icon marker, joined with ` | `.  There are as many tokens as present
fields; every token begins with an opening and ends with a closing brace, so
with `k` tokens the join adds `k - 1` separators of three characters, the line
is empty exactly when `k = 0`, and otherwise begins and ends with a brace. -/
theorem C5_contact_line (b : Basics) :
    info b = jsJoin (lit " | ") (contactTokens b) ∧
      (contactTokens b).length =
        ([b.email, b.phone, b.location.bind (fun l => l.address), b.website].filter
          (fun f => truthy f)).length ∧
      (∀ t ∈ contactTokens b, t.head? = some 123 ∧ t.getLast? = some 125) ∧
      (info b).length =
        ((contactTokens b).map List.length).sum + ((contactTokens b).length - 1) * 3 ∧
      (info b).head? = (if contactTokens b = [] then none else some 123) ∧
      (info b).getLast? = (if contactTokens b = [] then none else some 125) ∧
      (info b = [] ↔ contactTokens b = []) ∧
      info { email := some (lit "a@b.c"), website := some (lit "x.y") } =
        lit "\x7b\\faEnvelope\\ a@b.c\x7d | \x7b\\faLink\\ x.y\x7d" ∧
      info {} = [] := by
  have hshape := contactTokens_shape b
  have hhead : (info b).head? = (if contactTokens b = [] then none else some 123) := by
    rw [info_eq_contactTokens]
    exact jsJoin_head _ _ 123 (fun t ht => (hshape t ht).1)
  refine ⟨info_eq_contactTokens b, ?_, hshape, ?_, hhead, ?_, ?_, by decide!, by decide!⟩
  · simp only [contactTokens]
    generalize b.location.bind (fun l => l.address) = addr
    rcases b.email with _ | _ | _ <;> rcases b.phone with _ | _ | _ <;>
      rcases addr with _ | _ | _ <;> rcases b.website with _ | _ | _ <;> simp [truthy]
  · rw [info_eq_contactTokens, jsJoin_length]
    rfl
  · rw [info_eq_contactTokens]
    exact jsJoin_getLast _ _ 125 (fun t ht => (hshape t ht).2)
  · constructor
    · intro h
      rw [h] at hhead
      by_contra hne
      simp [hne] at hhead
    · intro h
      rw [info_eq_contactTokens, h]
      rfl

/-- C6 (amended).  For highlights that contain no line terminator, the
highlights block is one `cvitems` block with one line `\item {h}` per
highlight `h`, in input order, each indented by two spaces; the empty sequence
gives the block with an empty item line; absent highlights give the empty
string.  `["Did X", "Did Y"]` gives the two items, X before Y. -/
theorem C6_highlights_block (hs : List Str) (h : ∀ x ∈ hs, noLineTerminator x = true) :
    dutyLines (some hs) = .ok (lit "\\begin\x7bcvitems\x7d\n  " ++
        (jsJoin (lit "\n  ") (hs.map (fun d => lit "\\item \x7b" ++ d ++ lit "\x7d")) ++
          lit "\n\\end\x7bcvitems\x7d")) ∧
      dutyLines (some []) = .ok (lit "\\begin\x7bcvitems\x7d\n  \n\\end\x7bcvitems\x7d") ∧
      dutyLines none = .ok [] ∧
      dutyLines (some [lit "Did X", lit "Did Y"]) = .ok (lit
        "\\begin\x7bcvitems\x7d\n  \\item \x7bDid X\x7d\n  \\item \x7bDid Y\x7d\n\\end\x7bcvitems\x7d") := by
  refine ⟨?_, by decide!, rfl, by decide!⟩
  have hsep : lit "\n  " = indentSep 2 := by decide
  rw [hsep]
  exact dutyLines_closed hs h

theorem C6_highlights_block_witness :
    dutyLines (some [lit "Led a team", lit "Shipped v2", lit "Cut costs"]) = .ok
      (lit "\\begin\x7bcvitems\x7d\n  " ++
        (jsJoin (lit "\n  ") ([lit "Led a team", lit "Shipped v2", lit "Cut costs"].map
          (fun d => lit "\\item \x7b" ++ d ++ lit "\x7d")) ++ lit "\n\\end\x7bcvitems\x7d")) :=
  (C6_highlights_block [lit "Led a team", lit "Shipped v2", lit "Cut costs"] (by decide)).1

/-- C6, counterexample.  The one highlight `a`, line feed, space, `b` is not
rendered as `\item {` ++ highlight ++ `}`: the block is stripped of one
character of indentation, which removes the space inside the highlight. -/
theorem C6_counterexample :
    dutyLines (some [lit "a\n b"]) = .ok (lit
        "\\begin\x7bcvitems\x7d\n         \\item \x7ba\nb\x7d\n       \\end\x7bcvitems\x7d") ∧
      occursIn (lit "\\item \x7b" ++ lit "a\n b" ++ lit "\x7d") (lit
        "\\begin\x7bcvitems\x7d\n         \\item \x7ba\nb\x7d\n       \\end\x7bcvitems\x7d") = false := by
  constructor <;> decide!

/-- C7.  `template2` returns a string for every record and every value of
the placeholder constant, and so does each of the six builders for every
input, absent or present: no property read of `undefined` is reached. -/
theorem C7_template2_total (w : Str) (values : SanitizedValues) :
    (∃ s, template2 w values = .ok s) ∧
      (∃ s, generateProfileSection values.basics = .ok s) ∧
      (∃ s, generateEducationSection values.education = .ok s) ∧
      (∃ s, generateExperienceSection values.work = .ok s) ∧
      (∃ s, generateSkillsSection values.skills = .ok s) ∧
      (∃ s, generateProjectsSection values.projects = .ok s) ∧
      (∃ s, generateAwardsSection values.awards = .ok s) :=
  ⟨⟨_, template2_eq w values⟩, ⟨_, generateProfileSection_eq _⟩,
    ⟨_, generateEducationSection_eq _⟩, ⟨_, generateExperienceSection_eq _⟩,
    ⟨_, generateSkillsSection_eq _⟩, ⟨_, generateProjectsSection_eq _⟩,
    ⟨_, generateAwardsSection_eq _⟩⟩

/-- C8.  Each of the six content builders returns the empty string for an
absent input and a non-empty fragment for a present one, whatever the input
holds: an empty sequence and a `basics` object without fields included. -/
theorem C8_builders_empty_iff_absent :
    (generateProfileSection none = .ok [] ∧
      ∀ b, ∃ s, generateProfileSection (some b) = .ok s ∧ s ≠ []) ∧
    (generateEducationSection none = .ok [] ∧
      ∀ xs, ∃ s, generateEducationSection (some xs) = .ok s ∧ s ≠ []) ∧
    (generateExperienceSection none = .ok [] ∧
      ∀ xs, ∃ s, generateExperienceSection (some xs) = .ok s ∧ s ≠ []) ∧
    (generateSkillsSection none = .ok [] ∧
      ∀ xs, ∃ s, generateSkillsSection (some xs) = .ok s ∧ s ≠ []) ∧
    (generateProjectsSection none = .ok [] ∧
      ∀ xs, ∃ s, generateProjectsSection (some xs) = .ok s ∧ s ≠ []) ∧
    (generateAwardsSection none = .ok [] ∧
      ∀ xs, ∃ s, generateAwardsSection (some xs) = .ok s ∧ s ≠ []) := by
  have hpercent : isWhiteSpace 37 = false := by decide
  have hback : isWhiteSpace 92 = false := by decide
  refine ⟨⟨rfl, fun b => ⟨_, generateProfileSection_some b, ?_⟩⟩,
    ⟨rfl, fun xs => ⟨_, generateEducationSection_some xs, ?_⟩⟩,
    ⟨rfl, fun xs => ⟨_, generateExperienceSection_some xs, ?_⟩⟩,
    ⟨rfl, fun xs => ⟨_, generateSkillsSection_some xs, ?_⟩⟩,
    ⟨rfl, fun xs => ⟨_, generateProjectsSection_some xs, ?_⟩⟩,
    ⟨rfl, fun xs => ⟨_, generateAwardsSection_some xs, ?_⟩⟩⟩
  · exact tag_ne_nil _ _ _ _ 4 37 (by decide!) (by decide!) hpercent
  · exact tag_ne_nil _ _ _ _ 2 37 (by decide!) (by decide!) hpercent
  · exact tag_ne_nil _ _ _ _ 2 37 (by decide!) (by decide!) hpercent
  · exact tag_ne_nil _ _ _ _ 2 92 (by decide!) (by decide!) hback
  · exact tag_ne_nil _ _ _ _ 2 92 (by decide!) (by decide!) hback
  · exact tag_ne_nil _ _ _ _ 2 92 (by decide!) (by decide!) hback

/-- C9.  For the record with every top-level field absent, the six fragments
are empty and the document is the header, the opening marker, six lines of
four spaces, the placeholder and the closing marker.  None of `\cvsection`,
`\cventry`, `\cvhonor`, `\begin{center}` occurs in it outside the placeholder:
each occurs in the document exactly when it occurs in the placeholder. -/
theorem C9_empty_record (w : Str) :
    template2 w {} = .ok (generateHeader ++ lit "\n    \\begin\x7bdocument\x7d" ++
        lit "\n    \n    \n    \n    \n    \n    \n    " ++ w ++
        lit "\n    \\end\x7bdocument\x7d") ∧
      generateProfileSection none = .ok [] ∧ generateEducationSection none = .ok [] ∧
      generateExperienceSection none = .ok [] ∧ generateSkillsSection none = .ok [] ∧
      generateProjectsSection none = .ok [] ∧ generateAwardsSection none = .ok [] ∧
      ∀ m ∈ bodyMarkers,
        occursIn m (generateHeader ++ lit "\n    \\begin\x7bdocument\x7d" ++
          lit "\n    \n    \n    \n    \n    \n    \n    " ++ w ++
          lit "\n    \\end\x7bdocument\x7d") = occursIn m w := by
  have hA : generateHeader ++ lit "\n    \\begin\x7bdocument\x7d" ++
      lit "\n    \n    \n    \n    \n    \n    \n    " =
      (generateHeader ++ lit "\n    \\begin\x7bdocument\x7d" ++
        lit "\n    \n    \n    \n    \n    \n    \n   ") ++ [32] := by
    have : lit "\n    \n    \n    \n    \n    \n    \n    " =
        lit "\n    \n    \n    \n    \n    \n    \n   " ++ [32] := by decide
    rw [this]
    simp only [List.append_assoc]
  have hB : lit "\n    \\end\x7bdocument\x7d" = 10 :: lit "    \\end\x7bdocument\x7d" := by
    decide
  refine ⟨?_, rfl, rfl, rfl, rfl, rfl, rfl, ?_⟩
  · rw [template2_eq]
    refine congrArg Except.ok ?_
    have h1 : lit "\n    \\begin\x7bdocument\x7d\n    " =
        lit "\n    \\begin\x7bdocument\x7d" ++ lit "\n    " := by decide
    have h2 : lit "\n    \n    \n    \n    \n    \n    \n    " =
        lit "\n    " ++ (lit "\n    " ++ (lit "\n    " ++ (lit "\n    " ++ (lit "\n    " ++
          (lit "\n    " ++ lit "\n    "))))) := by decide
    simp only [template2Text, documentText, fragment, Option.map, h1, h2, List.append_assoc,
      List.nil_append]
  · intro m hm
    rw [hA, hB]
    have key := occursIn_between m
      (generateHeader ++ lit "\n    \\begin\x7bdocument\x7d" ++
        lit "\n    \n    \n    \n    \n    \n    \n   ") w (lit "    \\end\x7bdocument\x7d") 32 10
    simp only [List.append_assoc, List.singleton_append] at key ⊢
    simp only [bodyMarkers, List.mem_cons, List.mem_singleton, List.not_mem_nil, or_false] at hm
    rcases hm with rfl | rfl | rfl | rfl
    · exact key (by decide!) (by decide!) (by decide!) (by decide!) (by decide!)
    · exact key (by decide!) (by decide!) (by decide!) (by decide!) (by decide!)
    · exact key (by decide!) (by decide!) (by decide!) (by decide!) (by decide!)
    · exact key (by decide!) (by decide!) (by decide!) (by decide!) (by decide!)

/-- C10 (amended).  When no field value, and no highlight, contains a brace
or one of the line terminators CR, U+2028, U+2029 (line feeds are allowed),
every education entry and every work entry is rendered as `\cventry` followed
by exactly five brace-delimited arguments, every project entry as `\cventry`
followed by exactly five, and every award as `\cvhonor` followed by exactly
four, whichever fields are present or absent. -/
theorem C10_fixed_arity (school : School) (job : Job) (project : Project) (award : Award)
    (hs : school.tame = true) (hj : job.tame = true) (hp : project.tame = true)
    (ha : award.tame = true) :
    macroArgs (lit "\\cventry") (educationEntry school) = some 5 ∧
      (∃ s, experienceEntry job = .ok s ∧ macroArgs (lit "\\cventry") s = some 5) ∧
      macroArgs (lit "\\cventry") (projectEntry project) = some 5 ∧
      macroArgs (lit "\\cvhonor") (awardEntry award) = some 4 := by
  refine ⟨?_, ⟨_, experienceEntry_eq job, ?_⟩, projectEntry_arity project hp,
    cvhonor_arity award ha⟩
  · obtain ⟨h1, h2, h3, h4, h5⟩ := educationArgs_tame school hs
    exact cventry_arity _ _ _ _ _ (tameText_lfOnly _ h1) (tameText_lfOnly _ h2)
      (tameText_lfOnly _ h3) (tameText_lfOnly _ h4) (tameText_lfOnly _ h5)
      (tameText_inert _ h1) (tameText_inert _ h2) (tameText_inert _ h3) (tameText_inert _ h4)
      (tameText_inert _ h5)
  · obtain ⟨h1, h2, h3, h4⟩ := experienceArgs_tame job hj
    have hh : (match job.highlights with
        | none => true
        | some hs => hs.all tameText) = true := by
      simp only [Job.tame, Bool.and_eq_true] at hj
      exact hj.2
    obtain ⟨h5, h6⟩ := dutyLinesText_tame job.highlights hh
    exact cventry_arity _ _ _ _ _ (tameText_lfOnly _ h1) (tameText_lfOnly _ h2)
      (tameText_lfOnly _ h3) (tameText_lfOnly _ h4) h5
      (tameText_inert _ h1) (tameText_inert _ h2) (tameText_inert _ h3) (tameText_inert _ h4) h6

theorem C10_fixed_arity_witness :
    macroArgs (lit "\\cventry")
        (educationEntry { institution := some (lit "MIT"), studyType := some (lit "BSc") }) =
        some 5 ∧
      (∃ s, experienceEntry { highlights := some [lit "Did X", lit "Did\n  Y"] } = .ok s ∧
        macroArgs (lit "\\cventry") s = some 5) ∧
      macroArgs (lit "\\cventry") (projectEntry { name := some (lit "P") }) = some 5 ∧
      macroArgs (lit "\\cvhonor") (awardEntry { date := some (lit "2020") }) = some 4 :=
  C10_fixed_arity { institution := some (lit "MIT"), studyType := some (lit "BSc") }
    { highlights := some [lit "Did X", lit "Did\n  Y"] }
    { name := some (lit "P") } { date := some (lit "2020") }
    (by decide) (by decide) (by decide) (by decide)

/-- C10, counterexample.  The education entry whose institution is `x`, four
carriage returns, a space and `ab` holds no brace, yet its rendering is not a
`\cventry` with five brace-delimited arguments: the removal of four characters
of indentation deletes ` ab` and the closing brace of the second argument,
and the braces that remain do not pair up. -/
theorem C10_counterexample :
    carriageReturnSchool.braceFree = true ∧
      educationEntry carriageReturnSchool = lit
        "\\cventry\n    \x7b\x7d\n    \x7bx\r\r\r\r\n    \x7b\x7d\n    \x7bundefined\x7d\n    \x7b\x7d" ∧
      macroArgs (lit "\\cventry") (educationEntry carriageReturnSchool) = none := by
  refine ⟨by decide, by decide!, by decide!⟩

/-- C11 (the code departs from the claim).  The variable `dateRange` is
computed by the same three-way rule in the education and in the experience
entry, and the two rendered texts agree whenever `startDate` is present or
`endDate` is set.  They differ when `startDate` is absent (or empty) and
`endDate` is not set: the education entry, which interpolates `dateRange`
itself, renders the text `undefined`, while the experience entry, which
interpolates `dateRange || ''`, renders the empty string. -/
theorem C11_date_range_texts_differ :
    (∀ (school : School) (job : Job), job.startDate = school.startDate →
      job.endDate = school.endDate → experienceDateRange job = educationDateRange school) ∧
    (∀ school : School, (educationArgs school).get? 3 = some (educationDateRange school)) ∧
    (∀ job : Job, experienceEntry job = .ok (stripIndent cventryStrings
      [.str (orEmpty job.position), .str (orEmpty job.company), .str (orEmpty job.location),
        jsValOrEmpty (experienceDateRange job), .str (dutyLinesText job.highlights)])) ∧
    (∀ sd ed : Option Str, truthy sd = true ∨ ed ≠ none →
      (jsValOrEmpty (experienceDateRange { startDate := sd, endDate := ed })).toStr =
        (educationDateRange { startDate := sd, endDate := ed }).toStr) ∧
    (∀ sd : Option Str, truthy sd = false →
      (educationDateRange { startDate := sd, endDate := none }).toStr = lit "undefined" ∧
      (jsValOrEmpty (experienceDateRange { startDate := sd, endDate := none })).toStr = []) ∧
    educationEntry {} =
      lit "\\cventry\n  \x7b\x7d\n  \x7b\x7d\n  \x7b\x7d\n  \x7bundefined\x7d\n  \x7b\x7d" ∧
    experienceEntry {} =
      .ok (lit "\\cventry\n  \x7b\x7d\n  \x7b\x7d\n  \x7b\x7d\n  \x7b\x7d\n  \x7b\x7d") := by
  refine ⟨?_, fun _ => rfl, experienceEntry_eq, ?_, ?_, by decide!, by decide!⟩
  · intro school job h1 h2
    simp only [experienceDateRange, educationDateRange, h1, h2]
  · intro sd ed h
    simp only [experienceDateRange, educationDateRange]
    by_cases hs : truthy sd = true
    · by_cases he : truthy ed = true
      · simp [hs, he, jsValOrEmpty]
      · simp [hs, he, jsValOrEmpty]
    · have hs' : truthy sd = false := by simpa using hs
      cases ed with
      | none => simp [hs'] at h
      | some e => simp [hs', ofOpt, jsValOrEmpty]
  · intro sd hs
    simp only [experienceDateRange, educationDateRange, hs]
    constructor <;> rfl

/-- C12.  For every record the document `template2` returns is the header,
the line `\begin{document}`, the fragments of the profile, education,
experience, skills, projects and awards builders in this order, the
`WHITESPACE` placeholder and the line `\end{document}`, each on a line of its
own.  When all six keys are present, each fragment contains its marker, so the
document has `\begin{center}`, `\cvsection{Education}`, `\cvsection{Experience}`,
`\cvsection{Skills}`, `\cvsection{Projects}` and `\cvsection{Honors \& Awards}`
in this order, each inside the fragment of its own builder, between the two
document markers, whatever the field values are.  (The skills builder is
applied to `projects` and the projects builder to `skills`, which leaves the
order of the fragments as it is.) -/
theorem C12_fragment_order (w : Str) (values : SanitizedValues) (b : Basics)
    (es : List School) (js : List Job) (sk : List Skill) (ps : List Project) (aw : List Award) :
    (∃ p e x s pr a, generateProfileSection values.basics = .ok p ∧
      generateEducationSection values.education = .ok e ∧
      generateExperienceSection values.work = .ok x ∧
      generateSkillsSection (values.projects.map (List.map Project.asSkill)) = .ok s ∧
      generateProjectsSection (values.skills.map (List.map Skill.asProject)) = .ok pr ∧
      generateAwardsSection values.awards = .ok a ∧
      template2 w values = .ok (generateHeader ++ (lit "\n    \\begin\x7bdocument\x7d\n    " ++
        (p ++ (lit "\n    " ++ (e ++ (lit "\n    " ++ (x ++ (lit "\n    " ++ (s ++ (lit "\n    " ++
          (pr ++ (lit "\n    " ++ (a ++ (lit "\n    " ++
            (w ++ lit "\n    \\end\x7bdocument\x7d")))))))))))))))) ∧
    (∃ p1 p2 e1 e2 x1 x2 s1 s2 pr1 pr2 a1 a2,
      generateProfileSection (some b) = .ok (p1 ++ (lit "\\begin\x7bcenter\x7d" ++ p2)) ∧
      generateEducationSection (some es) =
        .ok (e1 ++ (lit "\\cvsection\x7bEducation\x7d" ++ e2)) ∧
      generateExperienceSection (some js) =
        .ok (x1 ++ (lit "\\cvsection\x7bExperience\x7d" ++ x2)) ∧
      generateSkillsSection (some (ps.map Project.asSkill)) =
        .ok (s1 ++ (lit "\\cvsection\x7bSkills\x7d" ++ s2)) ∧
      generateProjectsSection (some (sk.map Skill.asProject)) =
        .ok (pr1 ++ (lit "\\cvsection\x7bProjects\x7d" ++ pr2)) ∧
      generateAwardsSection (some aw) =
        .ok (a1 ++ (lit "\\cvsection\x7bHonors \\& Awards\x7d" ++ a2)) ∧
      template2 w { basics := some b, education := some es, work := some js, projects := some ps, skills := some sk, awards := some aw } =
        .ok (generateHeader ++ (lit "\n    \\begin\x7bdocument\x7d\n    " ++
          ((p1 ++ (lit "\\begin\x7bcenter\x7d" ++ p2)) ++ (lit "\n    " ++
          ((e1 ++ (lit "\\cvsection\x7bEducation\x7d" ++ e2)) ++ (lit "\n    " ++
          ((x1 ++ (lit "\\cvsection\x7bExperience\x7d" ++ x2)) ++ (lit "\n    " ++
          ((s1 ++ (lit "\\cvsection\x7bSkills\x7d" ++ s2)) ++ (lit "\n    " ++
          ((pr1 ++ (lit "\\cvsection\x7bProjects\x7d" ++ pr2)) ++ (lit "\n    " ++
          ((a1 ++ (lit "\\cvsection\x7bHonors \\& Awards\x7d" ++ a2)) ++ (lit "\n    " ++
            (w ++ lit "\n    \\end\x7bdocument\x7d")))))))))))))))) := by
  constructor
  · exact ⟨_, _, _, _, _, _, generateProfileSection_eq _, generateEducationSection_eq _,
      generateExperienceSection_eq _, generateSkillsSection_eq _, generateProjectsSection_eq _,
      generateAwardsSection_eq _, template2_eq w values⟩
  · obtain ⟨p1, p2, hp⟩ := (occursIn_iff _ _).mp (profileText_marker b)
    obtain ⟨e1, e2, he⟩ := (occursIn_iff _ _).mp (educationText_marker es)
    obtain ⟨x1, x2, hx⟩ := (occursIn_iff _ _).mp (experienceText_marker js)
    obtain ⟨s1, s2, hs⟩ := (occursIn_iff _ _).mp (skillsText_marker (ps.map Project.asSkill))
    obtain ⟨pr1, pr2, hpr⟩ := (occursIn_iff _ _).mp (projectsText_marker (sk.map Skill.asProject))
    obtain ⟨a1, a2, ha⟩ := (occursIn_iff _ _).mp (awardsText_marker aw)
    refine ⟨p1, p2, e1, e2, x1, x2, s1, s2, pr1, pr2, a1, a2, ?_, ?_, ?_, ?_, ?_, ?_, ?_⟩
    · rw [generateProfileSection_some, hp]
    · rw [generateEducationSection_some, he]
    · rw [generateExperienceSection_some, hx]
    · rw [generateSkillsSection_some, hs]
    · rw [generateProjectsSection_some, hpr]
    · rw [generateAwardsSection_some, ha]
    · rw [template2_eq]
      refine congrArg Except.ok ?_
      simp only [template2Text, documentText, fragment, Option.map, hp, he, hx, hs, hpr, ha]

/-- C13 (amended).  For an education entry whose fields hold no line
terminator, the rendered entry is `\cventry` followed by five arguments, each
between braces on a line of its own, and the first argument is the degree
line: `studyType in area` when both are present and non-empty; `studyType`
when it is present and non-empty and `area` is absent or empty; `area` when it
is present and non-empty and `studyType` is absent or empty; the empty string
when both are absent or empty.  The other arguments are the institution, the
location, the date range and the GPA line. -/
theorem C13_degree_line (school : School) (h : school.oneLine = true) :
    (∀ s a : Str, school.studyType = some s → school.area = some a → s ≠ [] → a ≠ [] →
        educationEntry school = macroCall 2 (lit "\\cventry")
          [s ++ lit " in " ++ a, school.institution.getD [], school.location.getD [],
            (educationDateRange school).toStr,
            if truthy school.gpa then lit "GPA: " ++ (ofOpt school.gpa).toStr else []]) ∧
      (∀ s : Str, school.studyType = some s → s ≠ [] → truthy school.area = false →
        educationEntry school = macroCall 2 (lit "\\cventry")
          [s, school.institution.getD [], school.location.getD [],
            (educationDateRange school).toStr,
            if truthy school.gpa then lit "GPA: " ++ (ofOpt school.gpa).toStr else []]) ∧
      (∀ a : Str, truthy school.studyType = false → school.area = some a → a ≠ [] →
        educationEntry school = macroCall 2 (lit "\\cventry")
          [a, school.institution.getD [], school.location.getD [],
            (educationDateRange school).toStr,
            if truthy school.gpa then lit "GPA: " ++ (ofOpt school.gpa).toStr else []]) ∧
      (truthy school.studyType = false → truthy school.area = false →
        educationEntry school = macroCall 2 (lit "\\cventry")
          [[], school.institution.getD [], school.location.getD [],
            (educationDateRange school).toStr,
            if truthy school.gpa then lit "GPA: " ++ (ofOpt school.gpa).toStr else []]) ∧
      macroCall 2 (lit "\\cventry")
          [lit "BSc" ++ lit " in " ++ lit "Physics", lit "MIT", lit "Boston", lit "2020", lit "GPA: 4"] =
        lit "\\cventry\n  \x7bBSc in Physics\x7d\n  \x7bMIT\x7d\n  \x7bBoston\x7d\n  \x7b2020\x7d\n  \x7bGPA: 4\x7d" ∧
      educationEntry
          { studyType := some (lit "BSc"), area := some (lit "Physics"), endDate := some (lit "2020") } =
        lit "\\cventry\n  \x7bBSc in Physics\x7d\n  \x7b\x7d\n  \x7b\x7d\n  \x7b2020\x7d\n  \x7b\x7d" ∧
      educationEntry { area := some (lit "Physics"), endDate := some (lit "2020") } =
        lit "\\cventry\n  \x7bPhysics\x7d\n  \x7b\x7d\n  \x7b\x7d\n  \x7b2020\x7d\n  \x7b\x7d" ∧
      educationEntry { endDate := some (lit "2020") } =
        lit "\\cventry\n  \x7b\x7d\n  \x7b\x7d\n  \x7b\x7d\n  \x7b2020\x7d\n  \x7b\x7d" := by
  refine ⟨?_, ?_, ?_, ?_, by decide, by decide!, by decide!, by decide!⟩
  · intro s a hs ha hs0 ha0
    have d : degreeLine school = .str (s ++ lit " in " ++ a) := by
      simp [degreeLine, hs, ha, truthy_some_ne_nil s hs0, truthy_some_ne_nil a ha0, ofOpt,
        JSVal.toStr]
    rw [educationEntry_oneLine school h, d, toStr_str]
  · intro s hs hs0 ha
    have d : degreeLine school = .str s := by
      simp [degreeLine, hs, ha, truthy_some_ne_nil s hs0, ofOpt]
    rw [educationEntry_oneLine school h, d, toStr_str]
  · intro a hs ha ha0
    have d : degreeLine school = .str a := by
      simp [degreeLine, hs, ha, truthy_some_ne_nil a ha0, ofOpt]
    rw [educationEntry_oneLine school h, d, toStr_str]
  · intro hs ha
    have d : degreeLine school = .str [] := by
      simp [degreeLine, hs, ha]
    rw [educationEntry_oneLine school h, d, toStr_str]

theorem C13_degree_line_witness :
    educationEntry { institution := some (lit "MIT"), studyType := some (lit "BSc"), area := some (lit "Physics"), endDate := some (lit "2020") } =
        lit "\\cventry\n  \x7bBSc in Physics\x7d\n  \x7bMIT\x7d\n  \x7b\x7d\n  \x7b2020\x7d\n  \x7b\x7d" ∧
      educationEntry { institution := some (lit "MIT"), studyType := some (lit "BSc"), endDate := some (lit "2020") } =
        lit "\\cventry\n  \x7bBSc\x7d\n  \x7bMIT\x7d\n  \x7b\x7d\n  \x7b2020\x7d\n  \x7b\x7d" ∧
      educationEntry { institution := some (lit "MIT"), studyType := some [], area := some (lit "Physics"), endDate := some (lit "2020") } =
        lit "\\cventry\n  \x7bPhysics\x7d\n  \x7bMIT\x7d\n  \x7b\x7d\n  \x7b2020\x7d\n  \x7b\x7d" ∧
      educationEntry { institution := some (lit "MIT"), endDate := some (lit "2020") } =
        lit "\\cventry\n  \x7b\x7d\n  \x7bMIT\x7d\n  \x7b\x7d\n  \x7b2020\x7d\n  \x7b\x7d" :=
  ⟨((C13_degree_line
      { institution := some (lit "MIT"), studyType := some (lit "BSc"), area := some (lit "Physics"), endDate := some (lit "2020") }
      (by decide)).1 (lit "BSc") (lit "Physics") rfl rfl (by decide) (by decide)).trans
      (by decide!),
    ((C13_degree_line
      { institution := some (lit "MIT"), studyType := some (lit "BSc"), endDate := some (lit "2020") }
      (by decide)).2.1 (lit "BSc") rfl (by decide) rfl).trans (by decide!),
    ((C13_degree_line
      { institution := some (lit "MIT"), studyType := some [], area := some (lit "Physics"), endDate := some (lit "2020") }
      (by decide)).2.2.1 (lit "Physics") rfl rfl (by decide)).trans (by decide!),
    ((C13_degree_line { institution := some (lit "MIT"), endDate := some (lit "2020") }
      (by decide)).2.2.2.1 rfl rfl).trans (by decide!)⟩

/-- C13, counterexample.  The education entry whose area is `Law`, line
feed, space, `of torts` and whose study type is absent is not rendered with
the area as first argument: one character of indentation is removed from
every line of the entry, which removes the space inside the area, and the
first argument is `Law`, line feed, `of torts`. -/
theorem C13_counterexample :
    educationEntry { area := some (lit "Law\n of torts") } =
        lit "\\cventry\n       \x7bLaw\nof torts\x7d\n       \x7b\x7d\n       \x7b\x7d\n       \x7bundefined\x7d\n       \x7b\x7d" ∧
      occursIn (lit "\x7b" ++ lit "Law\n of torts" ++ lit "\x7d")
        (educationEntry { area := some (lit "Law\n of torts") }) = false := by
  constructor <;> decide!

/-- C14 (amended).  For an award whose fields hold no line terminator, the
entry is `\cvhonor` followed by four arguments, each between braces on a line
of its own: name, details, location, date, in this order, an absent field
giving the empty argument.  The awards section of such awards is its two
opening lines, one such `\cvhonor` per award in input order, and the closing
line. -/
theorem C14_award_arguments (a : Award) (aw : List Award) (h : a.oneLine = true)
    (hs : ∀ x ∈ aw, x.oneLine = true) :
    awardEntry a = macroCall 2 (lit "\\cvhonor")
        [a.name.getD [], a.details.getD [], a.location.getD [], a.date.getD []] ∧
      generateAwardsSection (some aw) =
        .ok (lit "\\cvsection\x7bHonors \\& Awards\x7d\n\\begin\x7bcvhonors\x7d\n" ++
          (jsJoin [10] (aw.map (fun x => macroCall 0 (lit "\\cvhonor")
            [x.name.getD [], x.details.getD [], x.location.getD [], x.date.getD []])) ++
            lit "\n\\end\x7bcvhonors\x7d")) ∧
      macroCall 2 (lit "\\cvhonor") [lit "Prize", lit "First", lit "Paris", lit "2020"] =
        lit "\\cvhonor\n  \x7bPrize\x7d\n  \x7bFirst\x7d\n  \x7bParis\x7d\n  \x7b2020\x7d" ∧
      awardEntry {} = lit "\\cvhonor\n  \x7b\x7d\n  \x7b\x7d\n  \x7b\x7d\n  \x7b\x7d" := by
  refine ⟨awardEntry_oneLine a h, ?_, by decide, by decide!⟩
  rw [generateAwardsSection_some, awardsText_oneLine aw hs]

theorem C14_award_arguments_witness :
    awardEntry { name := some (lit "Prize"), details := some (lit "First"), date := some (lit "2020"), location := some (lit "Paris") } =
        lit "\\cvhonor\n  \x7bPrize\x7d\n  \x7bFirst\x7d\n  \x7bParis\x7d\n  \x7b2020\x7d" ∧
      generateAwardsSection (some [{ name := some (lit "Prize"), date := some (lit "2020") }, {}]) =
        .ok (lit "\\cvsection\x7bHonors \\& Awards\x7d\n\\begin\x7bcvhonors\x7d\n\\cvhonor\n\x7bPrize\x7d\n\x7b\x7d\n\x7b\x7d\n\x7b2020\x7d\n\\cvhonor\n\x7b\x7d\n\x7b\x7d\n\x7b\x7d\n\x7b\x7d\n\\end\x7bcvhonors\x7d") :=
  have h := C14_award_arguments
    { name := some (lit "Prize"), details := some (lit "First"), date := some (lit "2020"), location := some (lit "Paris") }
    [{ name := some (lit "Prize"), date := some (lit "2020") }, {}] (by decide) (by decide)
  ⟨h.1.trans (by decide!), h.2.1.trans (by decide!)⟩

/-- C14, counterexample.  The award named `a`, line feed, space, `b` is not
rendered with its name as first argument: one character of indentation is
removed from every line of the entry, which removes the space inside the
name. -/
theorem C14_counterexample :
    awardEntry { name := some (lit "a\n b"), date := some (lit "2020") } =
        lit "\\cvhonor\n       \x7ba\nb\x7d\n       \x7b\x7d\n       \x7b\x7d\n       \x7b2020\x7d" ∧
      occursIn (lit "\x7b" ++ lit "a\n b" ++ lit "\x7d")
        (awardEntry { name := some (lit "a\n b"), date := some (lit "2020") }) = false := by
  constructor <;> decide!

/-- C15 (amended).  For a project whose fields hold no line terminator, the
entry is `\cventry` followed by five arguments, each between braces on a line
of its own: description, name, technologies, link, in this order, an absent
field giving the empty argument, and an empty fifth argument; an empty line
and the line `\vspace{-5mm}` follow.  The projects section of such projects,
when there is at least one, is its two opening lines, one such entry per
project in input order, and the closing line; the section keeps its
indentation of two spaces because the lines of `\vspace` begin in the first
column. -/
theorem C15_project_arguments (p : Project) (ps : List Project) (h : p.oneLine = true)
    (hs : ∀ x ∈ ps, x.oneLine = true) (hne : ps ≠ []) :
    projectEntry p = macroCall 2 (lit "\\cventry")
        [p.description.getD [], p.name.getD [], p.technologies.getD [], p.link.getD [], []] ++
          lit "\n\n\\vspace\x7b-5mm\x7d" ∧
      generateProjectsSection (some ps) =
        .ok (lit "\\cvsection\x7bProjects\x7d\n  \\begin\x7bcventries\x7d\n  " ++
          (jsJoin (lit "\n  ") (ps.map (fun x => macroCall 2 (lit "\\cventry")
            [x.description.getD [], x.name.getD [], x.technologies.getD [], x.link.getD [], []] ++
              lit "\n\n\\vspace\x7b-5mm\x7d")) ++ lit "\n  \\end\x7bcventries\x7d")) ∧
      macroCall 2 (lit "\\cventry") [lit "A tool", lit "Tool", lit "Lean", lit "t.io", []] =
        lit "\\cventry\n  \x7bA tool\x7d\n  \x7bTool\x7d\n  \x7bLean\x7d\n  \x7bt.io\x7d\n  \x7b\x7d" ∧
      projectEntry {} =
        lit "\\cventry\n  \x7b\x7d\n  \x7b\x7d\n  \x7b\x7d\n  \x7b\x7d\n  \x7b\x7d\n\n\\vspace\x7b-5mm\x7d" ∧
      generateProjectsSection (some []) =
        .ok (lit "\\cvsection\x7bProjects\x7d\n\\begin\x7bcventries\x7d\n\n\\end\x7bcventries\x7d") := by
  refine ⟨projectEntry_oneLine p h, ?_, by decide, by decide!, by decide!⟩
  rw [generateProjectsSection_some, projectsText_oneLine ps hs hne]

theorem C15_project_arguments_witness :
    projectEntry { name := some (lit "Tool"), description := some (lit "A tool"), technologies := some (lit "Lean"), link := some (lit "t.io") } =
        lit "\\cventry\n  \x7bA tool\x7d\n  \x7bTool\x7d\n  \x7bLean\x7d\n  \x7bt.io\x7d\n  \x7b\x7d\n\n\\vspace\x7b-5mm\x7d" ∧
      generateProjectsSection (some [{ name := some (lit "Tool") }, {}]) =
        .ok (lit "\\cvsection\x7bProjects\x7d\n  \\begin\x7bcventries\x7d\n  \\cventry\n  \x7b\x7d\n  \x7bTool\x7d\n  \x7b\x7d\n  \x7b\x7d\n  \x7b\x7d\n\n\\vspace\x7b-5mm\x7d\n  \\cventry\n  \x7b\x7d\n  \x7b\x7d\n  \x7b\x7d\n  \x7b\x7d\n  \x7b\x7d\n\n\\vspace\x7b-5mm\x7d\n  \\end\x7bcventries\x7d") :=
  have h := C15_project_arguments
    { name := some (lit "Tool"), description := some (lit "A tool"), technologies := some (lit "Lean"), link := some (lit "t.io") }
    [{ name := some (lit "Tool") }, {}] (by decide) (by decide) (by decide)
  ⟨h.1.trans (by decide!), h.2.1.trans (by decide!)⟩

/-- C15, counterexample.  The project whose description is `a`, line feed,
space, `b` is not rendered with its description as first argument: one
character of indentation is removed from every line of the entry, which
removes the space inside the description. -/
theorem C15_counterexample :
    projectEntry { description := some (lit "a\n b"), name := some (lit "P") } =
        lit "\\cventry\n       \x7ba\nb\x7d\n       \x7bP\x7d\n       \x7b\x7d\n       \x7b\x7d\n       \x7b\x7d\n\n     \\vspace\x7b-5mm\x7d" ∧
      occursIn (lit "\x7b" ++ lit "a\n b" ++ lit "\x7d")
        (projectEntry { description := some (lit "a\n b"), name := some (lit "P") }) = false := by
  constructor <;> decide!

/-- C16 (amended).  The row of a skill is the left column, ` & `, the details
between `{\skill{ ` and `}}`, and ` \\`; the left column is the name and `: `
when the name is present and non-empty, and empty otherwise; absent details
give the empty string.  For skills whose fields hold no line terminator, the
skills section is its two opening lines, one `\cventry` with five arguments,
and its closing lines; the first, third, fourth and fifth argument are empty,
and the second is the `tabular` with one row per skill, in input order, each
on a line of its own. -/
theorem C16_skills_table (skill : Skill) (sk : List Skill) (hs : ∀ s ∈ sk, s.oneLine = true) :
    skillRow skill = (if truthy skill.name then skill.name.getD [] ++ lit ": " else []) ++
        lit " & " ++ (lit "\x7b\\skill\x7b " ++ skill.details.getD [] ++ lit "\x7d\x7d") ++
          lit " \\\\" ∧
      generateSkillsSection (some sk) =
        .ok (lit "\\cvsection\x7bSkills\x7d\n\\begin\x7bcventries\x7d\n" ++
          (macroCall 0 (lit "\\cventry")
            [[], lit "\\def\\arraystretch\x7b1.15\x7d\x7b\\begin\x7btabular\x7d\x7b l l \x7d\n" ++
              (jsJoin [10] (sk.map skillRow) ++ lit "\n\\end\x7btabular\x7d\x7d"), [], [], []] ++
            lit "\n\\end\x7bcventries\x7d\n\n\\vspace\x7b-7mm\x7d")) ∧
      skillRow { name := some (lit "Languages"), details := some (lit "Lean, C") } =
        lit "Languages:  & \x7b\\skill\x7b Lean, C\x7d\x7d \\\\" ∧
      skillRow {} = lit " & \x7b\\skill\x7b \x7d\x7d \\\\" ∧
      macroCall 0 (lit "\\cventry") [[], lit "T", [], [], []] =
        lit "\\cventry\n\x7b\x7d\n\x7bT\x7d\n\x7b\x7d\n\x7b\x7d\n\x7b\x7d" := by
  refine ⟨skillRow_eq skill, ?_, by decide, by decide, by decide⟩
  rw [generateSkillsSection_some, skillsText_oneLine sk hs]

theorem C16_skills_table_witness :
    generateSkillsSection (some [{ name := some (lit "A"), details := some (lit "x") }, { details := some (lit "y") }]) =
      .ok (lit "\\cvsection\x7bSkills\x7d\n\\begin\x7bcventries\x7d\n\\cventry\n\x7b\x7d\n\x7b\\def\\arraystretch\x7b1.15\x7d\x7b\\begin\x7btabular\x7d\x7b l l \x7d\nA:  & \x7b\\skill\x7b x\x7d\x7d \\\\\n & \x7b\\skill\x7b y\x7d\x7d \\\\\n\\end\x7btabular\x7d\x7d\x7d\n\x7b\x7d\n\x7b\x7d\n\x7b\x7d\n\\end\x7bcventries\x7d\n\n\\vspace\x7b-7mm\x7d") :=
  (C16_skills_table {} [{ name := some (lit "A"), details := some (lit "x") }, { details := some (lit "y") }]
    (by decide)).2.1.trans (by decide!)

/-- C16, counterexample.  For the one skill named `a`, line feed, space, `b`
the section does not contain the row of the skill: one character of
indentation is removed from every line of the section, which removes the space
inside the name and leaves the other lines indented by one space. -/
theorem C16_counterexample :
    generateSkillsSection (some [{ name := some (lit "a\n b"), details := some (lit "x") }]) =
        .ok (lit "\\cvsection\x7bSkills\x7d\n \\begin\x7bcventries\x7d\n \\cventry\n \x7b\x7d\n \x7b\\def\\arraystretch\x7b1.15\x7d\x7b\\begin\x7btabular\x7d\x7b l l \x7d\n a\nb:  & \x7b\\skill\x7b x\x7d\x7d \\\\\n \\end\x7btabular\x7d\x7d\x7d\n \x7b\x7d\n \x7b\x7d\n \x7b\x7d\n \\end\x7bcventries\x7d\n\n \\vspace\x7b-7mm\x7d") ∧
      skillRow { name := some (lit "a\n b"), details := some (lit "x") } =
        lit "a\n b:  & \x7b\\skill\x7b x\x7d\x7d \\\\" ∧
      occursIn (skillRow { name := some (lit "a\n b"), details := some (lit "x") })
        (lit "\\cvsection\x7bSkills\x7d\n \\begin\x7bcventries\x7d\n \\cventry\n \x7b\x7d\n \x7b\\def\\arraystretch\x7b1.15\x7d\x7b\\begin\x7btabular\x7d\x7b l l \x7d\n a\nb:  & \x7b\\skill\x7b x\x7d\x7d \\\\\n \\end\x7btabular\x7d\x7d\x7d\n \x7b\x7d\n \x7b\x7d\n \x7b\x7d\n \\end\x7bcventries\x7d\n\n \\vspace\x7b-7mm\x7d") = false := by
  refine ⟨by decide!, by decide, by decide!⟩

/-- C17.  For education entries and work entries in whose fields (and
highlights) the text `\cventry` does not occur, `\cventry` occurs in the
education section exactly once for every education entry and in the experience
section exactly once for every work entry.  When the sequence is not empty the
section is its opening lines, then one block of lines for every entry, in
input order, then its closing lines, no `\cventry` in the opening and closing
lines; the block of an entry is the rendered entry after two spaces, every
line without the first `n` characters (the indentation `source` removes, at
most two), and it begins with `\cventry`, which does not occur in it again.
An empty sequence gives the opening lines, an empty line and the closing
lines. -/
theorem C17_entries_in_order (es : List School) (js : List Job)
    (hes : ∀ s ∈ es, s.freeOf (lit "\\cventry") = true)
    (hjs : ∀ j ∈ js, j.freeOf (lit "\\cventry") = true) :
    (∃ t, generateEducationSection (some es) = .ok t ∧
      countOcc (lit "\\cventry") t = es.length ∧
      (es ≠ [] → ∃ n head tail, n ≤ 2 ∧
        t = head ++
          ((es.map (fun s => unindent n (lit "  " ++ educationEntry s ++ [10]))).flatten ++ tail) ∧
        countOcc (lit "\\cventry") head = 0 ∧ countOcc (lit "\\cventry") tail = 0 ∧
        ∀ s ∈ es, ∃ r, unindent n (lit "  " ++ educationEntry s ++ [10]) =
            List.replicate (2 - n) 32 ++ (lit "\\cventry" ++ r) ∧
          countOcc (lit "\\cventry") r = 0)) ∧
    (∃ t, generateExperienceSection (some js) = .ok t ∧
      countOcc (lit "\\cventry") t = js.length ∧
      (js ≠ [] → ∃ n head tail, n ≤ 2 ∧
        t = head ++
          ((js.map (fun j => unindent n (lit "  " ++ experienceEntryText j ++ [10]))).flatten ++
            tail) ∧
        countOcc (lit "\\cventry") head = 0 ∧ countOcc (lit "\\cventry") tail = 0 ∧
        ∀ j ∈ js, ∃ r, unindent n (lit "  " ++ experienceEntryText j ++ [10]) =
            List.replicate (2 - n) 32 ++ (lit "\\cventry" ++ r) ∧
          countOcc (lit "\\cventry") r = 0)) ∧
    (∀ j : Job, experienceEntry j = .ok (experienceEntryText j)) ∧
    generateEducationSection (some []) =
      .ok (lit "%%%%%%%%%%%%%%%%%%%%%%%%%%%%%%%%%%%%%%\n%     Education\n%%%%%%%%%%%%%%%%%%%%%%%%%%%%%%%%%%%%%%\n\\cvsection\x7bEducation\x7d\n\\begin\x7bcventries\x7d\n\n\\end\x7bcventries\x7d\n\n\\vspace\x7b-2mm\x7d") ∧
    generateExperienceSection (some []) =
      .ok (lit "%%%%%%%%%%%%%%%%%%%%%%%%%%%%%%%%%%%%%%\n%     Experience\n%%%%%%%%%%%%%%%%%%%%%%%%%%%%%%%%%%%%%%\n\\cvsection\x7bExperience\x7d\n\\begin\x7bcventries\x7d\n\n\\end\x7bcventries\x7d") := by
  refine ⟨⟨_, generateEducationSection_some es, ?_, ?_⟩,
    ⟨_, generateExperienceSection_some js, ?_, ?_⟩, experienceEntry_eq, by decide!, by decide!⟩
  · cases es with
    | nil => decide!
    | cons s es => exact (educationText_count (s :: es) (by simp) hes).1
  · intro hne
    exact (educationText_count es hne hes).2
  · cases js with
    | nil => decide!
    | cons j js => exact (experienceText_count (j :: js) (by simp) hjs).1
  · intro hne
    exact (experienceText_count js hne hjs).2

theorem C17_entries_in_order_witness :
    (∃ t, generateEducationSection (some [{ institution := some (lit "MIT") }, { area := some (lit "Law\n of torts") }]) = .ok t ∧
      countOcc (lit "\\cventry") t = 2) ∧
    (∃ t, generateExperienceSection (some [{ company := some (lit "ACME"), highlights := some [lit "Did X"] }, {}, { position := some (lit "Dev") }]) = .ok t ∧
      countOcc (lit "\\cventry") t = 3) :=
  have h := C17_entries_in_order
    [{ institution := some (lit "MIT") }, { area := some (lit "Law\n of torts") }]
    [{ company := some (lit "ACME"), highlights := some [lit "Did X"] }, {}, { position := some (lit "Dev") }]
    (by decide) (by decide)
  ⟨h.1.elim (fun t ht => ⟨t, ht.1, ht.2.1⟩), h.2.1.elim (fun t ht => ⟨t, ht.1, ht.2.1⟩)⟩

/-- C18.  The name line of a non-empty name carries the two tokens
`nameStart` and `nameEnd` of the split.  When the name contains a space,
`nameStart` contains none and `nameStart`, a space and `nameEnd` give back the
name, character for character; when it contains no space, `nameStart` is the
name and `nameEnd` is empty.  Names with a leading space, a trailing space and
two consecutive spaces are split accordingly. -/
theorem C18_name_round_trip (nm : Str) (h : nm ≠ []) :
    nameLine (some nm) = .ok (lit "\\headerfirstnamestyle\x7b" ++ (nameTokens nm).1 ++
        lit "\x7d \\headerlastnamestyle\x7b" ++ (nameTokens nm).2 ++ lit "\x7d \\\\") ∧
      (32 ∈ nm → 32 ∉ (nameTokens nm).1 ∧
        (nameTokens nm).1 ++ [32] ++ (nameTokens nm).2 = nm) ∧
      (32 ∉ nm → (nameTokens nm).1 = nm ∧ (nameTokens nm).2 = []) ∧
      nameTokens (lit " Ada") = ([], lit "Ada") ∧
      nameTokens (lit "Ada ") = (lit "Ada", []) ∧
      nameTokens (lit "Ada  King") = (lit "Ada", lit " King") ∧
      nameTokens (lit "Ada B King") = (lit "Ada", lit "B King") := by
  have hfirst : (nameTokens nm).1 = nm.takeWhile (fun c => c != 32) := by
    simp only [nameTokens, jsSplit_head, ofOpt, JSVal.toStr]
  have hlast : (nameTokens nm).2 = (nm.dropWhile (fun c => c != 32)).drop 1 := by
    simp only [nameTokens]
    by_cases h1 : (jsSplit 32 nm).length = 1
    · have h32 : 32 ∉ nm := (jsSplit_length_eq_one 32 nm).mp h1
      have hd : nm.dropWhile (fun c => c != 32) = [] := by
        rw [List.dropWhile_eq_nil_iff]
        intro x hx
        have : x ≠ 32 := fun e => h32 (e ▸ hx)
        simpa using this
      simp [h1, hd]
    · simp only [h1, if_false, jsSlice, List.take_length]
      rw [List.drop_one (jsSplit 32 nm), jsSplit_tail]
  refine ⟨?_, ?_, ?_, by decide, by decide, by decide, by decide⟩
  · rw [nameLine_eq]
    have hne : nm.isEmpty = false := by
      cases nm with
      | nil => exact absurd rfl h
      | cons c cs => rfl
    simp only [nameLineText, hne, Bool.false_eq_true, if_false]
  · intro h32
    rw [hfirst, hlast]
    constructor
    · intro hmem
      have := List.mem_takeWhile_imp hmem
      simp at this
    · have hd : nm.dropWhile (fun c => c != 32) ≠ [] := by
        intro e
        rw [List.dropWhile_eq_nil_iff] at e
        have := e 32 h32
        simp at this
      have hhead := List.head_dropWhile_not (fun c => c != 32) nm hd
      cases hdw : nm.dropWhile (fun c => c != 32) with
      | nil => exact absurd hdw hd
      | cons x xs =>
        simp only [hdw, List.head_cons, bne_iff_ne, ne_eq, Decidable.not_not,
          Bool.not_eq_true, bne_eq_false_iff_eq] at hhead
        subst hhead
        have := List.takeWhile_append_dropWhile (fun c => c != 32) nm
        rw [hdw] at this
        simpa using this
  · intro h32
    have hall : ∀ x ∈ nm, (fun c => c != 32) x = true := by
      intro x hx
      have : x ≠ 32 := fun e => h32 (e ▸ hx)
      simpa using this
    rw [hfirst, hlast]
    constructor
    · exact List.takeWhile_eq_self_iff.mpr hall
    · rw [List.dropWhile_eq_nil_iff.mpr hall]
      rfl

theorem C18_name_round_trip_witness :
    (32 ∉ (nameTokens (lit "Grace Brewster Hopper")).1 ∧
      (nameTokens (lit "Grace Brewster Hopper")).1 ++ [32] ++
        (nameTokens (lit "Grace Brewster Hopper")).2 = lit "Grace Brewster Hopper") ∧
      (nameTokens (lit "Plato")).1 = lit "Plato" ∧ (nameTokens (lit "Plato")).2 = [] :=
  ⟨(C18_name_round_trip (lit "Grace Brewster Hopper") (by decide)).2.1 (by decide),
    (C18_name_round_trip (lit "Plato") (by decide)).2.2.1 (by decide)⟩

end Template2
